import Mathlib

/-!
# DSTC RPC engine: a shallow embedding of `dstc.c`

The definitions follow `src/dstc.c` function by function and keep its names.

Conventions of the embedding.

* A byte is a `Nat`; memory regions are `List Nat`.  Machine integers are `Nat`
  with an explicit `% 2 ^ w` wherever the C code narrows a value.
* A C string argument (`char*`) is the list of bytes found at the pointer; the
  string proper is the part before the first zero byte (`cstr`), and the
  terminator is implicit after the end of the list.
* Function pointers (dispatch handles) are `Nat` addresses, `0` being null.
  Invoking a dispatch handle is recorded in the ghost trace
  `dstc_state.dispatched`.
* The tables of the engine (`_dstc_server_func`, `local_callback`,
  `remote_node`, ...) are lists whose length is the corresponding high-water
  index (`_dstc_server_func_ind`, `callback_ind`, `remote_node_ind`).
* The reliable-multicast transport is an external library.  Its publisher
  context is the record `rmc_pub_context_t` of the answers it gives to the
  engine and of the packets the engine handed to it.
* `exit(255)` and a store outside the payload buffer are the two faults of
  `dstc_fault`; a function that can hit one returns `Except dstc_fault _`.
* The types of `dstc.h` are not among the sources.  The header layout, the 64-bit
  callback reference and the 32-bit argument length of a dispatch handle are those
  the specification gives; the capacity of the payload buffer is the length of the
  list `pub_buffer`, and the table size `SYMTAB_SIZE` is not fixed here.
-/

namespace Dstc

/-! ## Constants -/

/-- The errno value `EINVAL`. -/
def EINVAL : Nat := 22

/-- The errno value `EBUSY`. -/
def EBUSY : Nat := 16

/-- The errno value `ETIME`. -/
def ETIME : Nat := 62

/-- Modelled from the spec: `sizeof(dstc_header_t)`.  The header type is declared in
`dstc.h`, which is not among the sources; the spec gives a 4-byte little-endian
caller node id at offset 0, a 4-byte little-endian payload length at offset 4 and
the payload at offset 8. -/
def HEADER_SIZE : Nat := 8

/-- Model of `SUSPEND_TRAFFIC_THRESHOLD` of `dstc.c`. -/
def SUSPEND_TRAFFIC_THRESHOLD : Nat := 3000

/-- Model of `RESTART_TRAFFIC_THRESHOLD` of `dstc.c`. -/
def RESTART_TRAFFIC_THRESHOLD : Nat := 2800

/-! ## Bytes, strings and little-endian integers -/

/-- The C string held by a byte region: the bytes before the first zero byte. -/
def cstr (s : List Nat) : List Nat := s.takeWhile (fun b => b != 0)

/-- Model of `strlen`. -/
def strlen (s : List Nat) : Nat := (cstr s).length

/-- The byte at offset `i` of a region (zero past the end of the model region). -/
def peek (mem : List Nat) (i : Nat) : Nat := mem.getD i 0

/-- The `n` little-endian bytes of `v`, i.e. the object representation of an
unsigned integer of `n` bytes holding `v % 256 ^ n`. -/
def le_bytes : Nat → Nat → List Nat
  | 0, _ => []
  | n + 1, v => v % 256 :: le_bytes n (v / 256)

/-- Read an unsigned little-endian integer of `n` bytes at offset `off`. -/
def le_read (mem : List Nat) (off : Nat) : Nat → Nat
  | 0 => 0
  | n + 1 => peek mem off + 256 * le_read mem (off + 1) n

/-! ## Faults -/

/-- The ways a call can fail to return. -/
inductive dstc_fault where
  /-- Model of `exit(code)` after a `RMC_LOG_FATAL`. -/
  | exit (code : Nat)
  /-- A `memcpy` or store that leaves the payload buffer, or reads past the
  argument region it was given (undefined behaviour in C). -/
  | overrun
  deriving DecidableEq, Repr

/-- Store `bytes` at offset `off` of the region `buf`; faults when the bytes do not
lie inside the region. -/
def store (buf : List Nat) (off : Nat) (bytes : List Nat) : Except dstc_fault (List Nat) :=
  if off + bytes.length ≤ buf.length then
    .ok (buf.take off ++ bytes ++ buf.drop (off + bytes.length))
  else
    .error .overrun

/-- Load `n` bytes from the start of the argument region `arg`; faults when the
region is shorter than `n`. -/
def load (arg : List Nat) (n : Nat) : Except dstc_fault (List Nat) :=
  if n ≤ arg.length then .ok (arg.take n) else .error .overrun

/-! ## Data model -/

/-- The publisher side of the transport, as the engine sees it. -/
structure rmc_pub_context_t where
  /-- Answer of `rmc_pub_node_id`. -/
  node_id : Nat
  /-- Answer of `rmc_pub_traffic_suspended`. -/
  traffic_suspended : Bool
  /-- Return code of `rmc_pub_queue_packet` (0 when the packet is accepted). -/
  queue_packet_rc : Nat
  /-- Packets accepted by `rmc_pub_queue_packet`, oldest first. -/
  queued : List (List Nat)
  /-- Value given to `rmc_pub_set_announce_interval`, if it was called. -/
  announce_interval : Option Nat
  /-- Thresholds given to `rmc_pub_throttling`. -/
  throttling : Option (Nat × Nat)
  deriving DecidableEq, Repr

/-- An entry of `_dstc_server_func`. -/
structure dstc_server_func_t where
  func_name : List Nat
  server_func : Nat
  deriving DecidableEq, Repr

/-- An entry of `_dstc_client_func`. -/
structure dstc_client_func_t where
  func_name : List Nat
  client_func : Nat
  deriving DecidableEq, Repr

/-- An entry of `local_callback`. -/
structure dstc_callback_entry_t where
  callback_ref : Nat
  callback : Nat
  deriving DecidableEq, Repr

/-- An entry of `remote_node`. -/
structure dstc_remote_node_t where
  node_id : Nat
  func_name : List Nat
  deriving DecidableEq, Repr

/-- One invocation of a dispatch handle
`(*func)(callback_ref, node_id, name, payload, payload_len)`. -/
structure dstc_dispatch_t where
  /-- The handle that was invoked. -/
  func : Nat
  callback_ref : Nat
  node_id : Nat
  /-- The C string at the `name` pointer. -/
  name : List Nat
  /-- Offset of the `payload` pointer from the start of the record. -/
  payload_off : Nat
  /-- The `payload_len` bytes at the `payload` pointer. -/
  payload : List Nat
  payload_len : Nat
  deriving DecidableEq, Repr

/-- The engine context `dstc_context_t`. -/
structure dstc_context_t where
  epoll_fd : Int
  /-- The slots `remote_node[0 .. remote_node_ind)`. -/
  remote_node : List dstc_remote_node_t
  /-- The slots `local_callback[0 .. callback_ind)`. -/
  local_callback : List dstc_callback_entry_t
  /-- The array `pub_buffer`; its length is `sizeof(ctx->pub_buffer)`. -/
  pub_buffer : List Nat
  pub_buffer_ind : Nat
  pub_ctx : rmc_pub_context_t
  deriving DecidableEq, Repr

/-- Answers of the operating system and of the transport that the engine cannot
influence. -/
structure dstc_env where
  /-- Result of `epoll_create(1)`. -/
  epoll_create_fd : Int
  /-- Whether `malloc` returns null. -/
  malloc_fails : Bool
  /-- Value of the node id environment variable (0 when it is not set). -/
  getenv_node_id : Nat
  /-- Node id the transport picks when it is asked to allocate one. -/
  rmc_alloc_node_id : Nat
  deriving DecidableEq, Repr

/-- The global state of `dstc.c`. -/
structure dstc_state where
  /-- The flag `_dstc_initialized`. -/
  initialized : Bool
  /-- The context `_dstc_default_context`. -/
  ctx : dstc_context_t
  /-- The slots `_dstc_client_func[0 .. _dstc_client_func_ind)`. -/
  client_func : List dstc_client_func_t
  /-- The counter `_dstc_client_callback_count`. -/
  client_callback_count : Nat
  /-- The slots `_dstc_server_func[0 .. _dstc_server_func_ind)`. -/
  server_func : List dstc_server_func_t
  /-- Ghost trace: the dispatch handles invoked so far, oldest first. -/
  dispatched : List dstc_dispatch_t
  env : dstc_env
  deriving DecidableEq, Repr

/-! ## Payload buffer -/

/-- Model of `dstc_payload_buffer_in_use`. -/
def dstc_payload_buffer_in_use (ctx : dstc_context_t) : Nat := ctx.pub_buffer_ind

/-- Model of `dstc_payload_buffer_available`: `sizeof(ctx->pub_buffer) - ctx->pub_buffer_ind`,
returned as a `uint32_t`. -/
def dstc_payload_buffer_available (ctx : dstc_context_t) : Nat :=
  (ctx.pub_buffer.length + 2 ^ 64 - ctx.pub_buffer_ind % 2 ^ 64) % 2 ^ 64 % 2 ^ 32

/-- Model of `dstc_payload_buffer_alloc`: `none` is the null pointer; otherwise the offset
of the region in `pub_buffer` and the context with the cursor advanced. -/
def dstc_payload_buffer_alloc (ctx : dstc_context_t) (size : Nat) :
    Option (Nat × dstc_context_t) :=
  if dstc_payload_buffer_available ctx < size then none
  else some (dstc_payload_buffer_in_use ctx,
    { ctx with pub_buffer_ind := (ctx.pub_buffer_ind + size) % 2 ^ 32 })

/-- Model of `dstc_payload_buffer_empty`. -/
def dstc_payload_buffer_empty (ctx : dstc_context_t) : dstc_context_t :=
  { ctx with pub_buffer_ind := 0 }

/-! ## Registries -/

/-- The loop of `dstc_find_server_function`: `i` counts down from
`_dstc_server_func_ind`, and the first slot whose name compares equal wins. -/
def dstc_find_server_function_loop (tbl : List dstc_server_func_t) (name : List Nat) :
    Nat → Nat
  | 0 => 0
  | i + 1 =>
    match tbl.get? i with
    | some e =>
      if cstr e.func_name = cstr name then e.server_func
      else dstc_find_server_function_loop tbl name i
    | none => dstc_find_server_function_loop tbl name i

/-- Model of `dstc_find_server_function`. -/
def dstc_find_server_function (s : dstc_state) (name : List Nat) : Nat :=
  dstc_find_server_function_loop s.server_func name s.server_func.length

/-- The loop of `dstc_find_callback_by_ref` over the slots from index 0 upwards: the
first slot carrying the reference is returned and nilled out. -/
def dstc_find_callback_by_ref_loop :
    List dstc_callback_entry_t → Nat → Nat × List dstc_callback_entry_t
  | [], _ => (0, [])
  | e :: rest, callback_ref =>
    if e.callback_ref = callback_ref then
      (e.callback, { callback_ref := 0, callback := 0 } :: rest)
    else
      let r := dstc_find_callback_by_ref_loop rest callback_ref
      (r.1, e :: r.2)

/-- Model of `dstc_find_callback_by_ref`. -/
def dstc_find_callback_by_ref (s : dstc_state) (callback_ref : Nat) : Nat × dstc_state :=
  let r := dstc_find_callback_by_ref_loop s.ctx.local_callback callback_ref
  (r.1, { s with ctx := { s.ctx with local_callback := r.2 } })

/-! ## Setup -/

/-- Model of `dstc_get_node_id`. -/
def dstc_get_node_id (s : dstc_state) : Nat :=
  if !s.initialized then 0 else s.ctx.pub_ctx.node_id

/-- The publisher context produced by `rmc_pub_init_context` followed by
`rmc_pub_throttling`: a node id of 0 lets the transport allocate one; nothing is in
flight, so traffic is not suspended. -/
def rmc_pub_init_context (env : dstc_env) (node_id : Nat) : rmc_pub_context_t :=
  { node_id := if node_id = 0 then env.rmc_alloc_node_id else node_id
    traffic_suspended := false
    queue_packet_rc := 0
    queued := []
    announce_interval := none
    throttling := some (SUSPEND_TRAFFIC_THRESHOLD, RESTART_TRAFFIC_THRESHOLD) }

/-- Model of `dstc_setup_internal`, called on `&_dstc_default_context` (never null).  The
multicast and control-channel parameters are handed to the transport unchanged and
are left out. -/
def dstc_setup_internal (s : dstc_state) (node_id : Nat) (epoll_fd_arg : Int) :
    Nat × dstc_state :=
  if epoll_fd_arg = -1 then (EINVAL, s)
  else
    let pub := rmc_pub_init_context s.env node_id
    let pub :=
      if s.client_func.length ≠ 0 ∨ s.client_callback_count ≠ 0 then
        { pub with announce_interval := some 200000 }
      else pub
    (0, { s with ctx := { s.ctx with
            epoll_fd := epoll_fd_arg
            remote_node := []
            local_callback := []
            pub_buffer_ind := 0
            pub_ctx := pub } })

/-- Model of `dstc_setup_epoll`. -/
def dstc_setup_epoll (s : dstc_state) (epoll_fd_arg : Int) : Nat × dstc_state :=
  if s.initialized then (EBUSY, s)
  else dstc_setup_internal { s with initialized := true } s.env.getenv_node_id epoll_fd_arg

/-- Model of `dstc_setup`. -/
def dstc_setup (s : dstc_state) : Nat × dstc_state :=
  if s.initialized then (EBUSY, s)
  else dstc_setup_epoll s s.env.epoll_create_fd

/-- Model of `dstc_setup2`. -/
def dstc_setup2 (s : dstc_state) (epoll_fd_arg : Int) (node_id : Nat) : Nat × dstc_state :=
  if s.initialized then (EBUSY, s)
  else dstc_setup_internal { s with initialized := true } node_id
    (if epoll_fd_arg ≠ -1 then epoll_fd_arg else s.env.epoll_create_fd)

/-! ## Outbound path -/

/-- Model of `rmc_pub_queue_packet`: the transport answers with its return code and keeps the
packet when the code is 0. -/
def rmc_pub_queue_packet (pub : rmc_pub_context_t) (packet : List Nat) :
    Nat × rmc_pub_context_t :=
  if pub.queue_packet_rc = 0 then (0, { pub with queued := pub.queued ++ [packet] })
  else (pub.queue_packet_rc, pub)

/-- Model of `queue_pending_calls`. -/
def queue_pending_calls (s : dstc_state) : Except dstc_fault (Nat × dstc_state) :=
  if s.ctx.pub_ctx.traffic_suspended = false ∧ dstc_payload_buffer_in_use s.ctx > 0 then
    if s.env.malloc_fails then .error (.exit 255)
    else
      let rmc_data := s.ctx.pub_buffer.take (dstc_payload_buffer_in_use s.ctx)
      let r := rmc_pub_queue_packet s.ctx.pub_ctx rmc_data
      if r.1 ≠ 0 then .error (.exit 255)
      else
        .ok (0, { s with ctx := dstc_payload_buffer_empty { s.ctx with pub_ctx := r.2 } })
  else .ok (0, s)

/-- The stores of `dstc_queue` into the allocated record at offset `call` of the
payload buffer, in the order of the source. -/
def dstc_queue_fill (buf : List Nat) (call : Nat) (node_id : Nat) (name : Option (List Nat))
    (callback_ref : Nat) (arg : List Nat) (arg_sz : Nat) : Except dstc_fault (List Nat) := do
  let buf ← store buf call (le_bytes 4 node_id)
  match name with
  | some nm =>
    let name_len := strlen nm
    let buf ← store buf (call + HEADER_SIZE) (cstr nm ++ [0])
    let buf ← store buf (call + 4) (le_bytes 4 (name_len + 1 + arg_sz))
    let bytes ← load arg arg_sz
    store buf (call + HEADER_SIZE + name_len + 1) bytes
  | none =>
    let buf ← store buf (call + HEADER_SIZE) [0]
    let buf ← store buf (call + HEADER_SIZE + 1) (le_bytes 8 callback_ref)
    let buf ← store buf (call + 4) (le_bytes 4 (1 + 8 + arg_sz))
    let bytes ← load arg arg_sz
    store buf (call + HEADER_SIZE + 1 + 8) bytes

/-- Model of `dstc_queue`.  `name = none` is the null pointer. -/
def dstc_queue (s : dstc_state) (name : Option (List Nat)) (callback_ref : Nat)
    (arg : List Nat) (arg_sz : Nat) : Except dstc_fault (Nat × dstc_state) :=
  let name_len := match name with
    | some nm => strlen nm
    | none => 0
  if (name = none ∨ name.map cstr = some []) ∧ callback_ref = 0 then .ok (EINVAL, s)
  else
    let s := if !s.initialized then (dstc_setup s).2 else s
    -- `uint16_t id_len`
    let id_len := (if callback_ref ≠ 0 then 8 + 1 else name_len + 1) % 2 ^ 16
    -- the `uint32_t size` parameter of the allocator
    match dstc_payload_buffer_alloc s.ctx ((HEADER_SIZE + id_len + arg_sz) % 2 ^ 32) with
    | none => .ok (EBUSY, s)
    | some (call, ctx) =>
      match dstc_queue_fill ctx.pub_buffer call (dstc_get_node_id s) name callback_ref
          arg arg_sz with
      | .error f => .error f
      | .ok buf => queue_pending_calls { s with ctx := { ctx with pub_buffer := buf } }

/-- Model of `dstc_queue_callback`. -/
def dstc_queue_callback (s : dstc_state) (addr : Nat) (arg : List Nat) (arg_sz : Nat) :
    Except dstc_fault (Nat × dstc_state) :=
  dstc_queue s none addr arg arg_sz

/-- Model of `dstc_queue_func`. -/
def dstc_queue_func (s : dstc_state) (name : Option (List Nat)) (arg : List Nat)
    (arg_sz : Nat) : Except dstc_fault (Nat × dstc_state) :=
  dstc_queue s name 0 arg arg_sz

/-! ## Inbound path -/

/-- Model of `dstc_process_function_call` on the record at `data` with `data_len` bytes left in
the packet.  Returns the `uint32_t` count of consumed bytes. -/
def dstc_process_function_call (s : dstc_state) (data : List Nat) (data_len : Nat) :
    Nat × dstc_state :=
  if data_len < HEADER_SIZE then (data_len, s)
  else
    let node_id := le_read data 0 4
    let payload_len := le_read data 4 4
    if data_len - HEADER_SIZE < payload_len then (data_len, s)
    else
      let payload := data.drop HEADER_SIZE
      let consumed := (HEADER_SIZE + payload_len) % 2 ^ 32
      if peek payload 0 ≠ 0 then
        let name_len := strlen payload
        let local_func_ptr := dstc_find_server_function s payload
        if local_func_ptr = 0 then (consumed, s)
        else
          -- `call->payload_len - name_len - 1` in `size_t`, narrowed to 32 bits
          let len := (payload_len + 2 ^ 64 - name_len % 2 ^ 64 + 2 ^ 64 - 1) % 2 ^ 64 % 2 ^ 32
          let off := HEADER_SIZE + name_len + 1
          (consumed, { s with dispatched := s.dispatched ++
            [{ func := local_func_ptr, callback_ref := 0, node_id := node_id
               name := cstr payload, payload_off := off
               payload := (data.drop off).take len, payload_len := len }] })
      else
        let callback_ref := le_read payload 1 8
        let r := dstc_find_callback_by_ref s callback_ref
        let local_func_ptr := r.1
        let s := r.2
        if local_func_ptr = 0 then (consumed, s)
        else
          let len := (payload_len + 2 ^ 64 - 1 + 2 ^ 64 - 8) % 2 ^ 64 % 2 ^ 32
          let off := HEADER_SIZE + 1 + 8
          (consumed, { s with dispatched := s.dispatched ++
            [{ func := local_func_ptr, callback_ref := callback_ref, node_id := node_id
               name := cstr payload, payload_off := off
               payload := (data.drop off).take len, payload_len := len }] })

/-! ## Pending callbacks -/

/-- The search loop of `dstc_activate_callback`: the lowest index below `callback_ind`
whose slot has a null dispatch handle, or `callback_ind` when there is none. -/
def dstc_activate_callback_slot : List dstc_callback_entry_t → Nat
  | [] => 0
  | e :: rest => if e.callback = 0 then 0 else dstc_activate_callback_slot rest + 1

/-- Model of `dstc_activate_callback`.  `SYMTAB_SIZE` is the table size declared in
`dstc.h`; it is a parameter here. -/
def dstc_activate_callback (SYMTAB_SIZE : Nat) (s : dstc_state) (callback_ref callback : Nat) :
    Except dstc_fault (Nat × dstc_state) :=
  let ind := dstc_activate_callback_slot s.ctx.local_callback
  if ind = SYMTAB_SIZE then .error (.exit 255)
  else
    let entry : dstc_callback_entry_t := { callback_ref := callback_ref, callback := callback }
    let tbl :=
      if ind = s.ctx.local_callback.length then s.ctx.local_callback ++ [entry]
      else s.ctx.local_callback.set ind entry
    .ok (callback_ref, { s with ctx := { s.ctx with local_callback := tbl } })

/-- The loop of `dstc_find_callback_by_func` over the slots from index 0 upwards: the
first slot carrying the dispatch handle is returned and nilled out. -/
def dstc_find_callback_by_func_loop :
    List dstc_callback_entry_t → Nat → Nat × List dstc_callback_entry_t
  | [], _ => (0, [])
  | e :: rest, func =>
    if e.callback = func then
      (e.callback, { callback_ref := 0, callback := 0 } :: rest)
    else
      let r := dstc_find_callback_by_func_loop rest func
      (r.1, e :: r.2)

/-- Model of `dstc_find_callback_by_func`. -/
def dstc_find_callback_by_func (s : dstc_state) (func : Nat) : Nat × dstc_state :=
  let r := dstc_find_callback_by_func_loop s.ctx.local_callback func
  (r.1, { s with ctx := { s.ctx with local_callback := r.2 } })

/-- Model of `dstc_cancel_callback`. -/
def dstc_cancel_callback (s : dstc_state) (callback : Nat) : dstc_state :=
  (dstc_find_callback_by_func s callback).2

/-! ## Remote availability map -/

/-- The loop of `dstc_remote_function_available_by_name`: `ind` counts down from
`remote_node_ind`. -/
def dstc_remote_function_available_by_name_loop (tbl : List dstc_remote_node_t)
    (func_name : List Nat) : Nat → Nat
  | 0 => 0
  | ind + 1 =>
    match tbl.get? ind with
    | some e =>
      if cstr func_name = cstr e.func_name then 1
      else dstc_remote_function_available_by_name_loop tbl func_name ind
    | none => dstc_remote_function_available_by_name_loop tbl func_name ind

/-- Model of `dstc_remote_function_available_by_name`.  The function only reads the
engine state. -/
def dstc_remote_function_available_by_name (s : dstc_state) (func_name : List Nat) : Nat :=
  dstc_remote_function_available_by_name_loop s.ctx.remote_node func_name
    s.ctx.remote_node.length

/-- The search loop of `dstc_remote_function_available`: `ind` counts down from
`_dstc_client_func_ind`; the result is the slot at which the loop breaks, `none`
standing for `ind == -1`. -/
def dstc_remote_function_available_loop (tbl : List dstc_client_func_t) (client_func : Nat) :
    Nat → Option dstc_client_func_t
  | 0 => none
  | ind + 1 =>
    match tbl.get? ind with
    | some e =>
      if e.client_func = client_func then some e
      else dstc_remote_function_available_loop tbl client_func ind
    | none => dstc_remote_function_available_loop tbl client_func ind

/-- Model of `dstc_remote_function_available`.  The function only reads the engine
state. -/
def dstc_remote_function_available (s : dstc_state) (client_func : Nat) : Nat :=
  match dstc_remote_function_available_loop s.client_func client_func s.client_func.length with
  | none => 0
  | some e => dstc_remote_function_available_by_name s e.func_name

/-- The duplicate search of `dstc_register_remote_function`: `ind` counts down from
`remote_node_ind`. -/
def dstc_register_remote_function_loop (tbl : List dstc_remote_node_t) (node_id : Nat)
    (func_name : List Nat) : Nat → Bool
  | 0 => false
  | ind + 1 =>
    match tbl.get? ind with
    | some e =>
      if node_id = e.node_id ∧ cstr func_name = cstr e.func_name then true
      else dstc_register_remote_function_loop tbl node_id func_name ind
    | none => dstc_register_remote_function_loop tbl node_id func_name ind

/-- Model of `dstc_register_remote_function`.  The `strcpy` stores the C string of
`func_name`. -/
def dstc_register_remote_function (SYMTAB_SIZE : Nat) (s : dstc_state) (node_id : Nat)
    (func_name : List Nat) : Except dstc_fault dstc_state :=
  if dstc_register_remote_function_loop s.ctx.remote_node node_id func_name
      s.ctx.remote_node.length then .ok s
  else if s.ctx.remote_node.length = SYMTAB_SIZE then .error (.exit 255)
  else
    .ok { s with ctx := { s.ctx with
      remote_node := s.ctx.remote_node ++ [{ node_id := node_id, func_name := cstr func_name }] } }

/-- Model of `dstc_unregister_remote_node`.  Every iteration of the loop touches its own
slot only: a slot of the node gets `node_id = 0` and `func_name[0] = 0`. -/
def dstc_unregister_remote_node (s : dstc_state) (node_id : Nat) : dstc_state :=
  { s with ctx := { s.ctx with
      remote_node := s.ctx.remote_node.map (fun e =>
        if node_id = e.node_id then { node_id := 0, func_name := 0 :: e.func_name.drop 1 }
        else e) } }

/-- Model of `dstc_subscriber_control_message_cb`.  The payload is read as a
`dstc_control_message_t`: the node id in the first four bytes, the name after it. -/
def dstc_subscriber_control_message_cb (SYMTAB_SIZE : Nat) (s : dstc_state)
    (payload : List Nat) : Except dstc_fault dstc_state :=
  dstc_register_remote_function SYMTAB_SIZE s (le_read payload 0 4) (payload.drop 4)

/-- Model of `dstc_subscriber_disconnect_cb`, invoked by the transport with the publisher
context `ctx` on which a subscriber dropped; `rmc_pub_node_id(ctx)` is the node id of that
publisher context. -/
def dstc_subscriber_disconnect_cb (s : dstc_state) (ctx : rmc_pub_context_t) : dstc_state :=
  dstc_unregister_remote_node s ctx.node_id

/-! ## The wire layout as the specification states it -/

/-- The record of a named invocation in the words of the spec: caller node id and
payload length as 4 little-endian bytes each, then the name, one zero byte and the
argument bytes. -/
def spec_named_record (node_id : Nat) (N A : List Nat) : List Nat :=
  le_bytes 4 node_id ++ le_bytes 4 (N.length + 1 + A.length) ++ (N ++ [0]) ++ A

/-- The record of a callback invocation in the words of the spec: caller node id and
payload length as 4 little-endian bytes each, then one zero byte, the callback
reference as 8 little-endian bytes and the argument bytes. -/
def spec_callback_record (node_id R : Nat) (A : List Nat) : List Nat :=
  le_bytes 4 node_id ++ le_bytes 4 (1 + 8 + A.length) ++ ([0] ++ le_bytes 8 R) ++ A


/-! ## The inbound loop -/

/-- The inner loop of `dstc_process_incoming` over one packet: while `ind` is below the
payload length, `dstc_process_function_call` is run on the remainder and `ind` (a
`uint32_t`) advances by its result.  `fuel` bounds the number of iterations; the result
lists the offsets at which a call was processed (ghost trace), with the final `ind` and
state, and is `none` when the fuel runs out. -/
def dstc_process_incoming_loop :
    Nat → dstc_state → List Nat → Nat → Nat → Option (Nat × List Nat × dstc_state)
  | 0, s, _, payload_len, ind =>
    if ind < payload_len then none else some (ind, [], s)
  | fuel + 1, s, payload, payload_len, ind =>
    if ind < payload_len then
      let r := dstc_process_function_call s (payload.drop ind) (payload_len - ind)
      match dstc_process_incoming_loop fuel r.2 payload payload_len ((ind + r.1) % 2 ^ 32) with
      | some (ind', steps, s') => some (ind', ind :: steps, s')
      | none => none
    else some (ind, [], s)

/-- What a dispatch handle is given, apart from the handle itself. -/
structure dstc_invocation_t where
  callback_ref : Nat
  node_id : Nat
  name : List Nat
  payload : List Nat
  payload_len : Nat
  deriving DecidableEq, Repr

/-- The invocation that `dstc_process_function_call` reads from a record: the arguments
it hands to the dispatch handle it finds, by name when the first payload byte is
non-zero and by callback reference otherwise. -/
def dstc_read_invocation (data : List Nat) : dstc_invocation_t :=
  let node_id := le_read data 0 4
  let payload_len := le_read data 4 4
  let payload := data.drop HEADER_SIZE
  if peek payload 0 ≠ 0 then
    let name_len := strlen payload
    let len := (payload_len + 2 ^ 64 - name_len % 2 ^ 64 + 2 ^ 64 - 1) % 2 ^ 64 % 2 ^ 32
    { callback_ref := 0, node_id := node_id, name := cstr payload
      payload := (data.drop (HEADER_SIZE + name_len + 1)).take len, payload_len := len }
  else
    let len := (payload_len + 2 ^ 64 - 1 + 2 ^ 64 - 8) % 2 ^ 64 % 2 ^ 32
    { callback_ref := le_read payload 1 8, node_id := node_id, name := cstr payload
      payload := (data.drop (HEADER_SIZE + 1 + 8)).take len, payload_len := len }

/-! ## Sequences of enqueue calls -/

/-- A call of one of the two public enqueue operations. -/
inductive queue_call where
  /-- The call `dstc_queue_func(name, arg, arg_sz)`. -/
  | func (name : List Nat) (arg : List Nat) (arg_sz : Nat)
  /-- The call `dstc_queue_callback(addr, arg, arg_sz)`. -/
  | callback (addr : Nat) (arg : List Nat) (arg_sz : Nat)
  deriving DecidableEq, Repr

/-- Perform one enqueue call. -/
def queue_call.perform (s : dstc_state) : queue_call → Except dstc_fault (Nat × dstc_state)
  | .func name arg arg_sz => dstc_queue_func s (some name) arg arg_sz
  | .callback addr arg arg_sz => dstc_queue_callback s addr arg arg_sz

/-- Perform a sequence of enqueue calls one after the other; the result is the final
state when every call returned ok, and `none` otherwise. -/
def dstc_queue_all : dstc_state → List queue_call → Option dstc_state
  | s, [] => some s
  | s, c :: cs =>
    match c.perform s with
    | .ok (rc, s') => if rc = 0 then dstc_queue_all s' cs else none
    | .error _ => none

/-- The invocation an enqueue call asks for, as the receiver is to see it: identifier,
argument bytes and argument length, with the node id of the caller. -/
def queue_call.invocation (node_id : Nat) : queue_call → dstc_invocation_t
  | .func name arg arg_sz =>
    { callback_ref := 0, node_id := node_id, name := cstr name
      payload := arg.take arg_sz, payload_len := arg_sz }
  | .callback addr arg arg_sz =>
    { callback_ref := addr, node_id := node_id, name := []
      payload := arg.take arg_sz, payload_len := arg_sz }

/-- The record an enqueue call writes, in the layout of the spec. -/
def queue_call.record (node_id : Nat) : queue_call → List Nat
  | .func name arg arg_sz => spec_named_record node_id (cstr name) (arg.take arg_sz)
  | .callback addr arg arg_sz => spec_callback_record node_id addr (arg.take arg_sz)

/-! ## Buffered mode -/

/-- Modelled from the spec: the buffered switch of the queueing facade.  The functions
`dstc_buffer_client_calls` and `dstc_unbuffer_client_calls` are called by the example
programs but are not defined in `src/dstc.c`, and the engine state of `src/dstc.c` has no
flag for them; the switch position is kept beside the engine state. -/
structure dstc_client_t where
  engine : dstc_state
  buffered : Bool
  deriving DecidableEq, Repr

/-- Modelled from the spec: `buffered(on)`, the missing `dstc_buffer_client_calls`. -/
def dstc_buffer_client_calls (c : dstc_client_t) : dstc_client_t :=
  { c with buffered := true }

/-- Modelled from the spec: `buffered(off)`, the missing `dstc_unbuffer_client_calls`. -/
def dstc_unbuffer_client_calls (c : dstc_client_t) : dstc_client_t :=
  { c with buffered := false }

/-- The call `dstc_queue_func` made by a client: `dstc_queue` of `src/dstc.c` works on the
engine state and consults no switch. -/
def dstc_client_t.queue_func (c : dstc_client_t) (name : Option (List Nat)) (arg : List Nat)
    (arg_sz : Nat) : Except dstc_fault (Nat × dstc_client_t) :=
  match dstc_queue_func c.engine name arg arg_sz with
  | .ok (rc, s') => .ok (rc, { c with engine := s' })
  | .error f => .error f

/-- The call `dstc_queue_callback` made by a client. -/
def dstc_client_t.queue_callback (c : dstc_client_t) (addr : Nat) (arg : List Nat)
    (arg_sz : Nat) : Except dstc_fault (Nat × dstc_client_t) :=
  match dstc_queue_callback c.engine addr arg arg_sz with
  | .ok (rc, s') => .ok (rc, { c with engine := s' })
  | .error f => .error f

/-! ## Payload buffer invariant -/

/-- The invariant of the payload buffer: the cursor does not exceed the capacity, and
`in_use() + available()` is the capacity. -/
def payload_buffer_inv (ctx : dstc_context_t) : Prop :=
  ctx.pub_buffer_ind ≤ ctx.pub_buffer.length ∧
    dstc_payload_buffer_in_use ctx + dstc_payload_buffer_available ctx = ctx.pub_buffer.length

instance (ctx : dstc_context_t) : Decidable (payload_buffer_inv ctx) := by
  unfold payload_buffer_inv
  infer_instance

/-! ## Engine states -/

/-- The states of a set-up engine that the C types allow: setup has run, the cursor
lies inside the payload buffer, the payload buffer is one transport payload (a
datagram body, shorter than 64 KiB), and the node id is a 32-bit value. -/
def engine_state (s : dstc_state) : Prop :=
  s.initialized = true ∧ s.ctx.pub_buffer_ind ≤ s.ctx.pub_buffer.length ∧
    s.ctx.pub_buffer.length < 2 ^ 16 ∧ s.ctx.pub_ctx.node_id < 2 ^ 32

instance (s : dstc_state) : Decidable (engine_state s) := by
  unfold engine_state
  infer_instance

/-- The state in which the record `rec` has been allocated at the cursor of `s` and
filled in: the bytes below the cursor and beyond the record are those of `s`. -/
def with_record (s : dstc_state) (rec : List Nat) : dstc_state :=
  { s with ctx := { s.ctx with
      pub_buffer := s.ctx.pub_buffer.take s.ctx.pub_buffer_ind ++ rec
        ++ s.ctx.pub_buffer.drop (s.ctx.pub_buffer_ind + rec.length)
      pub_buffer_ind := s.ctx.pub_buffer_ind + rec.length } }

/-- The state in which the buffered bytes of `s` have been handed to the transport as
one packet and the payload buffer has been emptied. -/
def flushed (s : dstc_state) : dstc_state :=
  { s with ctx := { s.ctx with
      pub_buffer_ind := 0
      pub_ctx := { s.ctx.pub_ctx with
        queued := s.ctx.pub_ctx.queued ++ [s.ctx.pub_buffer.take s.ctx.pub_buffer_ind] } } }


/-- The number of identifier bytes that the stores of `dstc_queue` write after the header:
the name with its terminator, or the zero byte and the 8 bytes of the reference when the
name pointer is null. -/
def id_size (name : Option (List Nat)) : Nat :=
  match name with
  | some nm => strlen nm + 1
  | none => 1 + 8

/-- A set-up engine with a 64-byte payload buffer, one server function `foo` with
dispatch handle 55, and one pending callback with reference 4096 and dispatch handle 77.
The transport is not suspended. -/
def demo_state : dstc_state :=
  { initialized := true
    ctx :=
      { epoll_fd := 3
        remote_node := []
        local_callback := [{ callback_ref := 4096, callback := 77 }]
        pub_buffer := List.replicate 64 0
        pub_buffer_ind := 0
        pub_ctx :=
          { node_id := 7
            traffic_suspended := false
            queue_packet_rc := 0
            queued := []
            announce_interval := none
            throttling := some (3000, 2800) } }
    client_func := []
    client_callback_count := 0
    server_func := [{ func_name := [102, 111, 111], server_func := 55 }]
    dispatched := []
    env := { epoll_create_fd := 3, malloc_fails := false, getenv_node_id := 0
             rmc_alloc_node_id := 7 } }

/-- The engine of `demo_state` with the transport suspended. -/
def demo_suspended : dstc_state :=
  { demo_state with ctx := { demo_state.ctx with
      pub_ctx := { demo_state.ctx.pub_ctx with traffic_suspended := true } } }

/-- The state `demo_state` reaches by `queue_func("foo", [1, 2], 2)`: the record has
been written at offset 0 and pushed to the transport. -/
def demo_named_result : dstc_state :=
  flushed (with_record demo_state (spec_named_record 7 [102, 111, 111] [1, 2]))

/-- The state `demo_state` reaches by `queue_callback(4096, [1, 2], 2)`. -/
def demo_callback_result : dstc_state :=
  flushed (with_record demo_state (spec_callback_record 7 4096 [1, 2]))

/-- The engine of `demo_state` with 60 of the 64 bytes of the payload buffer in use and
the transport not suspended: the state reached when 60 bytes were queued while traffic was
suspended and the transport has resumed since. -/
def demo_pending : dstc_state :=
  { demo_state with ctx := { demo_state.ctx with pub_buffer_ind := 60 } }

/-- The state `demo_suspended` reaches by `queue_func("foo", [1, 2], 2)`: the record has
been written at offset 0 and stays in the payload buffer. -/
def demo_suspended_result : dstc_state :=
  with_record demo_suspended (spec_named_record 7 [102, 111, 111] [1, 2])

/-- The engine of `demo_state` (own node id 7) that knows the remote function `foo` of
peer 5 and the remote function `bar` of peer 7, and has the client stub 900 registered
under the name `foo`. -/
def demo_remote : dstc_state :=
  { demo_state with
    ctx := { demo_state.ctx with
      remote_node := [{ node_id := 5, func_name := [102, 111, 111] },
                      { node_id := 7, func_name := [98, 97, 114] }] }
    client_func := [{ func_name := [102, 111, 111], client_func := 900 }] }

/-- An inbound callback invocation carrying the reference `R`: a well-framed record
(`data_len` covers the header and the payload length of the header) whose first payload
byte is zero and whose next eight bytes hold `R`. -/
def callback_invocation_carrying (data : List Nat) (data_len R : Nat) : Prop :=
  HEADER_SIZE ≤ data_len ∧ le_read data 4 4 ≤ data_len - HEADER_SIZE ∧
    peek (data.drop HEADER_SIZE) 0 = 0 ∧ le_read (data.drop HEADER_SIZE) 1 8 = R

instance (data : List Nat) (data_len R : Nat) :
    Decidable (callback_invocation_carrying data data_len R) := by
  unfold callback_invocation_carrying
  infer_instance

/-- The callback reference of a call is a 64-bit value (a `dstc_callback_t`). -/
def queue_call.valid : queue_call → Prop
  | .func _ _ _ => True
  | .callback addr _ _ => addr < 2 ^ 64

/-- What the engine has checked about a call that returned ok on a payload buffer
shorter than 64 KiB: the identifier is present, the argument region holds `arg_sz`
bytes, and the record is shorter than 64 KiB. -/
def queue_call.accepted : queue_call → Prop
  | .func name arg arg_sz =>
    cstr name ≠ [] ∧ arg_sz ≤ arg.length ∧ HEADER_SIZE + (strlen name + 1) + arg_sz < 2 ^ 16
  | .callback addr arg arg_sz =>
    addr ≠ 0 ∧ arg_sz ≤ arg.length ∧ HEADER_SIZE + (1 + 8) + arg_sz < 2 ^ 16

/-- Two enqueue calls: `queue_func("foo", [1, 2], 2)` and `queue_callback(4096, [3], 1)`. -/
def demo_calls : List queue_call :=
  [.func [102, 111, 111] [1, 2] 2, .callback 4096 [3] 1]

/-- The state `demo_suspended` reaches by the calls of `demo_calls`: both records lie in
the payload buffer, one after the other. -/
def demo_bundle : dstc_state :=
  with_record (with_record demo_suspended (spec_named_record 7 [102, 111, 111] [1, 2]))
    (spec_callback_record 7 4096 [3])

/-! ## Registration of local functions -/

/-- Model of `dstc_register_server_function`: the index is compared with
`SYMTAB_SIZE - 1`, then the name is copied with `strcpy` into the slot at the index and
the index is incremented.  `SYMTAB_SIZE` is the table size declared in `dstc.h`; it is
a parameter here. -/
def dstc_register_server_function (SYMTAB_SIZE : Nat) (s : dstc_state) (name : List Nat)
    (server_func : Nat) : Except dstc_fault dstc_state :=
  let ind := s.server_func.length
  if ind + 1 = SYMTAB_SIZE then .error (.exit 255)
  else
    .ok { s with server_func := s.server_func ++
            [{ func_name := cstr name, server_func := server_func }] }

/-- Model of `dstc_register_client_function`. -/
def dstc_register_client_function (SYMTAB_SIZE : Nat) (s : dstc_state) (name : List Nat)
    (client_func : Nat) : Except dstc_fault dstc_state :=
  let ind := s.client_func.length
  if ind + 1 = SYMTAB_SIZE then .error (.exit 255)
  else
    .ok { s with client_func := s.client_func ++
            [{ func_name := cstr name, client_func := client_func }] }

/-- Model of `dstc_register_callback_client`: the `uint32_t` counter
`_dstc_client_callback_count` is bumped; name and callback are not used. -/
def dstc_register_callback_client (s : dstc_state) : dstc_state :=
  { s with client_callback_count := (s.client_callback_count + 1) % 2 ^ 32 }

/-- The client functions of a list registered in order, as the constructor functions of
a program do before `main`. -/
def dstc_register_client_functions (SYMTAB_SIZE : Nat) :
    dstc_state → List (List Nat × Nat) → Except dstc_fault dstc_state
  | s, [] => .ok s
  | s, c :: rest =>
    match dstc_register_client_function SYMTAB_SIZE s c.1 c.2 with
    | .ok s1 => dstc_register_client_functions SYMTAB_SIZE s1 rest
    | .error f => .error f

/-- The function `dstc_register_callback_client` called `k` times. -/
def dstc_register_callback_clients : Nat → dstc_state → dstc_state
  | 0, s => s
  | k + 1, s => dstc_register_callback_clients k (dstc_register_callback_client s)

/-- A registry of 63 server functions and 63 client functions. -/
def demo_registry : dstc_state :=
  { demo_state with
    server_func := List.replicate 63 { func_name := [102, 111, 111], server_func := 55 }
    client_func := List.replicate 63 { func_name := [102, 111, 111], client_func := 900 } }

/-- The state of a program before `main`: nothing is set up and nothing is
registered. -/
def demo_fresh : dstc_state :=
  { demo_state with initialized := false, server_func := []
                    ctx := { demo_state.ctx with local_callback := [] } }

/-! ## Subscription complete -/

/-- The subscriber side of the transport, as the engine sees it: the control messages
handed to `rmc_sub_write_control_message_by_node_id`, oldest first, each with the node
id it is addressed to. -/
structure rmc_sub_context_t where
  control_messages : List (Nat × List Nat)
  deriving DecidableEq, Repr

/-- Model of `rmc_sub_write_control_message_by_node_id`; the return code is not looked
at by the engine. -/
def rmc_sub_write_control_message_by_node_id (sub_ctx : rmc_sub_context_t) (node_id : Nat)
    (payload : List Nat) : rmc_sub_context_t :=
  { sub_ctx with control_messages := sub_ctx.control_messages ++ [(node_id, payload)] }

/-- The bytes sent for one entry by `dstc_subscription_complete`: a
`dstc_control_message_t` (a 4-byte node id followed by `char name[256]`) is initialised
with the node id and zeroes, the name is copied in with `strcpy`, and the first
`sizeof(rmc_node_id_t) + sizeof(uint8_t) + strlen(ctl.name) + 1` bytes are sent.  A name
that does not fit the array, or a length that leaves the structure, is an overrun. -/
def dstc_control_message (node_id : Nat) (func_name : List Nat) :
    Except dstc_fault (List Nat) :=
  let name := cstr func_name
  if 256 < name.length + 1 then .error .overrun
  else
    let ctl := le_bytes 4 node_id ++ (name ++ List.replicate (256 - name.length) 0)
    let len := 4 + 1 + name.length + 1
    if ctl.length < len then .error .overrun else .ok (ctl.take len)

/-- The loop `while(ind--)` of `dstc_subscription_complete` over the slots below
`ind`, from the highest index down. -/
def dstc_subscription_complete_loop (tbl : List dstc_server_func_t) (node_id : Nat) :
    Nat → rmc_sub_context_t → Except dstc_fault rmc_sub_context_t
  | 0, sub_ctx => .ok sub_ctx
  | ind + 1, sub_ctx =>
    match tbl.get? ind with
    | none => dstc_subscription_complete_loop tbl node_id ind sub_ctx
    | some e =>
      match dstc_control_message node_id e.func_name with
      | .error f => .error f
      | .ok ctl =>
        dstc_subscription_complete_loop tbl node_id ind
          (rmc_sub_write_control_message_by_node_id sub_ctx node_id ctl)

/-- Model of `dstc_subscription_complete`; the listen address of the peer is only
logged. -/
def dstc_subscription_complete (s : dstc_state) (sub_ctx : rmc_sub_context_t)
    (node_id : Nat) : Except dstc_fault rmc_sub_context_t :=
  dstc_subscription_complete_loop s.server_func node_id s.server_func.length sub_ctx

/-- The control message the specification describes for a name, followed by the one
extra byte the engine sends. -/
def sent_control_message (node_id : Nat) (name : List Nat) : List Nat :=
  le_bytes 4 node_id ++ name ++ [0] ++ [0]

/-- An engine with the server functions `foo`, `bar` and `foo` again. -/
def demo_servers : dstc_state :=
  { demo_state with server_func :=
      [{ func_name := [102, 111, 111], server_func := 55 },
       { func_name := [98, 97, 114], server_func := 56 },
       { func_name := [102, 111, 111], server_func := 57 }] }

/-! ## Timers -/

/-- The errno value `EAGAIN`. -/
def EAGAIN : Nat := 11

/-- The readiness bit `EPOLLIN` of `sys/epoll.h`. -/
def EPOLLIN : Nat := 1

/-- The readiness bit `EPOLLOUT` of `sys/epoll.h`. -/
def EPOLLOUT : Nat := 4

/-- Conversion of a 64-bit signed value to `int` (32 bits, two's complement), as done
when a `usec_timestamp_t` is returned from a function of type `int` or cast with
`(int)`. -/
def to_int (v : Int) : Int := (v + 2 ^ 31) % 2 ^ 32 - 2 ^ 31

/-- What the transport and the clock answer during one call of
`dstc_get_timeout_msec`: the results of `rmc_pub_timeout_get_next`,
`rmc_sub_timeout_get_next` and `rmc_usec_monotonic_timestamp`, all `usec_timestamp_t`
(64-bit signed microseconds, printed with `%ld`), `-1` meaning no timer. -/
structure timer_view where
  pub_event_tout_ts : Int
  sub_event_tout_ts : Int
  now : Int
  deriving DecidableEq, Repr

/-- Model of `dstc_get_timeout_timestamp`. -/
def dstc_get_timeout_timestamp (v : timer_view) : Int :=
  if v.pub_event_tout_ts = -1 ∧ v.sub_event_tout_ts = -1 then -1
  else if v.pub_event_tout_ts = -1 ∧ v.sub_event_tout_ts ≠ -1 then v.sub_event_tout_ts
  else if v.pub_event_tout_ts ≠ -1 ∧ v.sub_event_tout_ts = -1 then v.pub_event_tout_ts
  else if v.pub_event_tout_ts < v.sub_event_tout_ts then v.pub_event_tout_ts
  else v.sub_event_tout_ts

/-- Model of `dstc_get_timeout_msec`.  The function has return type `int`, so the
64-bit value `tout / 1000 + 1` is narrowed on return.  The division is the truncating
division of C. -/
def dstc_get_timeout_msec (v : timer_view) : Int :=
  let tout := dstc_get_timeout_timestamp v
  if tout = -1 then -1
  else
    let tout := tout - v.now
    if tout < 0 then 0
    else to_int (Int.tdiv tout 1000 + 1)

/-- The value the specification gives for `get_timeout_ms`: `-1` when no side has a
timer, else `0` for a timestamp `t` in the past and `(t - now) / 1000 + 1` otherwise,
`t` being the smaller pending timestamp. -/
def spec_timeout_ms (v : timer_view) : Int :=
  if v.pub_event_tout_ts = -1 ∧ v.sub_event_tout_ts = -1 then -1
  else
    let t :=
      if v.pub_event_tout_ts = -1 then v.sub_event_tout_ts
      else if v.sub_event_tout_ts = -1 then v.pub_event_tout_ts
      else min v.pub_event_tout_ts v.sub_event_tout_ts
    if t < v.now then 0 else (t - v.now) / 1000 + 1

/-! ## Event loop -/

/-- The calls the event loop makes into the operating system and the transport (ghost
trace). -/
inductive rmc_call where
  | epoll_wait (timeout : Int)
  | pub_read (index : Nat)
  | sub_read (index : Nat)
  | pub_write (index : Nat)
  | sub_write (index : Nat)
  | pub_close_connection (index : Nat)
  | sub_close_connection (index : Nat)
  | pub_timeout_process
  | sub_timeout_process
  deriving DecidableEq, Repr

/-- The constants of `dstc.h` used by the token macros; the header is not among the
sources, so they are parameters. -/
structure user_data_layout where
  USER_DATA_PUB_FLAG : Nat
  USER_DATA_INDEX_MASK : Nat
  DSTC_EVENT_FLAG : Nat
  deriving DecidableEq, Repr

/-- Model of the macro `TO_EPOLL_EVENT_USER_DATA`. -/
def TO_EPOLL_EVENT_USER_DATA (L : user_data_layout) (index : Nat) (is_pub : Nat) : Nat :=
  index ||| (if is_pub ≠ 0 then L.USER_DATA_PUB_FLAG else 0) ||| L.DSTC_EVENT_FLAG

/-- Model of the macro `FROM_EPOLL_EVENT_USER_DATA` on a 32-bit token. -/
def FROM_EPOLL_EVENT_USER_DATA (L : user_data_layout) (user_data : Nat) : Nat :=
  user_data &&& L.USER_DATA_INDEX_MASK &&& ((2 ^ 32 - 1) ^^^ (L.DSTC_EVENT_FLAG % 2 ^ 32))

/-- Model of the macro `IS_PUB`. -/
def IS_PUB (L : user_data_layout) (user_data : Nat) : Nat :=
  if user_data &&& L.USER_DATA_PUB_FLAG ≠ 0 then 1 else 0

/-- One entry of the array filled by `epoll_wait`, together with the answer the
transport gives to the write call made for it. -/
structure ready_event where
  events : Nat
  data_u32 : Nat
  /-- Return code of `rmc_pub_write` or `rmc_sub_write` for this event. -/
  write_rc : Nat
  deriving DecidableEq, Repr

/-- Model of `dstc_process_epoll_result`: the transport calls made for one ready
event. -/
def dstc_process_epoll_result (L : user_data_layout) (event : ready_event) : List rmc_call :=
  let c_ind := FROM_EPOLL_EVENT_USER_DATA L event.data_u32
  let is_pub := IS_PUB L event.data_u32
  let rd :=
    if event.events &&& EPOLLIN ≠ 0 then
      if is_pub ≠ 0 then [rmc_call.pub_read c_ind] else [rmc_call.sub_read c_ind]
    else []
  let wr :=
    if event.events &&& EPOLLOUT ≠ 0 then
      if is_pub ≠ 0 then
        if event.write_rc ≠ 0 then [rmc_call.pub_write c_ind, rmc_call.pub_close_connection c_ind]
        else [rmc_call.pub_write c_ind]
      else
        if event.write_rc ≠ 0 then [rmc_call.sub_write c_ind, rmc_call.sub_close_connection c_ind]
        else [rmc_call.sub_write c_ind]
    else []
  rd ++ wr

/-- Model of `dstc_process_timeout`, given the return codes of
`rmc_pub_timeout_process` and `rmc_sub_timeout_process`; the second call is not made
when the first one answers `EAGAIN`. -/
def dstc_process_timeout (rc : Nat × Nat) : Nat × List rmc_call :=
  if rc.1 = EAGAIN then (EAGAIN, [rmc_call.pub_timeout_process])
  else if rc.2 = EAGAIN then
    (EAGAIN, [rmc_call.pub_timeout_process, rmc_call.sub_timeout_process])
  else (0, [rmc_call.pub_timeout_process, rmc_call.sub_timeout_process])

/-- What the operating system, the transport and the clock answer during one call of
`dstc_process_single_event`. -/
structure pass_answers where
  /-- Result of `epoll_wait`: `none` for `-1`, else the ready events
  `events[0 .. nfds)`. -/
  ready : Option (List ready_event)
  /-- Answers for the `dstc_get_timeout_msec` call of the branch `nfds == 0`. -/
  idle_view : timer_view
  /-- Return codes of the timeout processors for the branch `nfds == 0`. -/
  idle_rc : Nat × Nat
  /-- Answers for the last `dstc_get_timeout_msec` call. -/
  end_view : timer_view
  /-- Return codes of the timeout processors for the last call. -/
  end_rc : Nat × Nat
  deriving DecidableEq, Repr

/-- Model of `dstc_process_single_event`.  Returns the return value, the state and
the calls made (ghost trace).  The callbacks the transport makes into the engine from
inside its read calls are the functions `dstc_process_incoming_loop`,
`dstc_subscriber_control_message_cb`, ... above; they are not replayed here. -/
def dstc_process_single_event (L : user_data_layout) (s : dstc_state) (timeout : Int)
    (a : pass_answers) : Except dstc_fault (Nat × dstc_state × List rmc_call) :=
  let s := if !s.initialized then (dstc_setup s).2 else s
  match a.ready with
  | none => .error (.exit 255)
  | some events =>
    let nfds := events.length
    let idle :=
      if nfds = 0 then
        if dstc_get_timeout_msec a.idle_view = 0 then (dstc_process_timeout a.idle_rc).2
        else []
      else []
    let retval := if nfds = 0 then ETIME else 0
    -- `while(nfds--)`: `events[nfds - 1]` down to `events[0]`
    let work := (events.reverse.map (dstc_process_epoll_result L)).flatten
    let last :=
      if dstc_get_timeout_msec a.end_view = 0 then (dstc_process_timeout a.end_rc).2
      else []
    .ok (retval, s, [rmc_call.epoll_wait timeout] ++ idle ++ work ++ last)

/-- What the clock, the transport and the operating system answer during one
iteration of the loop of `dstc_process_events`. -/
structure loop_answers where
  /-- The clock read in the loop condition. -/
  now : Int
  /-- Answers for the `dstc_get_timeout_msec` call of the loop body. -/
  view : timer_view
  /-- Answers for the `dstc_process_single_event` call. -/
  pass : pass_answers
  deriving DecidableEq, Repr

/-- One pass of the loop of `dstc_process_events` (ghost record): the local variables
of the body, the `int` handed to `dstc_process_single_event`, the number of ready
descriptors and the value the pass returned. -/
structure pass_record where
  now : Int
  timeout_arg_rel : Int
  event_tout_rel : Int
  timeout : Int
  is_arg_timeout : Bool
  wait : Int
  nfds : Nat
  retval : Nat
  deriving DecidableEq, Repr

/-- The four `if` statements of the loop body of `dstc_process_events` that pick
`timeout` and `is_arg_timeout`, both starting at 0. -/
def dstc_select_timeout (timeout_arg_rel event_tout_rel : Int) : Int × Bool :=
  let r : Int × Bool := (0, false)
  let r := if timeout_arg_rel = -1 ∧ event_tout_rel = -1 then (-1, r.2) else r
  let r := if timeout_arg_rel = -1 ∧ event_tout_rel ≠ -1 then (event_tout_rel, r.2) else r
  let r := if timeout_arg_rel ≠ -1 ∧ event_tout_rel = -1 then (timeout_arg_rel, true) else r
  let r :=
    if timeout_arg_rel ≠ -1 ∧ event_tout_rel ≠ -1 then
      if event_tout_rel < timeout_arg_rel then (event_tout_rel, r.2)
      else (timeout_arg_rel, true)
    else r
  r

/-- The ghost record of one pass of the loop of `dstc_process_events`: the values the
body computes for the deadline `timeout_arg_ts` from the answers `a`, and the value
`retval` the pass returned. -/
def dstc_loop_pass (timeout_arg_ts : Int) (a : loop_answers) (retval : Nat) : pass_record :=
  let timeout_arg_rel :=
    if timeout_arg_ts = -1 then -1 else Int.tdiv (timeout_arg_ts - a.now) 1000 + 1
  let event_tout_rel := dstc_get_timeout_msec a.view
  let sel := dstc_select_timeout timeout_arg_rel event_tout_rel
  { now := a.now, timeout_arg_rel := timeout_arg_rel
    event_tout_rel := event_tout_rel, timeout := sel.1
    is_arg_timeout := sel.2, wait := to_int sel.1
    nfds := (a.pass.ready.getD []).length, retval := retval }

/-- The `while` loop of `dstc_process_events` for the deadline `timeout_arg_ts`.  Each
iteration takes its answers from the head of the script; the result is `none` when the
loop would go on after the script has run out.  `passes` collects the passes made so
far. -/
def dstc_process_events_loop (L : user_data_layout) (timeout_arg_ts : Int) :
    dstc_state → List pass_record → List loop_answers →
      Option (Except dstc_fault (Nat × dstc_state × List pass_record))
  | _, _, [] => none
  | s, passes, a :: script =>
    if a.now < timeout_arg_ts ∨ timeout_arg_ts = -1 then
      let timeout_arg_rel :=
        if timeout_arg_ts = -1 then -1 else Int.tdiv (timeout_arg_ts - a.now) 1000 + 1
      let event_tout_rel := dstc_get_timeout_msec a.view
      let sel := dstc_select_timeout timeout_arg_rel event_tout_rel
      match dstc_process_single_event L s (to_int sel.1) a.pass with
      | .error f => some (.error f)
      | .ok r =>
        let passes := passes ++ [dstc_loop_pass timeout_arg_ts a r.1]
        if r.1 = ETIME then
          if sel.2 then some (.ok (ETIME, r.2.1, passes))
          else dstc_process_events_loop L timeout_arg_ts r.2.1 passes script
        else dstc_process_events_loop L timeout_arg_ts r.2.1 passes script
    else some (.ok (0, s, passes))

/-- Model of `dstc_process_events`.  `start_now` is the clock read when the deadline is
computed; with `timeout_arg = 0` the single pass takes its answers from the head of
the script. -/
def dstc_process_events (L : user_data_layout) (s : dstc_state) (timeout_arg : Int)
    (start_now : Int) (script : List loop_answers) :
    Option (Except dstc_fault (Nat × dstc_state × List pass_record)) :=
  let s := if !s.initialized then (dstc_setup s).2 else s
  if timeout_arg = 0 then
    match script with
    | [] => none
    | a :: _ =>
      match dstc_process_single_event L s 0 a.pass with
      | .error f => some (.error f)
      | .ok r => some (.ok (r.1, r.2.1, []))
  else
    let timeout_arg_ts := if timeout_arg = -1 then -1 else start_now + timeout_arg
    dstc_process_events_loop L timeout_arg_ts s [] script

/-- A token layout with the publisher flag in bit 30 and the event flag in bit 31. -/
def demo_layout : user_data_layout :=
  { USER_DATA_PUB_FLAG := 2 ^ 30, USER_DATA_INDEX_MASK := 2 ^ 30 - 1
    DSTC_EVENT_FLAG := 2 ^ 31 }

/-- No timer pending on either side, clock at 0. -/
def demo_no_timer : timer_view :=
  { pub_event_tout_ts := -1, sub_event_tout_ts := -1, now := 0 }

/-- A publisher timer that ran out at 500 microseconds, clock at 1000. -/
def demo_due_timer : timer_view :=
  { pub_event_tout_ts := 500, sub_event_tout_ts := -1, now := 1000 }

/-- A pass in which nothing was ready and a timer was due. -/
def demo_idle_pass : pass_answers :=
  { ready := some [], idle_view := demo_due_timer, idle_rc := (0, 0)
    end_view := demo_no_timer, end_rc := (0, 0) }

/-- A pass in which one subscriber socket was readable. -/
def demo_busy_pass : pass_answers :=
  { ready := some [{ events := 1, data_u32 := 2 ^ 31 + 2, write_rc := 0 }]
    idle_view := demo_no_timer, idle_rc := (0, 0)
    end_view := demo_no_timer, end_rc := (0, 0) }

/-- A pass in which nothing was ready and no timer is pending. -/
def demo_quiet_pass : pass_answers :=
  { ready := some [], idle_view := demo_no_timer, idle_rc := (0, 0)
    end_view := demo_no_timer, end_rc := (0, 0) }

/-- An engine whose pending-callback table holds 64 armed slots. -/
def demo_full_table : dstc_state :=
  { demo_state with ctx := { demo_state.ctx with
      local_callback := (List.range 64).map
        (fun i => { callback_ref := 4096 + i, callback := 77 }) } }

/-- An engine whose pending-callback table has a freed slot at index 1. -/
def demo_freed_slot : dstc_state :=
  { demo_state with ctx := { demo_state.ctx with
      local_callback := [{ callback_ref := 4096, callback := 77 },
                         { callback_ref := 0, callback := 0 },
                         { callback_ref := 4098, callback := 79 },
                         { callback_ref := 0, callback := 0 }] } }

/-! ## Sequences of calls on the remote availability map -/

/-- One call on the remote availability map: `dstc_register_remote_function` or
`dstc_unregister_remote_node`. -/
inductive remote_op where
  | register (node_id : Nat) (func_name : List Nat)
  | unregister (node_id : Nat)
  deriving DecidableEq, Repr

/-- The call made for a `remote_op`. -/
def remote_op.perform (SYMTAB_SIZE : Nat) (s : dstc_state) :
    remote_op → Except dstc_fault dstc_state
  | .register node_id func_name => dstc_register_remote_function SYMTAB_SIZE s node_id func_name
  | .unregister node_id => .ok (dstc_unregister_remote_node s node_id)

/-- A sequence of calls on the remote availability map, made in order; a fatal exit
ends the sequence. -/
def dstc_remote_run (SYMTAB_SIZE : Nat) : dstc_state → List remote_op → Except dstc_fault dstc_state
  | s, [] => .ok s
  | s, op :: rest =>
    match op.perform SYMTAB_SIZE s with
    | .ok s1 => dstc_remote_run SYMTAB_SIZE s1 rest
    | .error f => .error f

/-- A callback record with `payload_len = 1` (nine bytes in all), followed in the
packet by the eight bytes of the reference 4096. -/
def demo_short_callback : List Nat :=
  [7, 0, 0, 0, 1, 0, 0, 0, 0, 0, 16, 0, 0, 0, 0, 0, 0]

/-- The same nine-byte record followed by eight zero bytes. -/
def demo_short_callback_zeros : List Nat :=
  [7, 0, 0, 0, 1, 0, 0, 0, 0, 0, 0, 0, 0, 0, 0, 0, 0]

/-- A named record with `payload_len = 3` whose payload `foo` has no terminator,
followed in the packet by a zero byte. -/
def demo_unterminated_name : List Nat :=
  [7, 0, 0, 0, 3, 0, 0, 0, 102, 111, 111, 0]

/-- A record with `payload_len = 0` (eight bytes in all), followed in the packet by the
bytes `foo` and a zero byte. -/
def demo_empty_payload : List Nat :=
  [7, 0, 0, 0, 0, 0, 0, 0, 102, 111, 111, 0]

/-! ## Lemmas on bytes, strings and stores -/

theorem le_bytes_length (n v : Nat) : (le_bytes n v).length = n := by
  induction n generalizing v with
  | zero => rfl
  | succ n ih => simp [le_bytes, ih]

theorem peek_append_left (pre rest : List Nat) (i : Nat) (h : i < pre.length) :
    peek (pre ++ rest) i = peek pre i := by
  unfold peek
  exact List.getD_append _ _ _ _ h

theorem peek_append_right (pre rest : List Nat) (i : Nat) :
    peek (pre ++ rest) (pre.length + i) = peek rest i := by
  unfold peek
  rw [List.getD_append_right _ _ _ _ (Nat.le_add_right _ _), Nat.add_sub_cancel_left]

theorem le_read_append_right (pre rest : List Nat) (i n : Nat) :
    le_read (pre ++ rest) (pre.length + i) n = le_read rest i n := by
  induction n generalizing i with
  | zero => rfl
  | succ n ih =>
    simp only [le_read, peek_append_right]
    rw [Nat.add_assoc, ih]

theorem le_read_le_bytes (n v : Nat) (rest : List Nat) :
    le_read (le_bytes n v ++ rest) 0 n = v % 256 ^ n := by
  induction n generalizing v with
  | zero => simp [le_read, Nat.mod_one]
  | succ n ih =>
    have h := le_read_append_right [v % 256] (le_bytes n (v / 256) ++ rest) 0 n
    simp only [List.length_singleton, Nat.add_zero] at h
    simp only [le_read, le_bytes, peek, List.cons_append, List.getD_cons_zero, Nat.zero_add]
    have h2 : le_read (v % 256 :: (le_bytes n (v / 256) ++ rest)) 1 n
        = le_read (le_bytes n (v / 256) ++ rest) 0 n := h
    rw [h2, ih, pow_succ, Nat.mul_comm (256 ^ n) 256, Nat.mod_mul]

theorem cstr_append_zero (N rest : List Nat) (h0 : 0 ∉ N) : cstr (N ++ 0 :: rest) = N := by
  induction N with
  | nil => simp [cstr]
  | cons a t ih =>
    have ha : a ≠ 0 := fun h => h0 (by simp [h])
    have ht : 0 ∉ t := fun h => h0 (by simp [h])
    have := ih ht
    simp only [cstr] at this ⊢
    simp [List.takeWhile_cons, ha, this]

theorem cstr_not_mem_zero (s : List Nat) : 0 ∉ cstr s := by
  intro h
  have := List.mem_takeWhile_imp h
  simp at this

theorem cstr_of_not_mem (N : List Nat) (h0 : 0 ∉ N) : cstr N = N := by
  have h := cstr_append_zero N [] h0
  induction N with
  | nil => simp [cstr]
  | cons a t ih =>
    have ha : a ≠ 0 := fun h => h0 (by simp [h])
    have ht : 0 ∉ t := fun h => h0 (by simp [h])
    have := ih ht (cstr_append_zero t [] ht)
    simp only [cstr] at this ⊢
    simp [List.takeWhile_cons, ha, this]

theorem store_mid (pre x post y : List Nat) (off : Nat) (ho : off = pre.length)
    (hl : y.length = x.length) :
    store (pre ++ x ++ post) off y = .ok (pre ++ y ++ post) := by
  subst ho
  have hle : pre.length + y.length ≤ (pre ++ x ++ post).length := by
    simp only [List.length_append]; omega
  simp only [store, hle, if_true]
  simp [hl, List.take_append_eq_append_take, List.drop_append_eq_append_drop]

theorem store_ok (buf : List Nat) (off : Nat) (bytes buf' : List Nat)
    (h : store buf off bytes = .ok buf') :
    off + bytes.length ≤ buf.length ∧ buf'.length = buf.length := by
  unfold store at h
  split at h
  · rename_i hle
    injection h with h
    subst h
    refine ⟨hle, ?_⟩
    simp only [List.length_append, List.length_take, List.length_drop]
    omega
  · cases h

theorem split_at (buf : List Nat) (c k : Nat) (h : c + k ≤ buf.length) :
    ∃ mid, buf = buf.take c ++ mid ++ buf.drop (c + k) ∧ mid.length = k := by
  refine ⟨(buf.drop c).take k, ?_, ?_⟩
  · rw [List.append_assoc, ← List.drop_drop, List.take_append_drop, List.take_append_drop]
  · simp only [List.length_take, List.length_drop]; omega

theorem split_len (l : List Nat) (k : Nat) (h : k ≤ l.length) :
    ∃ a b, l = a ++ b ∧ a.length = k := by
  refine ⟨l.take k, l.drop k, (List.take_append_drop k l).symm, ?_⟩
  simp only [List.length_take]; omega

/-! ## Lemmas on the stores of `dstc_queue` -/

theorem fill_named_parts (pre m1 m2 m3 m4 post : List Nat) (nid : Nat) (nm : List Nat)
    (ref : Nat) (arg : List Nat) (n : Nat) (h1 : m1.length = 4) (h2 : m2.length = 4)
    (h3 : m3.length = strlen nm + 1) (h4 : m4.length = n) (hn : n ≤ arg.length) :
    dstc_queue_fill (pre ++ (m1 ++ m2 ++ m3 ++ m4) ++ post) pre.length nid (some nm) ref arg n
      = .ok (pre ++ spec_named_record nid (cstr nm) (arg.take n) ++ post) := by
  have hs : (cstr nm).length = strlen nm := rfl
  have e1 : store (pre ++ (m1 ++ m2 ++ m3 ++ m4) ++ post) pre.length (le_bytes 4 nid)
      = .ok (pre ++ le_bytes 4 nid ++ (m2 ++ m3 ++ m4 ++ post)) := by
    have := store_mid pre m1 (m2 ++ m3 ++ m4 ++ post) (le_bytes 4 nid) pre.length rfl
      (by rw [le_bytes_length, h1])
    simpa [List.append_assoc] using this
  have e2 : store (pre ++ le_bytes 4 nid ++ (m2 ++ m3 ++ m4 ++ post)) (pre.length + HEADER_SIZE)
      (cstr nm ++ [0]) = .ok (pre ++ le_bytes 4 nid ++ m2 ++ (cstr nm ++ [0]) ++ (m4 ++ post)) := by
    have := store_mid (pre ++ le_bytes 4 nid ++ m2) m3 (m4 ++ post) (cstr nm ++ [0])
      (pre.length + HEADER_SIZE)
      (by simp only [List.length_append, le_bytes_length, h2, HEADER_SIZE])
      (by simp only [List.length_append, List.length_singleton, hs, h3])
    simpa [List.append_assoc] using this
  have e3 : store (pre ++ le_bytes 4 nid ++ m2 ++ (cstr nm ++ [0]) ++ (m4 ++ post))
      (pre.length + 4) (le_bytes 4 (strlen nm + 1 + n))
      = .ok (pre ++ le_bytes 4 nid ++ le_bytes 4 (strlen nm + 1 + n) ++ (cstr nm ++ [0])
          ++ (m4 ++ post)) := by
    have := store_mid (pre ++ le_bytes 4 nid) m2 ((cstr nm ++ [0]) ++ (m4 ++ post))
      (le_bytes 4 (strlen nm + 1 + n)) (pre.length + 4)
      (by simp only [List.length_append, le_bytes_length])
      (by rw [le_bytes_length, h2])
    simpa [List.append_assoc] using this
  have e4 : store (pre ++ le_bytes 4 nid ++ le_bytes 4 (strlen nm + 1 + n) ++ (cstr nm ++ [0])
      ++ (m4 ++ post)) (pre.length + HEADER_SIZE + strlen nm + 1) (arg.take n)
      = .ok (pre ++ le_bytes 4 nid ++ le_bytes 4 (strlen nm + 1 + n) ++ (cstr nm ++ [0])
          ++ arg.take n ++ post) := by
    have := store_mid (pre ++ le_bytes 4 nid ++ le_bytes 4 (strlen nm + 1 + n) ++ (cstr nm ++ [0]))
      m4 post (arg.take n) (pre.length + HEADER_SIZE + strlen nm + 1)
      (by simp only [List.length_append, le_bytes_length, List.length_singleton, hs, HEADER_SIZE]
          omega)
      (by simp only [List.length_take, h4]; omega)
    simpa [List.append_assoc] using this
  have e5 : load arg n = .ok (arg.take n) := by simp [load, hn]
  have hlen : (arg.take n).length = n := by simp only [List.length_take]; omega
  simp only [dstc_queue_fill, bind, Except.bind, e1, e2, e3, e4, e5, spec_named_record, hs, hlen]
  simp [List.append_assoc]

theorem fill_callback_parts (pre m1 m2 m3 m4 m5 post : List Nat) (nid : Nat)
    (ref : Nat) (arg : List Nat) (n : Nat) (h1 : m1.length = 4) (h2 : m2.length = 4)
    (h3 : m3.length = 1) (h4 : m4.length = 8) (h5 : m5.length = n) (hn : n ≤ arg.length) :
    dstc_queue_fill (pre ++ (m1 ++ m2 ++ m3 ++ m4 ++ m5) ++ post) pre.length nid none ref arg n
      = .ok (pre ++ spec_callback_record nid ref (arg.take n) ++ post) := by
  have e1 : store (pre ++ (m1 ++ m2 ++ m3 ++ m4 ++ m5) ++ post) pre.length (le_bytes 4 nid)
      = .ok (pre ++ le_bytes 4 nid ++ (m2 ++ m3 ++ m4 ++ m5 ++ post)) := by
    have := store_mid pre m1 (m2 ++ m3 ++ m4 ++ m5 ++ post) (le_bytes 4 nid) pre.length rfl
      (by rw [le_bytes_length, h1])
    simpa [List.append_assoc] using this
  have e2 : store (pre ++ le_bytes 4 nid ++ (m2 ++ m3 ++ m4 ++ m5 ++ post))
      (pre.length + HEADER_SIZE) [0]
      = .ok (pre ++ le_bytes 4 nid ++ m2 ++ [0] ++ (m4 ++ m5 ++ post)) := by
    have := store_mid (pre ++ le_bytes 4 nid ++ m2) m3 (m4 ++ m5 ++ post) [0]
      (pre.length + HEADER_SIZE)
      (by simp only [List.length_append, le_bytes_length, h2, HEADER_SIZE])
      (by simp only [List.length_singleton, h3])
    simpa [List.append_assoc] using this
  have e3 : store (pre ++ le_bytes 4 nid ++ m2 ++ [0] ++ (m4 ++ m5 ++ post))
      (pre.length + HEADER_SIZE + 1) (le_bytes 8 ref)
      = .ok (pre ++ le_bytes 4 nid ++ m2 ++ [0] ++ le_bytes 8 ref ++ (m5 ++ post)) := by
    have := store_mid (pre ++ le_bytes 4 nid ++ m2 ++ [0]) m4 (m5 ++ post) (le_bytes 8 ref)
      (pre.length + HEADER_SIZE + 1)
      (by simp only [List.length_append, le_bytes_length, h2, HEADER_SIZE, List.length_singleton])
      (by rw [le_bytes_length, h4])
    simpa [List.append_assoc] using this
  have e4 : store (pre ++ le_bytes 4 nid ++ m2 ++ [0] ++ le_bytes 8 ref ++ (m5 ++ post))
      (pre.length + 4) (le_bytes 4 (1 + 8 + n))
      = .ok (pre ++ le_bytes 4 nid ++ le_bytes 4 (1 + 8 + n) ++ ([0] ++ le_bytes 8 ref)
          ++ (m5 ++ post)) := by
    have := store_mid (pre ++ le_bytes 4 nid) m2 (([0] ++ le_bytes 8 ref) ++ (m5 ++ post))
      (le_bytes 4 (1 + 8 + n)) (pre.length + 4)
      (by simp only [List.length_append, le_bytes_length])
      (by rw [le_bytes_length, h2])
    simpa [List.append_assoc] using this
  have e5 : store (pre ++ le_bytes 4 nid ++ le_bytes 4 (1 + 8 + n) ++ ([0] ++ le_bytes 8 ref)
      ++ (m5 ++ post)) (pre.length + HEADER_SIZE + 1 + 8) (arg.take n)
      = .ok (pre ++ le_bytes 4 nid ++ le_bytes 4 (1 + 8 + n) ++ ([0] ++ le_bytes 8 ref)
          ++ arg.take n ++ post) := by
    have := store_mid (pre ++ le_bytes 4 nid ++ le_bytes 4 (1 + 8 + n) ++ ([0] ++ le_bytes 8 ref))
      m5 post (arg.take n) (pre.length + HEADER_SIZE + 1 + 8)
      (by simp only [List.length_append, le_bytes_length, List.length_singleton, HEADER_SIZE])
      (by simp only [List.length_take, h5]; omega)
    simpa [List.append_assoc] using this
  have e6 : load arg n = .ok (arg.take n) := by simp [load, hn]
  have hlen : (arg.take n).length = n := by simp only [List.length_take]; omega
  simp only [dstc_queue_fill, bind, Except.bind, e1, e2, e3, e4, e5, e6, spec_callback_record,
    hlen]
  simp [List.append_assoc]

theorem fill_named (buf : List Nat) (c nid : Nat) (nm : List Nat) (ref : Nat)
    (arg : List Nat) (n : Nat) (hn : n ≤ arg.length)
    (hfit : c + (HEADER_SIZE + (strlen nm + 1) + n) ≤ buf.length) :
    dstc_queue_fill buf c nid (some nm) ref arg n
      = .ok (buf.take c ++ spec_named_record nid (cstr nm) (arg.take n)
          ++ buf.drop (c + (HEADER_SIZE + (strlen nm + 1) + n))) := by
  obtain ⟨mid, hbuf, hmid⟩ := split_at buf c _ hfit
  simp only [HEADER_SIZE] at hmid
  obtain ⟨m1, r1, rfl, h1⟩ := split_len mid 4 (by omega)
  obtain ⟨m2, r2, rfl, h2⟩ := split_len r1 4 (by simp only [List.length_append] at hmid; omega)
  obtain ⟨m3, m4, rfl, h3⟩ := split_len r2 (strlen nm + 1)
    (by simp only [List.length_append] at hmid; omega)
  have h4 : m4.length = n := by simp only [List.length_append] at hmid; omega
  have key := fill_named_parts (buf.take c) m1 m2 m3 m4
    (buf.drop (c + (HEADER_SIZE + (strlen nm + 1) + n))) nid nm ref arg n h1 h2 h3 h4 hn
  have hc : (buf.take c).length = c := by simp only [List.length_take]; omega
  rw [hc] at key
  have hb2 : buf = buf.take c ++ (m1 ++ m2 ++ m3 ++ m4)
      ++ buf.drop (c + (HEADER_SIZE + (strlen nm + 1) + n)) := by
    simp only [List.append_assoc] at hbuf ⊢
    exact hbuf
  rw [← hb2] at key
  exact key

theorem fill_callback (buf : List Nat) (c nid : Nat) (ref : Nat)
    (arg : List Nat) (n : Nat) (hn : n ≤ arg.length)
    (hfit : c + (HEADER_SIZE + (1 + 8) + n) ≤ buf.length) :
    dstc_queue_fill buf c nid none ref arg n
      = .ok (buf.take c ++ spec_callback_record nid ref (arg.take n)
          ++ buf.drop (c + (HEADER_SIZE + (1 + 8) + n))) := by
  obtain ⟨mid, hbuf, hmid⟩ := split_at buf c _ hfit
  simp only [HEADER_SIZE] at hmid
  obtain ⟨m1, r1, rfl, h1⟩ := split_len mid 4 (by omega)
  obtain ⟨m2, r2, rfl, h2⟩ := split_len r1 4 (by simp only [List.length_append] at hmid; omega)
  obtain ⟨m3, r3, rfl, h3⟩ := split_len r2 1 (by simp only [List.length_append] at hmid; omega)
  obtain ⟨m4, m5, rfl, h4⟩ := split_len r3 8 (by simp only [List.length_append] at hmid; omega)
  have h5 : m5.length = n := by simp only [List.length_append] at hmid; omega
  have key := fill_callback_parts (buf.take c) m1 m2 m3 m4 m5
    (buf.drop (c + (HEADER_SIZE + (1 + 8) + n))) nid ref arg n h1 h2 h3 h4 h5 hn
  have hc : (buf.take c).length = c := by simp only [List.length_take]; omega
  rw [hc] at key
  have hb2 : buf = buf.take c ++ (m1 ++ m2 ++ m3 ++ m4 ++ m5)
      ++ buf.drop (c + (HEADER_SIZE + (1 + 8) + n)) := by
    simp only [List.append_assoc] at hbuf ⊢
    exact hbuf
  rw [← hb2] at key
  exact key

theorem fill_fits (buf : List Nat) (c nid : Nat) (name : Option (List Nat)) (ref : Nat)
    (arg : List Nat) (n : Nat) (buf' : List Nat)
    (h : dstc_queue_fill buf c nid name ref arg n = .ok buf') :
    n ≤ arg.length ∧
      c + (HEADER_SIZE + id_size name + n) ≤ buf.length := by
  have hload : ∀ bytes, load arg n = .ok bytes → n ≤ arg.length ∧ bytes.length = n := by
    intro bytes hb
    unfold load at hb
    split at hb
    · rename_i hle
      injection hb with hb
      subst hb
      exact ⟨hle, by simp only [List.length_take]; omega⟩
    · cases hb
  cases name with
  | some nm =>
    simp only [dstc_queue_fill, bind, Except.bind] at h
    cases e1 : store buf c (le_bytes 4 nid) with
    | error f => simp [e1] at h
    | ok b1 =>
      simp only [e1] at h
      cases e2 : store b1 (c + HEADER_SIZE) (cstr nm ++ [0]) with
      | error f => simp [e2] at h
      | ok b2 =>
        simp only [e2] at h
        cases e3 : store b2 (c + 4) (le_bytes 4 (strlen nm + 1 + n)) with
        | error f => simp [e3] at h
        | ok b3 =>
          simp only [e3] at h
          cases e4 : load arg n with
          | error f => simp [e4] at h
          | ok bytes =>
            simp only [e4] at h
            have l1 := store_ok _ _ _ _ e1
            have l2 := store_ok _ _ _ _ e2
            have l3 := store_ok _ _ _ _ e3
            have l4 := store_ok _ _ _ _ h
            have l5 := hload _ e4
            refine ⟨l5.1, ?_⟩
            simp only [HEADER_SIZE, id_size] at l4 ⊢
            omega
  | none =>
    simp only [dstc_queue_fill, bind, Except.bind] at h
    cases e1 : store buf c (le_bytes 4 nid) with
    | error f => simp [e1] at h
    | ok b1 =>
      simp only [e1] at h
      cases e2 : store b1 (c + HEADER_SIZE) [0] with
      | error f => simp [e2] at h
      | ok b2 =>
        simp only [e2] at h
        cases e3 : store b2 (c + HEADER_SIZE + 1) (le_bytes 8 ref) with
        | error f => simp [e3] at h
        | ok b3 =>
          simp only [e3] at h
          cases e4 : store b3 (c + 4) (le_bytes 4 (1 + 8 + n)) with
          | error f => simp [e4] at h
          | ok b4 =>
            simp only [e4] at h
            cases e5 : load arg n with
            | error f => simp [e5] at h
            | ok bytes =>
              simp only [e5] at h
              have l1 := store_ok _ _ _ _ e1
              have l2 := store_ok _ _ _ _ e2
              have l3 := store_ok _ _ _ _ e3
              have l4 := store_ok _ _ _ _ e4
              have l6 := store_ok _ _ _ _ h
              have l5 := hload _ e5
              refine ⟨l5.1, ?_⟩
              simp only [HEADER_SIZE, id_size] at l6 ⊢
              omega

/-! ## Lemmas on `dstc_queue` -/

theorem available_eq (s : dstc_state) (hs : engine_state s) :
    dstc_payload_buffer_available s.ctx = s.ctx.pub_buffer.length - s.ctx.pub_buffer_ind := by
  obtain ⟨-, h1, h2, -⟩ := hs
  unfold dstc_payload_buffer_available
  norm_num at h2 ⊢
  omega

theorem spec_named_record_length (nid : Nat) (N A : List Nat) :
    (spec_named_record nid N A).length = HEADER_SIZE + (N.length + 1) + A.length := by
  simp only [spec_named_record, List.length_append, le_bytes_length, List.length_singleton,
    HEADER_SIZE]

theorem spec_callback_record_length (nid R : Nat) (A : List Nat) :
    (spec_callback_record nid R A).length = HEADER_SIZE + (1 + 8) + A.length := by
  simp only [spec_callback_record, List.length_append, le_bytes_length, List.length_singleton,
    HEADER_SIZE]

theorem queue_pending_calls_ok (s : dstc_state) (rc : Nat) (s' : dstc_state)
    (h : queue_pending_calls s = .ok (rc, s')) :
    rc = 0 ∧
      ((s.ctx.pub_ctx.traffic_suspended = true ∨ s.ctx.pub_buffer_ind = 0) → s' = s) ∧
      ((s.ctx.pub_ctx.traffic_suspended = false ∧ 0 < s.ctx.pub_buffer_ind) → s' = flushed s) := by
  by_cases hc : s.ctx.pub_ctx.traffic_suspended = false ∧ 0 < s.ctx.pub_buffer_ind
  · by_cases hm : s.env.malloc_fails = true
    · simp [queue_pending_calls, dstc_payload_buffer_in_use, hc.1, hc.2, hm] at h
    · by_cases h0 : s.ctx.pub_ctx.queue_packet_rc = 0
      · simp only [queue_pending_calls, dstc_payload_buffer_in_use, hc.1, hc.2, hm,
          rmc_pub_queue_packet, h0, gt_iff_lt, and_self, if_true, if_false, ne_eq,
          not_true_eq_false, Bool.false_eq_true, dstc_payload_buffer_empty] at h
        injection h with h
        injection h with h1 h2
        refine ⟨h1.symm, ?_, ?_⟩
        · rintro (hsus | hz)
          · rw [hc.1] at hsus; cases hsus
          · omega
        · intro _
          rw [← h2]
          simp [flushed, hc.1, h0]
      · simp [queue_pending_calls, dstc_payload_buffer_in_use, hc.1, hc.2, hm,
          rmc_pub_queue_packet, h0] at h
  · have h' : queue_pending_calls s = .ok (0, s) := by
      simp only [queue_pending_calls, dstc_payload_buffer_in_use, gt_iff_lt, hc, if_false]
    rw [h'] at h
    injection h with h
    injection h with h1 h2
    exact ⟨h1.symm, fun _ => h2.symm, fun hh => absurd hh hc⟩

theorem queue_pending_calls_suspended (s : dstc_state)
    (h : s.ctx.pub_ctx.traffic_suspended = true) : queue_pending_calls s = .ok (0, s) := by
  simp [queue_pending_calls, h]

theorem queue_pending_calls_push (s : dstc_state)
    (h : s.ctx.pub_ctx.traffic_suspended = false) (hpos : 0 < s.ctx.pub_buffer_ind)
    (hm : s.env.malloc_fails = false) (hrc : s.ctx.pub_ctx.queue_packet_rc = 0) :
    queue_pending_calls s = .ok (0, flushed s) := by
  simp [queue_pending_calls, h, hpos, hm, hrc, rmc_pub_queue_packet, dstc_payload_buffer_in_use,
    dstc_payload_buffer_empty, flushed]

theorem alloc_fits (s : dstc_state) (hs : engine_state s) (k : Nat)
    (hfit : s.ctx.pub_buffer_ind + k ≤ s.ctx.pub_buffer.length) :
    dstc_payload_buffer_alloc s.ctx k
      = some (s.ctx.pub_buffer_ind, { s.ctx with pub_buffer_ind := s.ctx.pub_buffer_ind + k }) := by
  have hav := available_eq s hs
  obtain ⟨-, h1, h2, -⟩ := hs
  have hlt : ¬ (dstc_payload_buffer_available s.ctx < k) := by rw [hav]; omega
  have hmod : (s.ctx.pub_buffer_ind + k) % 2 ^ 32 = s.ctx.pub_buffer_ind + k := by
    apply Nat.mod_eq_of_lt
    norm_num at h2 ⊢
    omega
  simp only [dstc_payload_buffer_alloc, hlt, if_false, dstc_payload_buffer_in_use, hmod]

theorem dstc_queue_func_eq (s : dstc_state) (hs : engine_state s) (nm arg : List Nat) (n : Nat)
    (hne : cstr nm ≠ []) (hn : n ≤ arg.length)
    (hfit : s.ctx.pub_buffer_ind + (HEADER_SIZE + (strlen nm + 1) + n)
      ≤ s.ctx.pub_buffer.length) :
    dstc_queue_func s (some nm) arg n
      = queue_pending_calls
          (with_record s (spec_named_record s.ctx.pub_ctx.node_id (cstr nm) (arg.take n))) := by
  have hinit : s.initialized = true := hs.1
  have hcap : s.ctx.pub_buffer.length < 2 ^ 16 := hs.2.2.1
  have hid : (strlen nm + 1) % 2 ^ 16 = strlen nm + 1 := by
    apply Nat.mod_eq_of_lt
    simp only [HEADER_SIZE] at hfit
    norm_num at hcap ⊢
    omega
  have hsz : (HEADER_SIZE + (strlen nm + 1) + n) % 2 ^ 32 = HEADER_SIZE + (strlen nm + 1) + n := by
    apply Nat.mod_eq_of_lt
    simp only [HEADER_SIZE] at hfit ⊢
    norm_num at hcap ⊢
    omega
  have hal := alloc_fits s hs _ hfit
  have hfill := fill_named s.ctx.pub_buffer s.ctx.pub_buffer_ind s.ctx.pub_ctx.node_id nm 0 arg n
    hn hfit
  have hlen : (arg.take n).length = n := by simp only [List.length_take]; omega
  have hrl : (spec_named_record s.ctx.pub_ctx.node_id (cstr nm) (arg.take n)).length
      = HEADER_SIZE + (strlen nm + 1) + n := by
    rw [spec_named_record_length, hlen]; rfl
  have hnode : dstc_get_node_id s = s.ctx.pub_ctx.node_id := by
    simp [dstc_get_node_id, hinit]
  unfold dstc_queue_func dstc_queue
  simp only [Option.map_some', Option.some.injEq, hne, or_self, false_and, if_false, hinit,
    Bool.not_true, Bool.false_eq_true, ne_eq, not_true_eq_false, hid, hsz, hal, hnode, hfill,
    reduceCtorEq]
  simp only [with_record, hrl, hinit]

theorem dstc_queue_callback_eq (s : dstc_state) (hs : engine_state s) (R : Nat)
    (arg : List Nat) (n : Nat) (hR : R ≠ 0) (hn : n ≤ arg.length)
    (hfit : s.ctx.pub_buffer_ind + (HEADER_SIZE + (1 + 8) + n) ≤ s.ctx.pub_buffer.length) :
    dstc_queue_callback s R arg n
      = queue_pending_calls
          (with_record s (spec_callback_record s.ctx.pub_ctx.node_id R (arg.take n))) := by
  have hinit : s.initialized = true := hs.1
  have hcap : s.ctx.pub_buffer.length < 2 ^ 16 := hs.2.2.1
  have hsz : (HEADER_SIZE + (8 + 1) % 2 ^ 16 + n) % 2 ^ 32 = HEADER_SIZE + (1 + 8) + n := by
    simp only [HEADER_SIZE] at hfit ⊢
    norm_num at hcap ⊢
    omega
  have hal := alloc_fits s hs _ hfit
  have hfill := fill_callback s.ctx.pub_buffer s.ctx.pub_buffer_ind s.ctx.pub_ctx.node_id R arg n
    hn hfit
  have hlen : (arg.take n).length = n := by simp only [List.length_take]; omega
  have hrl : (spec_callback_record s.ctx.pub_ctx.node_id R (arg.take n)).length
      = HEADER_SIZE + (1 + 8) + n := by
    rw [spec_callback_record_length, hlen]
  have hnode : dstc_get_node_id s = s.ctx.pub_ctx.node_id := by
    simp [dstc_get_node_id, hinit]
  unfold dstc_queue_callback dstc_queue
  simp only [hR, and_false, if_false, hinit, Bool.not_true, Bool.false_eq_true, ne_eq,
    not_false_eq_true, if_true, hsz, hal, hnode, hfill]
  simp only [with_record, hrl, hinit]

theorem alloc_some (ctx : dstc_context_t) (k call : Nat) (ctx' : dstc_context_t)
    (h : dstc_payload_buffer_alloc ctx k = some (call, ctx')) :
    call = ctx.pub_buffer_ind ∧ ctx'.pub_buffer = ctx.pub_buffer := by
  unfold dstc_payload_buffer_alloc at h
  split at h
  · cases h
  · injection h with h
    injection h with h1 h2
    subst h1 h2
    exact ⟨rfl, rfl⟩

theorem dstc_queue_ok_fits (s : dstc_state) (hs : engine_state s) (name : Option (List Nat))
    (ref : Nat) (arg : List Nat) (n : Nat) (s' : dstc_state)
    (h : dstc_queue s name ref arg n = .ok (0, s')) :
    ¬ ((name = none ∨ name.map cstr = some []) ∧ ref = 0) ∧ n ≤ arg.length ∧
      s.ctx.pub_buffer_ind + (HEADER_SIZE + id_size name + n) ≤ s.ctx.pub_buffer.length := by
  have hinit : s.initialized = true := hs.1
  unfold dstc_queue at h
  by_cases hinv : (name = none ∨ name.map cstr = some []) ∧ ref = 0
  · simp only [hinv, and_self, if_true] at h
    injection h with h
    injection h with h1 h2
    simp [EINVAL] at h1
  · refine ⟨hinv, ?_⟩
    simp only [hinv, if_false, hinit, Bool.not_true, Bool.false_eq_true] at h
    split at h
    · injection h with h
      injection h with h1 h2
      simp [EBUSY] at h1
    · rename_i call ctx hal
      obtain ⟨hcall, hbuf⟩ := alloc_some _ _ _ _ hal
      split at h
      · cases h
      · rename_i buf hfill
        have := fill_fits _ _ _ _ _ _ _ _ hfill
        rw [hcall, hbuf] at this
        exact this

theorem dstc_queue_func_ok (s : dstc_state) (hs : engine_state s) (name : Option (List Nat))
    (arg : List Nat) (n : Nat) (s' : dstc_state)
    (h : dstc_queue_func s name arg n = .ok (0, s')) :
    ∃ nm, name = some nm ∧ cstr nm ≠ [] ∧ n ≤ arg.length ∧
      s.ctx.pub_buffer_ind + (HEADER_SIZE + (strlen nm + 1) + n) ≤ s.ctx.pub_buffer.length ∧
      queue_pending_calls
          (with_record s (spec_named_record s.ctx.pub_ctx.node_id (cstr nm) (arg.take n)))
        = .ok (0, s') := by
  obtain ⟨h1, h2, h3⟩ := dstc_queue_ok_fits s hs name 0 arg n s' h
  cases name with
  | none => exact absurd ⟨Or.inl rfl, rfl⟩ h1
  | some nm =>
    have hne : cstr nm ≠ [] := by
      intro he
      exact h1 ⟨Or.inr (by simp [he]), rfl⟩
    refine ⟨nm, rfl, hne, h2, h3, ?_⟩
    rw [← dstc_queue_func_eq s hs nm arg n hne h2 h3]
    exact h

theorem dstc_queue_callback_ok (s : dstc_state) (hs : engine_state s) (R : Nat)
    (arg : List Nat) (n : Nat) (s' : dstc_state)
    (h : dstc_queue_callback s R arg n = .ok (0, s')) :
    R ≠ 0 ∧ n ≤ arg.length ∧
      s.ctx.pub_buffer_ind + (HEADER_SIZE + (1 + 8) + n) ≤ s.ctx.pub_buffer.length ∧
      queue_pending_calls
          (with_record s (spec_callback_record s.ctx.pub_ctx.node_id R (arg.take n)))
        = .ok (0, s') := by
  obtain ⟨h1, h2, h3⟩ := dstc_queue_ok_fits s hs none R arg n s' h
  have hR : R ≠ 0 := fun he => h1 ⟨Or.inl rfl, he⟩
  refine ⟨hR, h2, h3, ?_⟩
  rw [← dstc_queue_callback_eq s hs R arg n hR h2 h3]
  exact h

/-! ## Lemmas on the registries -/

theorem find_server_loop_append (l l' : List dstc_server_func_t) (name : List Nat) (i : Nat)
    (hi : i ≤ l.length) :
    dstc_find_server_function_loop (l ++ l') name i = dstc_find_server_function_loop l name i := by
  induction i with
  | zero => rfl
  | succ i ih =>
    have hlt : i < l.length := hi
    have hget : (l ++ l').get? i = l.get? i := by
      simp only [List.get?_eq_getElem?]
      exact List.getElem?_append_left hlt
    simp only [dstc_find_server_function_loop, hget, ih (Nat.le_of_lt hlt)]

theorem find_server_loop_snoc (l : List dstc_server_func_t) (e : dstc_server_func_t)
    (name : List Nat) :
    dstc_find_server_function_loop (l ++ [e]) name (l.length + 1)
      = if cstr e.func_name = cstr name then e.server_func
        else dstc_find_server_function_loop l name l.length := by
  have hget : (l ++ [e]).get? l.length = some e := by
    simp [List.get?_eq_getElem?]
  simp only [dstc_find_server_function_loop, hget,
    find_server_loop_append l [e] name l.length (Nat.le_refl _)]

theorem find_server_latest (pre post : List dstc_server_func_t) (e0 : dstc_server_func_t)
    (name : List Nat) (h0 : cstr e0.func_name = cstr name)
    (hpost : ∀ e ∈ post, cstr e.func_name ≠ cstr name) :
    dstc_find_server_function_loop (pre ++ e0 :: post) name (pre ++ e0 :: post).length
      = e0.server_func := by
  induction post using List.reverseRecOn with
  | nil =>
    have := find_server_loop_snoc pre e0 name
    simp only [h0, if_true] at this
    simpa using this
  | append_singleton post' e ih =>
    have hne : cstr e.func_name ≠ cstr name := hpost e (by simp)
    have hrest : ∀ e ∈ post', cstr e.func_name ≠ cstr name :=
      fun x hx => hpost x (by simp [hx])
    have := find_server_loop_snoc (pre ++ e0 :: post') e name
    simp only [hne, if_false] at this
    have hl : (pre ++ e0 :: (post' ++ [e])) = (pre ++ e0 :: post') ++ [e] := by simp
    rw [hl, List.length_append, List.length_singleton, this]
    exact ih hrest

theorem find_server_none (tbl : List dstc_server_func_t) (name : List Nat)
    (h : ∀ e ∈ tbl, cstr e.func_name ≠ cstr name) (i : Nat) :
    dstc_find_server_function_loop tbl name i = 0 := by
  induction i with
  | zero => rfl
  | succ i ih =>
    simp only [dstc_find_server_function_loop]
    cases hg : tbl.get? i with
    | none => simpa using ih
    | some e =>
      have hmem : e ∈ tbl := List.get?_mem hg
      simp only [h e hmem, if_false]
      exact ih

theorem find_callback_first (pre post : List dstc_callback_entry_t) (R C : Nat)
    (hpre : ∀ e ∈ pre, e.callback_ref ≠ R) :
    dstc_find_callback_by_ref_loop (pre ++ ⟨R, C⟩ :: post) R
      = (C, pre ++ ⟨0, 0⟩ :: post) := by
  induction pre with
  | nil => simp [dstc_find_callback_by_ref_loop]
  | cons a t ih =>
    have ha : a.callback_ref ≠ R := hpre a (by simp)
    have ht : ∀ e ∈ t, e.callback_ref ≠ R := fun x hx => hpre x (by simp [hx])
    simp [dstc_find_callback_by_ref_loop, ha, ih ht]

theorem find_callback_none (tbl : List dstc_callback_entry_t) (R : Nat)
    (h : ∀ e ∈ tbl, e.callback_ref = R → e = ⟨0, 0⟩) :
    dstc_find_callback_by_ref_loop tbl R = (0, tbl) := by
  induction tbl with
  | nil => rfl
  | cons a t ih =>
    have ht : ∀ e ∈ t, e.callback_ref = R → e = ⟨0, 0⟩ := fun x hx => h x (by simp [hx])
    by_cases ha : a.callback_ref = R
    · have hz := h a (by simp) ha
      simp only [dstc_find_callback_by_ref_loop, ha, if_true]
      rw [hz]
    · simp [dstc_find_callback_by_ref_loop, ha, ih ht]

/-! ## Lemmas on `dstc_process_function_call` -/

theorem le_read_at (pre rest : List Nat) (k n : Nat) (h : pre.length = k) :
    le_read (pre ++ rest) k n = le_read rest 0 n := by
  have := le_read_append_right pre rest 0 n
  rw [Nat.add_zero, h] at this
  exact this

theorem find_server_loop_congr (tbl : List dstc_server_func_t) (a b : List Nat)
    (h : cstr a = cstr b) (i : Nat) :
    dstc_find_server_function_loop tbl a i = dstc_find_server_function_loop tbl b i := by
  induction i with
  | zero => rfl
  | succ i ih => simp only [dstc_find_server_function_loop, h, ih]

theorem process_named_record (r : dstc_state) (nid : Nat) (N A rest : List Nat) (D : Nat)
    (hN : N ≠ []) (h0 : 0 ∉ N) (hnid : nid < 2 ^ 32)
    (hlen : HEADER_SIZE + (N.length + 1 + A.length) < 2 ^ 32)
    (hfind : dstc_find_server_function r N = D) (hD : D ≠ 0) :
    dstc_process_function_call r (spec_named_record nid N A ++ rest)
        (spec_named_record nid N A).length
      = (HEADER_SIZE + (N.length + 1 + A.length),
          { r with dispatched := r.dispatched ++
            [{ func := D, callback_ref := 0, node_id := nid, name := N
               payload_off := HEADER_SIZE + N.length + 1, payload := A
               payload_len := A.length }] }) := by
  have hdata : spec_named_record nid N A ++ rest
      = le_bytes 4 nid ++ (le_bytes 4 (N.length + 1 + A.length) ++ (N ++ 0 :: (A ++ rest))) := by
    simp [spec_named_record, List.append_assoc]
  have hl : (spec_named_record nid N A).length = HEADER_SIZE + (N.length + 1 + A.length) := by
    rw [spec_named_record_length]; omega
  have hnode : le_read (spec_named_record nid N A ++ rest) 0 4 = nid := by
    rw [hdata, le_read_le_bytes]
    exact Nat.mod_eq_of_lt (by norm_num at hnid ⊢; exact hnid)
  have hpl : le_read (spec_named_record nid N A ++ rest) 4 4 = N.length + 1 + A.length := by
    rw [hdata, le_read_at _ _ 4 4 (le_bytes_length 4 nid), le_read_le_bytes]
    apply Nat.mod_eq_of_lt
    simp only [HEADER_SIZE] at hlen
    norm_num at hlen ⊢
    omega
  have hdrop : (spec_named_record nid N A ++ rest).drop HEADER_SIZE = N ++ 0 :: (A ++ rest) := by
    rw [hdata, ← List.append_assoc]
    exact List.drop_left' (by simp [le_bytes_length, HEADER_SIZE])
  have hcs : cstr (N ++ 0 :: (A ++ rest)) = N := cstr_append_zero N _ h0
  have hsl : strlen (N ++ 0 :: (A ++ rest)) = N.length := by simp only [strlen, hcs]
  have hpeek : peek (N ++ 0 :: (A ++ rest)) 0 ≠ 0 := by
    cases N with
    | nil => exact absurd rfl hN
    | cons a t =>
      simp only [peek, List.cons_append, List.getD_cons_zero]
      intro ha
      exact h0 (by simp [ha])
  have hf : dstc_find_server_function r (N ++ 0 :: (A ++ rest)) = D := by
    rw [← hfind]
    unfold dstc_find_server_function
    exact find_server_loop_congr _ _ _ (by rw [hcs, cstr_of_not_mem N h0]) _
  have hdrop2 : (spec_named_record nid N A ++ rest).drop (HEADER_SIZE + N.length + 1)
      = A ++ rest := by
    have e : spec_named_record nid N A ++ rest
        = (le_bytes 4 nid ++ le_bytes 4 (N.length + 1 + A.length) ++ (N ++ [0])) ++ (A ++ rest) := by
      simp [spec_named_record, List.append_assoc]
    rw [e]
    exact List.drop_left' (by simp [le_bytes_length, HEADER_SIZE]; omega)
  have hlenA : (N.length + 1 + A.length + 2 ^ 64 - N.length % 2 ^ 64 + 2 ^ 64 - 1) % 2 ^ 64 % 2 ^ 32
      = A.length := by
    simp only [HEADER_SIZE] at hlen
    norm_num at hlen ⊢
    omega
  have hcons : (HEADER_SIZE + (N.length + 1 + A.length)) % 2 ^ 32
      = HEADER_SIZE + (N.length + 1 + A.length) := Nat.mod_eq_of_lt hlen
  have h1 : ¬ (HEADER_SIZE + (N.length + 1 + A.length) < HEADER_SIZE) := by omega
  have h2 : ¬ (HEADER_SIZE + (N.length + 1 + A.length) - HEADER_SIZE < N.length + 1 + A.length) := by
    omega
  unfold dstc_process_function_call
  simp only [hl, h1, if_false, hnode, hpl, h2, hdrop, hpeek, ne_eq, not_false_eq_true, if_true,
    hf, hD, hsl, hcs, hdrop2, hlenA, hcons, List.take_left']

theorem process_callback_record (r : dstc_state) (nid R : Nat) (A rest : List Nat) (C : Nat)
    (pre post : List dstc_callback_entry_t) (hR : R < 2 ^ 64) (hnid : nid < 2 ^ 32)
    (hlen : HEADER_SIZE + (1 + 8 + A.length) < 2 ^ 32)
    (htbl : r.ctx.local_callback = pre ++ ⟨R, C⟩ :: post)
    (hpre : ∀ e ∈ pre, e.callback_ref ≠ R) (hC : C ≠ 0) :
    dstc_process_function_call r (spec_callback_record nid R A ++ rest)
        (spec_callback_record nid R A).length
      = (HEADER_SIZE + (1 + 8 + A.length),
          { r with
            ctx := { r.ctx with local_callback := pre ++ ⟨0, 0⟩ :: post }
            dispatched := r.dispatched ++
              [{ func := C, callback_ref := R, node_id := nid, name := []
                 payload_off := HEADER_SIZE + 1 + 8, payload := A
                 payload_len := A.length }] }) := by
  have hdata : spec_callback_record nid R A ++ rest
      = le_bytes 4 nid ++ (le_bytes 4 (1 + 8 + A.length) ++ (0 :: (le_bytes 8 R ++ (A ++ rest)))) := by
    simp [spec_callback_record, List.append_assoc]
  have hl : (spec_callback_record nid R A).length = HEADER_SIZE + (1 + 8 + A.length) := by
    rw [spec_callback_record_length]; omega
  have hnode : le_read (spec_callback_record nid R A ++ rest) 0 4 = nid := by
    rw [hdata, le_read_le_bytes]
    exact Nat.mod_eq_of_lt (by norm_num at hnid ⊢; exact hnid)
  have hpl : le_read (spec_callback_record nid R A ++ rest) 4 4 = 1 + 8 + A.length := by
    rw [hdata, le_read_at _ _ 4 4 (le_bytes_length 4 nid), le_read_le_bytes]
    apply Nat.mod_eq_of_lt
    simp only [HEADER_SIZE] at hlen
    norm_num at hlen ⊢
    omega
  have hdrop : (spec_callback_record nid R A ++ rest).drop HEADER_SIZE
      = 0 :: (le_bytes 8 R ++ (A ++ rest)) := by
    rw [hdata, ← List.append_assoc]
    exact List.drop_left' (by simp [le_bytes_length, HEADER_SIZE])
  have hcs : cstr (0 :: (le_bytes 8 R ++ (A ++ rest))) = [] := by simp [cstr]
  have hpeek : peek (0 :: (le_bytes 8 R ++ (A ++ rest))) 0 = 0 := by simp [peek]
  have href : le_read (0 :: (le_bytes 8 R ++ (A ++ rest))) 1 8 = R := by
    have := le_read_at [0] (le_bytes 8 R ++ (A ++ rest)) 1 8 rfl
    rw [List.singleton_append] at this
    rw [this, le_read_le_bytes]
    exact Nat.mod_eq_of_lt (by norm_num at hR ⊢; exact hR)
  have hf : dstc_find_callback_by_ref r R
      = (C, { r with ctx := { r.ctx with local_callback := pre ++ ⟨0, 0⟩ :: post } }) := by
    simp only [dstc_find_callback_by_ref, htbl, find_callback_first pre post R C hpre]
  have hdrop2 : (spec_callback_record nid R A ++ rest).drop (HEADER_SIZE + 1 + 8) = A ++ rest := by
    have e : spec_callback_record nid R A ++ rest
        = (le_bytes 4 nid ++ le_bytes 4 (1 + 8 + A.length) ++ ([0] ++ le_bytes 8 R))
          ++ (A ++ rest) := by
      simp [spec_callback_record, List.append_assoc]
    rw [e]
    exact List.drop_left' (by simp [le_bytes_length, HEADER_SIZE])
  have hlenA : (1 + 8 + A.length + 2 ^ 64 - 1 + 2 ^ 64 - 8) % 2 ^ 64 % 2 ^ 32 = A.length := by
    simp only [HEADER_SIZE] at hlen
    norm_num at hlen ⊢
    omega
  have hcons : (HEADER_SIZE + (1 + 8 + A.length)) % 2 ^ 32
      = HEADER_SIZE + (1 + 8 + A.length) := Nat.mod_eq_of_lt hlen
  have h1 : ¬ (HEADER_SIZE + (1 + 8 + A.length) < HEADER_SIZE) := by omega
  have h2 : ¬ (HEADER_SIZE + (1 + 8 + A.length) - HEADER_SIZE < 1 + 8 + A.length) := by
    omega
  unfold dstc_process_function_call
  simp only [hl, h1, if_false, hnode, hpl, h2, hdrop, hpeek, ne_eq, not_true_eq_false,
    href, hf, hC, not_false_eq_true, hcs, hdrop2, hlenA, hcons, List.take_left']

/-! ## Round trips -/

theorem queue_pending_calls_frame (s : dstc_state) (rc : Nat) (s' : dstc_state)
    (h : queue_pending_calls s = .ok (rc, s')) : s' = s ∨ s' = flushed s := by
  obtain ⟨-, h1, h2⟩ := queue_pending_calls_ok s rc s' h
  by_cases hc : s.ctx.pub_ctx.traffic_suspended = false ∧ 0 < s.ctx.pub_buffer_ind
  · exact Or.inr (h2 hc)
  · refine Or.inl (h1 ?_)
    by_cases hsus : s.ctx.pub_ctx.traffic_suspended = true
    · exact Or.inl hsus
    · right
      have : s.ctx.pub_ctx.traffic_suspended = false := by simpa using hsus
      by_contra hne
      exact hc ⟨this, Nat.pos_of_ne_zero hne⟩

theorem queue_pending_calls_returns (s : dstc_state)
    (hpush : s.ctx.pub_ctx.traffic_suspended = true ∨
      (s.env.malloc_fails = false ∧ s.ctx.pub_ctx.queue_packet_rc = 0)) :
    ∃ s', queue_pending_calls s = .ok (0, s') := by
  by_cases hc : s.ctx.pub_ctx.traffic_suspended = false ∧ 0 < s.ctx.pub_buffer_ind
  · rcases hpush with hsus | ⟨hm, hrc⟩
    · rw [hc.1] at hsus; cases hsus
    · exact ⟨_, queue_pending_calls_push s hc.1 hc.2 hm hrc⟩
  · exact ⟨s, by simp only [queue_pending_calls, dstc_payload_buffer_in_use, gt_iff_lt, hc,
      if_false]⟩

theorem record_at (buf rec : List Nat) (c : Nat) (hc : c ≤ buf.length) (post : List Nat) :
    ((buf.take c ++ rec ++ post).drop c).take rec.length = rec := by
  have h1 : (buf.take c).length = c := by simp only [List.length_take]; omega
  rw [List.append_assoc, List.drop_left' h1]
  exact List.take_left' rfl

/-- The part of the state that `queue_pending_calls` leaves alone. -/
theorem after_record (s : dstc_state) (rec : List Nat) (rc : Nat) (s' : dstc_state)
    (h : queue_pending_calls (with_record s rec) = .ok (rc, s')) :
    s'.ctx.pub_buffer = (with_record s rec).ctx.pub_buffer ∧ s'.server_func = s.server_func ∧
      s'.dispatched = s.dispatched ∧ s'.ctx.local_callback = s.ctx.local_callback ∧
      s'.ctx.remote_node = s.ctx.remote_node := by
  rcases queue_pending_calls_frame _ _ _ h with h' | h' <;> subst h' <;>
    exact ⟨rfl, rfl, rfl, rfl, rfl⟩

/-- C1. Round trip of a named invocation: in every engine state in which the latest
registration of the non-empty, NUL-free name `N` carries the dispatch handle `D`, and
whose payload buffer has room for the record, `queue_func(N, A, |A|)` returns ok (provided
the push to the transport is not fatal), and the record it wrote at the old cursor,
passed to `process_call` with its exact length, returns `sizeof(header) + |N| + 1 + |A|`
and invokes `D` exactly once with callback reference 0, the node id of the queuing
engine, the name `N` and the argument bytes `A` of length `|A|`. -/
theorem named_invocation_round_trip (s : dstc_state) (N A : List Nat) (D : Nat)
    (pre post : List dstc_server_func_t) (nm : List Nat)
    (hs : engine_state s) (hN : N ≠ []) (h0 : 0 ∉ N)
    (hreg : s.server_func = pre ++ { func_name := nm, server_func := D } :: post)
    (hnm : cstr nm = N) (hpost : ∀ e ∈ post, cstr e.func_name ≠ N) (hD : D ≠ 0)
    (hspace : HEADER_SIZE + N.length + 1 + A.length ≤ dstc_payload_buffer_available s.ctx)
    (hpush : s.ctx.pub_ctx.traffic_suspended = true ∨
      (s.env.malloc_fails = false ∧ s.ctx.pub_ctx.queue_packet_rc = 0)) :
    ∃ s', dstc_queue_func s (some N) A A.length = .ok (0, s') ∧
      ∀ rest,
        dstc_process_function_call s'
            ((s'.ctx.pub_buffer.drop s.ctx.pub_buffer_ind).take
              (HEADER_SIZE + N.length + 1 + A.length) ++ rest)
            (HEADER_SIZE + N.length + 1 + A.length)
          = (HEADER_SIZE + N.length + 1 + A.length,
              { s' with dispatched := s'.dispatched ++
                [{ func := D, callback_ref := 0, node_id := s.ctx.pub_ctx.node_id, name := N
                   payload_off := HEADER_SIZE + N.length + 1, payload := A
                   payload_len := A.length }] }) := by
  have hav := available_eq s hs
  have hcs : cstr N = N := cstr_of_not_mem N h0
  have hsl : strlen N = N.length := by simp only [strlen, hcs]
  have hfit : s.ctx.pub_buffer_ind + (HEADER_SIZE + (strlen N + 1) + A.length)
      ≤ s.ctx.pub_buffer.length := by
    rw [hsl]; omega
  have hne : cstr N ≠ [] := by rw [hcs]; exact hN
  have heq := dstc_queue_func_eq s hs N A A.length hne (Nat.le_refl _) hfit
  rw [List.take_length, hcs] at heq
  obtain ⟨s', hq⟩ := queue_pending_calls_returns
    (with_record s (spec_named_record s.ctx.pub_ctx.node_id N A)) hpush
  refine ⟨s', heq.trans hq, ?_⟩
  obtain ⟨hbuf, hsf, -, -, -⟩ := after_record s _ _ s' hq
  have hrl : (spec_named_record s.ctx.pub_ctx.node_id N A).length
      = HEADER_SIZE + N.length + 1 + A.length := by
    rw [spec_named_record_length]; omega
  have hrec : (s'.ctx.pub_buffer.drop s.ctx.pub_buffer_ind).take
      (HEADER_SIZE + N.length + 1 + A.length) = spec_named_record s.ctx.pub_ctx.node_id N A := by
    rw [hbuf, ← hrl]
    exact record_at _ _ _ hs.2.1 _
  have hfind : dstc_find_server_function s' N = D := by
    unfold dstc_find_server_function
    rw [hsf, hreg]
    exact find_server_latest pre post _ N (by rw [hnm, hcs]) (fun e he => by
      rw [hcs]; exact hpost e he)
  have hcap := hs.2.2.1
  have hlen : HEADER_SIZE + (N.length + 1 + A.length) < 2 ^ 32 := by
    norm_num at hcap ⊢
    omega
  intro rest
  have key := process_named_record s' s.ctx.pub_ctx.node_id N A rest D hN h0 hs.2.2.2 hlen hfind hD
  rw [hrl] at key
  rw [hrec, key]
  have e : HEADER_SIZE + (N.length + 1 + A.length) = HEADER_SIZE + N.length + 1 + A.length := by
    omega
  rw [e]

theorem named_invocation_round_trip_witness :
    ∃ s', dstc_queue_func demo_state (some [102, 111, 111]) [1, 2] 2 = .ok (0, s') ∧
      ∀ rest,
        dstc_process_function_call s'
            ((s'.ctx.pub_buffer.drop 0).take (HEADER_SIZE + 3 + 1 + 2) ++ rest)
            (HEADER_SIZE + 3 + 1 + 2)
          = (HEADER_SIZE + 3 + 1 + 2,
              { s' with dispatched := s'.dispatched ++
                [{ func := 55, callback_ref := 0, node_id := 7, name := [102, 111, 111]
                   payload_off := HEADER_SIZE + 3 + 1, payload := [1, 2]
                   payload_len := 2 }] }) :=
  named_invocation_round_trip demo_state [102, 111, 111] [1, 2] 55 [] [] [102, 111, 111]
    (by decide) (by decide) (by decide) rfl (by decide) (by simp) (by decide) (by decide)
    (by decide)

/-- C2. Round trip of a callback invocation: in every engine state in which the non-zero
64-bit reference `R` is armed in the pending-callback table with dispatch handle `C`, no
slot before it carrying `R`, and whose payload buffer has room for the record,
`queue_callback(R, A, |A|)` returns ok (provided the push to the transport is not fatal),
and the record it wrote at the old cursor, passed to `process_call` with its exact
length, returns `sizeof(header) + 9 + |A|`, invokes `C` exactly once with callback
reference `R`, the node id of the queuing engine, the empty name and the argument bytes
`A` of length `|A|`, and nils out the slot. -/
theorem callback_invocation_round_trip (s : dstc_state) (R : Nat) (A : List Nat) (C : Nat)
    (pre post : List dstc_callback_entry_t)
    (hs : engine_state s) (hR : R ≠ 0) (hR64 : R < 2 ^ 64)
    (harmed : s.ctx.local_callback = pre ++ { callback_ref := R, callback := C } :: post)
    (hpre : ∀ e ∈ pre, e.callback_ref ≠ R) (hC : C ≠ 0)
    (hspace : HEADER_SIZE + 9 + A.length ≤ dstc_payload_buffer_available s.ctx)
    (hpush : s.ctx.pub_ctx.traffic_suspended = true ∨
      (s.env.malloc_fails = false ∧ s.ctx.pub_ctx.queue_packet_rc = 0)) :
    ∃ s', dstc_queue_callback s R A A.length = .ok (0, s') ∧
      ∀ rest,
        dstc_process_function_call s'
            ((s'.ctx.pub_buffer.drop s.ctx.pub_buffer_ind).take (HEADER_SIZE + 9 + A.length)
              ++ rest)
            (HEADER_SIZE + 9 + A.length)
          = (HEADER_SIZE + 9 + A.length,
              { s' with
                ctx := { s'.ctx with
                  local_callback := pre ++ { callback_ref := 0, callback := 0 } :: post }
                dispatched := s'.dispatched ++
                  [{ func := C, callback_ref := R, node_id := s.ctx.pub_ctx.node_id, name := []
                     payload_off := HEADER_SIZE + 9, payload := A
                     payload_len := A.length }] }) := by
  have hav := available_eq s hs
  have hfit : s.ctx.pub_buffer_ind + (HEADER_SIZE + (1 + 8) + A.length)
      ≤ s.ctx.pub_buffer.length := by
    omega
  have heq := dstc_queue_callback_eq s hs R A A.length hR (Nat.le_refl _) hfit
  rw [List.take_length] at heq
  obtain ⟨s', hq⟩ := queue_pending_calls_returns
    (with_record s (spec_callback_record s.ctx.pub_ctx.node_id R A)) hpush
  refine ⟨s', heq.trans hq, ?_⟩
  obtain ⟨hbuf, -, -, hcb, -⟩ := after_record s _ _ s' hq
  have hrl : (spec_callback_record s.ctx.pub_ctx.node_id R A).length
      = HEADER_SIZE + 9 + A.length := by
    rw [spec_callback_record_length]
  have hrec : (s'.ctx.pub_buffer.drop s.ctx.pub_buffer_ind).take
      (HEADER_SIZE + 9 + A.length) = spec_callback_record s.ctx.pub_ctx.node_id R A := by
    rw [hbuf, ← hrl]
    exact record_at _ _ _ hs.2.1 _
  have hcap := hs.2.2.1
  have hlen : HEADER_SIZE + (1 + 8 + A.length) < 2 ^ 32 := by
    norm_num at hcap ⊢
    omega
  intro rest
  have key := process_callback_record s' s.ctx.pub_ctx.node_id R A rest C pre post hR64
    hs.2.2.2 hlen (hcb.trans harmed) hpre hC
  rw [hrl] at key
  rw [hrec, key]
  have e : HEADER_SIZE + (1 + 8 + A.length) = HEADER_SIZE + 9 + A.length := by omega
  have e2 : HEADER_SIZE + 1 + 8 = HEADER_SIZE + 9 := by omega
  rw [e, e2]

theorem callback_invocation_round_trip_witness :
    ∃ s', dstc_queue_callback demo_state 4096 [1, 2] 2 = .ok (0, s') ∧
      ∀ rest,
        dstc_process_function_call s'
            ((s'.ctx.pub_buffer.drop 0).take (HEADER_SIZE + 9 + 2) ++ rest)
            (HEADER_SIZE + 9 + 2)
          = (HEADER_SIZE + 9 + 2,
              { s' with
                ctx := { s'.ctx with
                  local_callback := [] ++ [{ callback_ref := 0, callback := 0 }] }
                dispatched := s'.dispatched ++
                  [{ func := 77, callback_ref := 4096, node_id := 7, name := []
                     payload_off := HEADER_SIZE + 9, payload := [1, 2]
                     payload_len := 2 }] }) :=
  callback_invocation_round_trip demo_state 4096 [1, 2] 77 [] []
    (by decide) (by decide) (by decide) rfl (by simp) (by decide) (by decide) (by decide)

/-! ## Wire layout -/

theorem peek_record (buf rec post : List Nat) (c i : Nat) (hc : c ≤ buf.length)
    (hi : i < rec.length) :
    peek (buf.take c ++ rec ++ post) (c + i) = peek rec i := by
  have h1 : (buf.take c).length = c := by simp only [List.length_take]; omega
  rw [List.append_assoc]
  have := peek_append_right (buf.take c) (rec ++ post) i
  rw [h1] at this
  rw [this]
  exact peek_append_left rec post i hi

theorem le_read_record_len (pre : List Nat) (nid L : Nat) (tail : List Nat) (k : Nat)
    (hk : pre.length = k) :
    le_read (pre ++ (le_bytes 4 nid ++ le_bytes 4 L ++ tail)) (k + 4) 4 = L % 256 ^ 4 := by
  have e : pre ++ (le_bytes 4 nid ++ le_bytes 4 L ++ tail)
      = (pre ++ le_bytes 4 nid) ++ (le_bytes 4 L ++ tail) := by
    simp [List.append_assoc]
  rw [e, le_read_at _ _ (k + 4) 4 (by simp [le_bytes_length, hk]), le_read_le_bytes]

theorem cstr_head_ne_zero (nm : List Nat) (hne : cstr nm ≠ []) (tail : List Nat) :
    peek (cstr nm ++ tail) 0 ≠ 0 := by
  cases hc : cstr nm with
  | nil => exact absurd hc hne
  | cons a t =>
    have hmem : a ∈ cstr nm := by rw [hc]; simp
    have ha : a ≠ 0 := fun h => cstr_not_mem_zero nm (h ▸ hmem)
    simpa [peek] using ha

/-- C3. Wire layout of an encoded record: in every engine state, a successful
`queue_func(N, A, |A|)` leaves at the old cursor the caller node id as 4 little-endian
bytes, the payload length `|N| + 1 + |A|` as 4 little-endian bytes, the bytes of the C
string `N`, one zero byte and the bytes of `A`; a successful `queue_callback(R, A, |A|)`
leaves there the node id, the payload length `9 + |A|`, one zero byte, `R` as 8
little-endian bytes and the bytes of `A`.  The first payload byte is non-zero in the
first case and zero in the second. -/
theorem wire_layout (s s' : dstc_state) (N A : List Nat) (R : Nat) (hs : engine_state s) :
    (dstc_queue_func s (some N) A A.length = .ok (0, s') →
      (s'.ctx.pub_buffer.drop s.ctx.pub_buffer_ind).take
          (HEADER_SIZE + ((cstr N).length + 1 + A.length))
        = spec_named_record s.ctx.pub_ctx.node_id (cstr N) A ∧
      peek s'.ctx.pub_buffer (s.ctx.pub_buffer_ind + HEADER_SIZE) ≠ 0) ∧
    (dstc_queue_callback s R A A.length = .ok (0, s') →
      (s'.ctx.pub_buffer.drop s.ctx.pub_buffer_ind).take (HEADER_SIZE + (1 + 8 + A.length))
        = spec_callback_record s.ctx.pub_ctx.node_id R A ∧
      peek s'.ctx.pub_buffer (s.ctx.pub_buffer_ind + HEADER_SIZE) = 0) := by
  constructor
  · intro h
    obtain ⟨nm, hnm, hne, -, -, hq⟩ := dstc_queue_func_ok s hs _ _ _ _ h
    injection hnm with hnm
    subst hnm
    rw [List.take_length] at hq
    obtain ⟨hbuf, -⟩ := after_record s _ _ s' hq
    have hrl : (spec_named_record s.ctx.pub_ctx.node_id (cstr N) A).length
        = HEADER_SIZE + ((cstr N).length + 1 + A.length) := by
      rw [spec_named_record_length]; omega
    refine ⟨?_, ?_⟩
    · rw [hbuf, ← hrl]
      exact record_at _ _ _ hs.2.1 _
    · rw [hbuf]
      simp only [with_record]
      rw [peek_record _ _ _ _ _ hs.2.1 (by rw [hrl]; simp only [HEADER_SIZE]; omega)]
      have e : spec_named_record s.ctx.pub_ctx.node_id (cstr N) A
          = (le_bytes 4 s.ctx.pub_ctx.node_id ++ le_bytes 4 ((cstr N).length + 1 + A.length))
            ++ (cstr N ++ ([0] ++ A)) := by
        simp [spec_named_record, List.append_assoc]
      rw [e]
      have := peek_append_right
        (le_bytes 4 s.ctx.pub_ctx.node_id ++ le_bytes 4 ((cstr N).length + 1 + A.length))
        (cstr N ++ ([0] ++ A)) 0
      simp only [List.length_append, le_bytes_length, Nat.add_zero] at this
      simp only [HEADER_SIZE]
      rw [this]
      exact cstr_head_ne_zero N hne _
  · intro h
    obtain ⟨-, -, -, hq⟩ := dstc_queue_callback_ok s hs _ _ _ _ h
    rw [List.take_length] at hq
    obtain ⟨hbuf, -⟩ := after_record s _ _ s' hq
    have hrl : (spec_callback_record s.ctx.pub_ctx.node_id R A).length
        = HEADER_SIZE + (1 + 8 + A.length) := by
      rw [spec_callback_record_length]; omega
    refine ⟨?_, ?_⟩
    · rw [hbuf, ← hrl]
      exact record_at _ _ _ hs.2.1 _
    · rw [hbuf]
      simp only [with_record]
      rw [peek_record _ _ _ _ _ hs.2.1 (by rw [hrl]; simp only [HEADER_SIZE]; omega)]
      have e : spec_callback_record s.ctx.pub_ctx.node_id R A
          = (le_bytes 4 s.ctx.pub_ctx.node_id ++ le_bytes 4 (1 + 8 + A.length))
            ++ (0 :: (le_bytes 8 R ++ A)) := by
        simp [spec_callback_record, List.append_assoc]
      rw [e]
      have := peek_append_right
        (le_bytes 4 s.ctx.pub_ctx.node_id ++ le_bytes 4 (1 + 8 + A.length))
        (0 :: (le_bytes 8 R ++ A)) 0
      simp only [List.length_append, le_bytes_length, Nat.add_zero] at this
      simp only [HEADER_SIZE]
      rw [this]
      simp [peek]

theorem wire_layout_witness :
    (dstc_queue_func demo_state (some [102, 111, 111]) [1, 2] 2 = .ok (0, demo_named_result) ∧
      (demo_named_result.ctx.pub_buffer.drop 0).take 14
        = [7, 0, 0, 0, 6, 0, 0, 0, 102, 111, 111, 0, 1, 2]) ∧
    (dstc_queue_callback demo_state 4096 [1, 2] 2 = .ok (0, demo_callback_result) ∧
      (demo_callback_result.ctx.pub_buffer.drop 0).take 19
        = [7, 0, 0, 0, 11, 0, 0, 0, 0, 0, 16, 0, 0, 0, 0, 0, 0, 1, 2]) :=
  ⟨⟨by rfl, ((wire_layout demo_state demo_named_result [102, 111, 111] [1, 2] 4096
      (by decide)).1 (by rfl)).1⟩,
   ⟨by rfl, ((wire_layout demo_state demo_callback_result [102, 111, 111] [1, 2] 4096
      (by decide)).2 (by rfl)).1⟩⟩

/-! ## Consumed byte count and skipped records -/

/-- C4. For every input and every 32-bit length `data_len`, `process_call` returns
`sizeof(header) + header.payload_len` when `data_len >= sizeof(header)` and
`data_len - sizeof(header) >= header.payload_len`, and returns `data_len` otherwise,
whatever the state of the registries. -/
theorem process_call_consumed (s : dstc_state) (data : List Nat) (data_len : Nat)
    (hlen : data_len < 2 ^ 32) :
    (dstc_process_function_call s data data_len).1
      = if HEADER_SIZE ≤ data_len ∧ le_read data 4 4 ≤ data_len - HEADER_SIZE then
          HEADER_SIZE + le_read data 4 4
        else data_len := by
  unfold dstc_process_function_call
  by_cases h1 : data_len < HEADER_SIZE
  · have : ¬ (HEADER_SIZE ≤ data_len ∧ le_read data 4 4 ≤ data_len - HEADER_SIZE) := by omega
    simp only [h1, if_true, this, if_false]
  · by_cases h2 : data_len - HEADER_SIZE < le_read data 4 4
    · have : ¬ (HEADER_SIZE ≤ data_len ∧ le_read data 4 4 ≤ data_len - HEADER_SIZE) := by omega
      simp only [h1, if_false, h2, if_true, this]
    · have h3 : HEADER_SIZE ≤ data_len ∧ le_read data 4 4 ≤ data_len - HEADER_SIZE := by omega
      have hmod : (HEADER_SIZE + le_read data 4 4) % 2 ^ 32 = HEADER_SIZE + le_read data 4 4 := by
        apply Nat.mod_eq_of_lt
        omega
      simp only [h1, if_false, h2, h3, and_self, if_true, hmod]
      split_ifs <;> rfl

theorem process_call_consumed_witness :
    (dstc_process_function_call demo_state [7, 0, 0, 0, 4, 0, 0, 0, 102, 111, 111, 0, 9, 9] 14).1
      = 12 :=
  (process_call_consumed demo_state [7, 0, 0, 0, 4, 0, 0, 0, 102, 111, 111, 0, 9, 9] 14
    (by decide)).trans (by decide)

/-- C5. Skipped inbound records have no effect: when the input is truncated
(`data_len < sizeof(header)` or `data_len - sizeof(header) < header.payload_len`), or is
well framed and names a function that matches no registered server function, or is well
framed and carries a callback reference that matches no armed slot of the
pending-callback table (the only slots carrying it are nilled-out ones), `process_call`
returns the engine state unchanged: no dispatch handle is invoked and the server
registry, the pending-callback table and the remote availability map are as before. -/
theorem skipped_record_no_effect (s : dstc_state) (data : List Nat) (data_len : Nat)
    (h : (data_len < HEADER_SIZE ∨ data_len - HEADER_SIZE < le_read data 4 4) ∨
      (peek (data.drop HEADER_SIZE) 0 ≠ 0 ∧
        ∀ e ∈ s.server_func, cstr e.func_name ≠ cstr (data.drop HEADER_SIZE)) ∨
      (peek (data.drop HEADER_SIZE) 0 = 0 ∧
        ∀ e ∈ s.ctx.local_callback,
          e.callback_ref = le_read (data.drop HEADER_SIZE) 1 8 →
            e = { callback_ref := 0, callback := 0 })) :
    (dstc_process_function_call s data data_len).2 = s := by
  unfold dstc_process_function_call
  by_cases h1 : data_len < HEADER_SIZE
  · simp only [h1, if_true]
  · by_cases h2 : data_len - HEADER_SIZE < le_read data 4 4
    · simp only [h1, if_false, h2, if_true]
    · rcases h with h | ⟨hp, hnone⟩ | ⟨hp, hnone⟩
      · exact absurd h (by omega)
      · have hf : dstc_find_server_function s (data.drop HEADER_SIZE) = 0 :=
          find_server_none _ _ hnone _
        simp only [h1, if_false, h2, hp, ne_eq, not_false_eq_true, if_true, hf]
      · have hf : dstc_find_callback_by_ref s (le_read (data.drop HEADER_SIZE) 1 8) = (0, s) := by
          simp only [dstc_find_callback_by_ref, find_callback_none _ _ hnone]
        simp only [h1, if_false, h2, hp, ne_eq, not_true_eq_false, hf, if_true]

theorem skipped_record_no_effect_witness :
    (dstc_process_function_call demo_state [7, 0, 0, 0, 4, 0, 0, 0, 98, 97, 114, 0] 12).2
      = demo_state :=
  skipped_record_no_effect demo_state [7, 0, 0, 0, 4, 0, 0, 0, 98, 97, 114, 0] 12
    (Or.inr (Or.inl (by decide)))

/-! ## Results of the enqueue operations -/

theorem dstc_queue_result (s : dstc_state) (name : Option (List Nat)) (ref : Nat)
    (arg : List Nat) (n rc : Nat) (s' : dstc_state)
    (h : dstc_queue s name ref arg n = .ok (rc, s')) :
    rc = 0 ∨ rc = EBUSY ∨
      (rc = EINVAL ∧ (name = none ∨ name.map cstr = some []) ∧ ref = 0) := by
  unfold dstc_queue at h
  by_cases hinv : (name = none ∨ name.map cstr = some []) ∧ ref = 0
  · simp only [hinv, and_self, if_true] at h
    injection h with h
    injection h with h1 h2
    exact Or.inr (Or.inr ⟨h1.symm, hinv⟩)
  · simp only [hinv, if_false] at h
    split at h
    · injection h with h
      injection h with h1 h2
      exact Or.inr (Or.inl h1.symm)
    · split at h
      · cases h
      · exact Or.inl (queue_pending_calls_ok _ _ _ h).1

/-- C6. `queue_func` returns invalid (`EINVAL`) if and only if its name is the null
pointer or the empty string, and `queue_callback` returns invalid if and only if its
callback reference is zero; every value either of them returns is ok, busy or invalid,
so for every other identifier the returned value is ok or busy. -/
theorem queue_invalid_iff (s : dstc_state) (name : Option (List Nat)) (R : Nat)
    (arg : List Nat) (n : Nat) :
    ((∃ s', dstc_queue_func s name arg n = .ok (EINVAL, s')) ↔
        (name = none ∨ ∃ nm, name = some nm ∧ cstr nm = [])) ∧
      ((∃ s', dstc_queue_callback s R arg n = .ok (EINVAL, s')) ↔ R = 0) ∧
      (∀ rc s', dstc_queue_func s name arg n = .ok (rc, s') →
        rc = 0 ∨ rc = EBUSY ∨ rc = EINVAL) ∧
      (∀ rc s', dstc_queue_callback s R arg n = .ok (rc, s') →
        rc = 0 ∨ rc = EBUSY ∨ rc = EINVAL) := by
  have hmap : (name = none ∨ name.map cstr = some [])
      ↔ (name = none ∨ ∃ nm, name = some nm ∧ cstr nm = []) := by
    cases name with
    | none => simp
    | some nm => simp
  refine ⟨⟨?_, ?_⟩, ⟨?_, ?_⟩, ?_, ?_⟩
  · rintro ⟨s', h⟩
    rcases dstc_queue_result s name 0 arg n EINVAL s' h with h0 | h0 | ⟨-, h0, -⟩
    · simp [EINVAL] at h0
    · simp [EINVAL, EBUSY] at h0
    · exact hmap.mp h0
  · intro h
    refine ⟨s, ?_⟩
    have := hmap.mpr h
    simp only [dstc_queue_func, dstc_queue, this, and_self, if_true]
  · rintro ⟨s', h⟩
    rcases dstc_queue_result s none R arg n EINVAL s' h with h0 | h0 | ⟨-, -, h0⟩
    · simp [EINVAL] at h0
    · simp [EINVAL, EBUSY] at h0
    · exact h0
  · intro h
    refine ⟨s, ?_⟩
    simp only [dstc_queue_callback, dstc_queue, h, true_or, and_self, if_true]
  · intro rc s' h
    rcases dstc_queue_result s name 0 arg n rc s' h with h0 | h0 | ⟨h0, -⟩
    · exact Or.inl h0
    · exact Or.inr (Or.inl h0)
    · exact Or.inr (Or.inr h0)
  · intro rc s' h
    rcases dstc_queue_result s none R arg n rc s' h with h0 | h0 | ⟨h0, -⟩
    · exact Or.inl h0
    · exact Or.inr (Or.inl h0)
    · exact Or.inr (Or.inr h0)

/-! ## Busy results -/

theorem fill_error (buf : List Nat) (c nid : Nat) (name : Option (List Nat)) (ref : Nat)
    (arg : List Nat) (n : Nat) (f : dstc_fault)
    (h : dstc_queue_fill buf c nid name ref arg n = .error f) : f = .overrun := by
  have hstore : ∀ b o x g, store b o x = .error g → g = .overrun := by
    intro b o x g hg
    unfold store at hg
    split at hg
    · cases hg
    · injection hg with hg; exact hg.symm
  have hload : ∀ g, load arg n = .error g → g = .overrun := by
    intro g hg
    unfold load at hg
    split at hg
    · cases hg
    · injection hg with hg; exact hg.symm
  cases name with
  | some nm =>
    simp only [dstc_queue_fill, bind, Except.bind] at h
    cases e1 : store buf c (le_bytes 4 nid) with
    | error g => rw [e1] at h; injection h with h; subst h; exact hstore _ _ _ _ e1
    | ok b1 =>
      simp only [e1] at h
      cases e2 : store b1 (c + HEADER_SIZE) (cstr nm ++ [0]) with
      | error g => rw [e2] at h; injection h with h; subst h; exact hstore _ _ _ _ e2
      | ok b2 =>
        simp only [e2] at h
        cases e3 : store b2 (c + 4) (le_bytes 4 (strlen nm + 1 + n)) with
        | error g => rw [e3] at h; injection h with h; subst h; exact hstore _ _ _ _ e3
        | ok b3 =>
          simp only [e3] at h
          cases e4 : load arg n with
          | error g => rw [e4] at h; injection h with h; subst h; exact hload _ e4
          | ok bytes =>
            simp only [e4] at h
            exact hstore _ _ _ _ h
  | none =>
    simp only [dstc_queue_fill, bind, Except.bind] at h
    cases e1 : store buf c (le_bytes 4 nid) with
    | error g => rw [e1] at h; injection h with h; subst h; exact hstore _ _ _ _ e1
    | ok b1 =>
      simp only [e1] at h
      cases e2 : store b1 (c + HEADER_SIZE) [0] with
      | error g => rw [e2] at h; injection h with h; subst h; exact hstore _ _ _ _ e2
      | ok b2 =>
        simp only [e2] at h
        cases e3 : store b2 (c + HEADER_SIZE + 1) (le_bytes 8 ref) with
        | error g => rw [e3] at h; injection h with h; subst h; exact hstore _ _ _ _ e3
        | ok b3 =>
          simp only [e3] at h
          cases e4 : store b3 (c + 4) (le_bytes 4 (1 + 8 + n)) with
          | error g => rw [e4] at h; injection h with h; subst h; exact hstore _ _ _ _ e4
          | ok b4 =>
            simp only [e4] at h
            cases e5 : load arg n with
            | error g => rw [e5] at h; injection h with h; subst h; exact hload _ e5
            | ok bytes =>
              simp only [e5] at h
              exact hstore _ _ _ _ h


theorem dstc_queue_func_overrun (s : dstc_state) (nm arg : List Nat) (n : Nat)
    (hs : engine_state s) (hne : cstr nm ≠ [])
    (hal : ¬ dstc_payload_buffer_available s.ctx
      < (HEADER_SIZE + (strlen nm + 1) % 2 ^ 16 + n) % 2 ^ 32)
    (hno : ¬ s.ctx.pub_buffer_ind + (HEADER_SIZE + (strlen nm + 1) + n)
      ≤ s.ctx.pub_buffer.length) :
    dstc_queue_func s (some nm) arg n = .error .overrun := by
  have hinit : s.initialized = true := hs.1
  unfold dstc_queue_func dstc_queue
  simp only [Option.map_some', Option.some.injEq, hne, or_self, false_and, if_false, hinit,
    Bool.not_true, Bool.false_eq_true, ne_eq, not_true_eq_false, reduceCtorEq,
    dstc_payload_buffer_alloc, hal, dstc_payload_buffer_in_use]
  split
  · rename_i f hfill
    rw [fill_error _ _ _ _ _ _ _ _ hfill]
  · rename_i buf hfill
    exact absurd (fill_fits _ _ _ _ _ _ _ _ hfill).2 hno

/-- C7. The claim that `queue_func` returns busy whenever `available()` is smaller than
`sizeof(header) + strlen(name) + 1 + args_len` fails on the code: with the name `"a"` and
`args_len = 4294967295` on an empty 64-byte payload buffer the record does not fit, but the
size handed to the allocator wraps to 9, the allocation succeeds, and the call overruns
the payload buffer instead of returning busy. -/
theorem queue_func_size_wraps :
    dstc_payload_buffer_available demo_state.ctx
        < HEADER_SIZE + strlen [97] + 1 + 4294967295 ∧
      (HEADER_SIZE + (strlen [97] + 1) % 2 ^ 16 + 4294967295) % 2 ^ 32 = 9 ∧
      dstc_queue_func demo_state (some [97]) (List.replicate 4294967295 0) 4294967295
        = .error .overrun :=
  ⟨by decide, by decide,
    dstc_queue_func_overrun demo_state [97] _ 4294967295 (by decide) (by decide) (by decide)
      (by decide)⟩

/-- C8. The claim that `queue_func` returns ok whenever the transport is not suspended and
the record fits the capacity of the payload buffer fails on the code: with 60 of 64 bytes
pending and the transport not suspended, `queue_func("a", [], 0)` (a record of 10 bytes)
returns busy and leaves the state as it was, the pending bytes not being pushed. -/
theorem queue_func_busy_not_suspended :
    demo_pending.ctx.pub_ctx.traffic_suspended = false ∧
      HEADER_SIZE + strlen [97] + 1 + 0 ≤ demo_pending.ctx.pub_buffer.length ∧
      dstc_queue_func demo_pending (some [97]) [] 0 = .ok (EBUSY, demo_pending) :=
  ⟨by decide, by decide, by rfl⟩

/-! ## Flushing and accumulation -/

theorem take_with_record (buf rec post : List Nat) (c : Nat) (hc : c ≤ buf.length) :
    (buf.take c ++ rec ++ post).take (c + rec.length) = buf.take c ++ rec := by
  have h1 : (buf.take c ++ rec).length = c + rec.length := by
    simp only [List.length_append, List.length_take]; omega
  exact List.take_left' h1

theorem take_below_record (buf rec post : List Nat) (c : Nat) (hc : c ≤ buf.length) :
    (buf.take c ++ rec ++ post).take c = buf.take c := by
  have h1 : (buf.take c).length = c := by simp only [List.length_take]; omega
  rw [List.append_assoc]
  exact List.take_left' h1

theorem pushed_state (s : dstc_state) (rec : List Nat) (s' : dstc_state)
    (hs : engine_state s) (hns : s.ctx.pub_ctx.traffic_suspended = false)
    (hrec : 0 < rec.length)
    (hq : queue_pending_calls (with_record s rec) = .ok (0, s')) :
    s'.ctx.pub_ctx.queued
        = s.ctx.pub_ctx.queued ++ [s.ctx.pub_buffer.take s.ctx.pub_buffer_ind ++ rec] ∧
      dstc_payload_buffer_in_use s'.ctx = 0 := by
  obtain ⟨-, -, h2⟩ := queue_pending_calls_ok _ _ _ hq
  have hpos : 0 < (with_record s rec).ctx.pub_buffer_ind := by
    simp only [with_record]; omega
  have := h2 ⟨hns, hpos⟩
  subst this
  refine ⟨?_, rfl⟩
  simp only [flushed, with_record]
  rw [take_with_record _ _ _ _ hs.2.1]

/-- C9. Flush on enqueue: in every engine state in which the transport is not suspended, a
`queue_func` or `queue_callback` call that returns ok hands exactly one packet to the
transport publisher, whose bytes are the bytes buffered before the call followed by the new
record, and leaves the payload buffer empty (`in_use() = 0`). -/
theorem flush_on_enqueue (s s' : dstc_state) (name : Option (List Nat)) (R : Nat)
    (arg : List Nat) (n : Nat) (hs : engine_state s)
    (hns : s.ctx.pub_ctx.traffic_suspended = false) :
    (dstc_queue_func s name arg n = .ok (0, s') →
      ∃ nm, name = some nm ∧
        s'.ctx.pub_ctx.queued = s.ctx.pub_ctx.queued ++
          [s.ctx.pub_buffer.take (dstc_payload_buffer_in_use s.ctx)
            ++ spec_named_record s.ctx.pub_ctx.node_id (cstr nm) (arg.take n)] ∧
        dstc_payload_buffer_in_use s'.ctx = 0) ∧
    (dstc_queue_callback s R arg n = .ok (0, s') →
      s'.ctx.pub_ctx.queued = s.ctx.pub_ctx.queued ++
          [s.ctx.pub_buffer.take (dstc_payload_buffer_in_use s.ctx)
            ++ spec_callback_record s.ctx.pub_ctx.node_id R (arg.take n)] ∧
        dstc_payload_buffer_in_use s'.ctx = 0) := by
  constructor
  · intro h
    obtain ⟨nm, hnm, -, -, -, hq⟩ := dstc_queue_func_ok s hs _ _ _ _ h
    refine ⟨nm, hnm, ?_⟩
    exact pushed_state s _ s' hs hns
      (by rw [spec_named_record_length]; simp only [HEADER_SIZE]; omega) hq
  · intro h
    obtain ⟨-, -, -, hq⟩ := dstc_queue_callback_ok s hs _ _ _ _ h
    exact pushed_state s _ s' hs hns
      (by rw [spec_callback_record_length]; simp only [HEADER_SIZE]; omega) hq

theorem flush_on_enqueue_witness :
    (dstc_queue_func demo_state (some [102, 111, 111]) [1, 2] 2 = .ok (0, demo_named_result) ∧
      demo_named_result.ctx.pub_ctx.queued
        = [[7, 0, 0, 0, 6, 0, 0, 0, 102, 111, 111, 0, 1, 2]] ∧
      dstc_payload_buffer_in_use demo_named_result.ctx = 0) ∧
    (dstc_queue_callback demo_state 4096 [1, 2] 2 = .ok (0, demo_callback_result) ∧
      demo_callback_result.ctx.pub_ctx.queued
        = [[7, 0, 0, 0, 11, 0, 0, 0, 0, 0, 16, 0, 0, 0, 0, 0, 0, 1, 2]] ∧
      dstc_payload_buffer_in_use demo_callback_result.ctx = 0) :=
  ⟨⟨by rfl,
    ((flush_on_enqueue demo_state demo_named_result (some [102, 111, 111]) 4096 [1, 2] 2
      (by decide) (by decide)).1 (by rfl)).elim (fun nm h => by
        obtain ⟨h1, h2⟩ := h
        injection h1 with h1
        subst h1
        exact h2)⟩,
   ⟨by rfl,
    (flush_on_enqueue demo_state demo_callback_result (some [102, 111, 111]) 4096 [1, 2] 2
      (by decide) (by decide)).2 (by rfl)⟩⟩

theorem appended_state (s : dstc_state) (rec : List Nat) (s' : dstc_state)
    (hs : engine_state s) (hsus : s.ctx.pub_ctx.traffic_suspended = true)
    (hq : queue_pending_calls (with_record s rec) = .ok (0, s')) :
    s'.ctx.pub_ctx = s.ctx.pub_ctx ∧
      s'.ctx.pub_buffer.take s.ctx.pub_buffer_ind = s.ctx.pub_buffer.take s.ctx.pub_buffer_ind ∧
      s'.ctx.pub_buffer_ind = s.ctx.pub_buffer_ind + rec.length ∧
      s'.ctx.pub_buffer = s.ctx.pub_buffer.take s.ctx.pub_buffer_ind ++ rec
        ++ s.ctx.pub_buffer.drop (s.ctx.pub_buffer_ind + rec.length) := by
  obtain ⟨-, h1, -⟩ := queue_pending_calls_ok _ _ _ hq
  have := h1 (Or.inl hsus)
  subst this
  refine ⟨rfl, ?_, rfl, rfl⟩
  simp only [with_record]
  exact take_below_record _ _ _ _ hs.2.1

/-- C10. Accumulation under suspension: in every engine state in which the transport is
suspended, a `queue_func(N, A, args_len)` or `queue_callback(R, A, args_len)` call that
returns ok hands no packet to the transport (the publisher context is unchanged), leaves
the bytes below the old cursor unchanged, and advances the cursor by exactly
`sizeof(header) + id_len + args_len`, with `id_len = strlen(N) + 1` for a named
invocation and 9 for a callback invocation; `id_len + args_len` is the payload length
written into the header of the new record. -/
theorem accumulate_when_suspended (s s' : dstc_state) (name : Option (List Nat)) (R : Nat)
    (arg : List Nat) (n : Nat) (hs : engine_state s)
    (hsus : s.ctx.pub_ctx.traffic_suspended = true) :
    (dstc_queue_func s name arg n = .ok (0, s') →
      ∃ nm, name = some nm ∧ s'.ctx.pub_ctx = s.ctx.pub_ctx ∧
        s'.ctx.pub_buffer.take s.ctx.pub_buffer_ind
          = s.ctx.pub_buffer.take s.ctx.pub_buffer_ind ∧
        s'.ctx.pub_buffer_ind = s.ctx.pub_buffer_ind + (HEADER_SIZE + (strlen nm + 1) + n) ∧
        le_read s'.ctx.pub_buffer (s.ctx.pub_buffer_ind + 4) 4 = strlen nm + 1 + n) ∧
    (dstc_queue_callback s R arg n = .ok (0, s') →
      s'.ctx.pub_ctx = s.ctx.pub_ctx ∧
        s'.ctx.pub_buffer.take s.ctx.pub_buffer_ind
          = s.ctx.pub_buffer.take s.ctx.pub_buffer_ind ∧
        s'.ctx.pub_buffer_ind = s.ctx.pub_buffer_ind + (HEADER_SIZE + 9 + n) ∧
        le_read s'.ctx.pub_buffer (s.ctx.pub_buffer_ind + 4) 4 = 9 + n) := by
  have hcap := hs.2.2.1
  have hc : (s.ctx.pub_buffer.take s.ctx.pub_buffer_ind).length = s.ctx.pub_buffer_ind := by
    simp only [List.length_take]
    have := hs.2.1
    omega
  constructor
  · intro h
    obtain ⟨nm, hnm, -, hn, hfit, hq⟩ := dstc_queue_func_ok s hs _ _ _ _ h
    obtain ⟨h1, h2, h3, h4⟩ := appended_state s _ s' hs hsus hq
    have hlen : (arg.take n).length = n := by simp only [List.length_take]; omega
    refine ⟨nm, hnm, h1, h2, ?_, ?_⟩
    · rw [h3, spec_named_record_length, hlen]; rfl
    · rw [h4, List.append_assoc]
      simp only [spec_named_record]
      rw [List.append_assoc (le_bytes 4 s.ctx.pub_ctx.node_id ++ le_bytes 4 _),
        List.append_assoc (le_bytes 4 s.ctx.pub_ctx.node_id ++ le_bytes 4 _),
        le_read_record_len _ _ _ _ _ hc, hlen]
      apply Nat.mod_eq_of_lt
      have hsl : (cstr nm).length = strlen nm := rfl
      simp only [HEADER_SIZE] at hfit
      norm_num at hcap ⊢
      omega
  · intro h
    obtain ⟨-, hn, hfit, hq⟩ := dstc_queue_callback_ok s hs _ _ _ _ h
    obtain ⟨h1, h2, h3, h4⟩ := appended_state s _ s' hs hsus hq
    have hlen : (arg.take n).length = n := by simp only [List.length_take]; omega
    refine ⟨h1, h2, ?_, ?_⟩
    · rw [h3, spec_callback_record_length, hlen]
    · rw [h4, List.append_assoc]
      simp only [spec_callback_record]
      rw [List.append_assoc (le_bytes 4 s.ctx.pub_ctx.node_id ++ le_bytes 4 _),
        List.append_assoc (le_bytes 4 s.ctx.pub_ctx.node_id ++ le_bytes 4 _),
        le_read_record_len _ _ _ _ _ hc, hlen]
      apply Nat.mod_eq_of_lt
      simp only [HEADER_SIZE] at hfit
      norm_num at hcap ⊢
      omega

theorem accumulate_when_suspended_witness :
    dstc_queue_func demo_suspended (some [102, 111, 111]) [1, 2] 2
        = .ok (0, demo_suspended_result) ∧
      demo_suspended_result.ctx.pub_ctx = demo_suspended.ctx.pub_ctx ∧
      demo_suspended_result.ctx.pub_buffer_ind = 0 + (HEADER_SIZE + (3 + 1) + 2) ∧
      le_read demo_suspended_result.ctx.pub_buffer (0 + 4) 4 = 3 + 1 + 2 :=
  ⟨by rfl,
    ((accumulate_when_suspended demo_suspended demo_suspended_result (some [102, 111, 111])
      4096 [1, 2] 2 (by decide) (by decide)).1 (by rfl)).elim
      (fun nm h => ⟨h.2.1, by rfl, by rfl⟩)⟩

/-! ## Payload buffer allocation -/

theorem payload_buffer_inv_of_le (ctx : dstc_context_t)
    (hc : ctx.pub_buffer_ind ≤ ctx.pub_buffer.length) (hcap : ctx.pub_buffer.length < 2 ^ 32) :
    payload_buffer_inv ctx := by
  refine ⟨hc, ?_⟩
  unfold dstc_payload_buffer_in_use dstc_payload_buffer_available
  norm_num at hcap ⊢
  omega

theorem fill_length (buf : List Nat) (c nid : Nat) (name : Option (List Nat)) (ref : Nat)
    (arg : List Nat) (n : Nat) (buf' : List Nat)
    (h : dstc_queue_fill buf c nid name ref arg n = .ok buf') : buf'.length = buf.length := by
  cases name with
  | some nm =>
    simp only [dstc_queue_fill, bind, Except.bind] at h
    cases e1 : store buf c (le_bytes 4 nid) with
    | error f => simp [e1] at h
    | ok b1 =>
      simp only [e1] at h
      cases e2 : store b1 (c + HEADER_SIZE) (cstr nm ++ [0]) with
      | error f => simp [e2] at h
      | ok b2 =>
        simp only [e2] at h
        cases e3 : store b2 (c + 4) (le_bytes 4 (strlen nm + 1 + n)) with
        | error f => simp [e3] at h
        | ok b3 =>
          simp only [e3] at h
          cases e4 : load arg n with
          | error f => simp [e4] at h
          | ok bytes =>
            simp only [e4] at h
            rw [(store_ok _ _ _ _ h).2, (store_ok _ _ _ _ e3).2, (store_ok _ _ _ _ e2).2,
              (store_ok _ _ _ _ e1).2]
  | none =>
    simp only [dstc_queue_fill, bind, Except.bind] at h
    cases e1 : store buf c (le_bytes 4 nid) with
    | error f => simp [e1] at h
    | ok b1 =>
      simp only [e1] at h
      cases e2 : store b1 (c + HEADER_SIZE) [0] with
      | error f => simp [e2] at h
      | ok b2 =>
        simp only [e2] at h
        cases e3 : store b2 (c + HEADER_SIZE + 1) (le_bytes 8 ref) with
        | error f => simp [e3] at h
        | ok b3 =>
          simp only [e3] at h
          cases e4 : store b3 (c + 4) (le_bytes 4 (1 + 8 + n)) with
          | error f => simp [e4] at h
          | ok b4 =>
            simp only [e4] at h
            cases e5 : load arg n with
            | error f => simp [e5] at h
            | ok bytes =>
              simp only [e5] at h
              rw [(store_ok _ _ _ _ h).2, (store_ok _ _ _ _ e4).2, (store_ok _ _ _ _ e3).2,
                (store_ok _ _ _ _ e2).2, (store_ok _ _ _ _ e1).2]

theorem dstc_setup_buffer (s : dstc_state) :
    (dstc_setup s).2.ctx.pub_buffer = s.ctx.pub_buffer ∧
      ((dstc_setup s).2.ctx.pub_buffer_ind = 0 ∨
        (dstc_setup s).2.ctx.pub_buffer_ind = s.ctx.pub_buffer_ind) := by
  unfold dstc_setup dstc_setup_epoll dstc_setup_internal
  by_cases hi : s.initialized = true
  · simp [hi]
  · by_cases he : s.env.epoll_create_fd = -1
    · simp [hi, he]
    · simp [hi, he]

theorem alloc_result (ctx : dstc_context_t) (k call : Nat) (ctx' : dstc_context_t)
    (hc : ctx.pub_buffer_ind ≤ ctx.pub_buffer.length) (hcap : ctx.pub_buffer.length < 2 ^ 32)
    (h : dstc_payload_buffer_alloc ctx k = some (call, ctx')) :
    call = ctx.pub_buffer_ind ∧ ctx'.pub_buffer = ctx.pub_buffer ∧
      ctx'.pub_buffer_ind = ctx.pub_buffer_ind + k ∧
      ctx.pub_buffer_ind + k ≤ ctx.pub_buffer.length := by
  have hav := (payload_buffer_inv_of_le ctx hc hcap).2
  unfold dstc_payload_buffer_in_use at hav
  unfold dstc_payload_buffer_alloc at h
  split at h
  · cases h
  · rename_i hk
    injection h with h
    injection h with h1 h2
    subst h1 h2
    have hle : ctx.pub_buffer_ind + k ≤ ctx.pub_buffer.length := by omega
    have hmod : (ctx.pub_buffer_ind + k) % 2 ^ 32 = ctx.pub_buffer_ind + k := by
      apply Nat.mod_eq_of_lt
      omega
    exact ⟨rfl, rfl, hmod, hle⟩

theorem dstc_queue_buffer (s : dstc_state) (name : Option (List Nat)) (ref : Nat)
    (arg : List Nat) (k rc : Nat) (s' : dstc_state)
    (hc : s.ctx.pub_buffer_ind ≤ s.ctx.pub_buffer.length)
    (hcap : s.ctx.pub_buffer.length < 2 ^ 32)
    (h : dstc_queue s name ref arg k = .ok (rc, s')) :
    s'.ctx.pub_buffer_ind ≤ s'.ctx.pub_buffer.length ∧
      s'.ctx.pub_buffer.length = s.ctx.pub_buffer.length := by
  unfold dstc_queue at h
  by_cases hinv : (name = none ∨ name.map cstr = some []) ∧ ref = 0
  · simp only [hinv, and_self, if_true] at h
    injection h with h
    injection h with h1 h2
    subst h2
    exact ⟨hc, rfl⟩
  · simp only [hinv, if_false] at h
    have hs1 : ∀ s1 : dstc_state, s1 = (if (!s.initialized) = true then (dstc_setup s).2 else s) →
        s1.ctx.pub_buffer = s.ctx.pub_buffer ∧
          s1.ctx.pub_buffer_ind ≤ s.ctx.pub_buffer.length := by
      intro s1 h1
      subst h1
      by_cases hi : s.initialized = true
      · simp only [hi, Bool.not_true, Bool.false_eq_true, if_false]
        exact ⟨trivial, hc⟩
      · have hi' : s.initialized = false := by simpa using hi
        simp only [hi', Bool.not_false, if_true]
        obtain ⟨hb, h0 | h0⟩ := dstc_setup_buffer s
        · exact ⟨hb, by rw [h0]; exact Nat.zero_le _⟩
        · exact ⟨hb, by rw [h0]; exact hc⟩
    generalize hgen : (if (!s.initialized) = true then (dstc_setup s).2 else s) = s1 at h
    obtain ⟨hb1, hc1⟩ := hs1 s1 hgen.symm
    rw [← hb1] at hc1 hcap ⊢
    split at h
    · injection h with h
      injection h with h1 h2
      subst h2
      exact ⟨hc1, rfl⟩
    · rename_i call ctx hal
      obtain ⟨-, hbuf, hind, hle⟩ := alloc_result _ _ _ _ hc1 hcap hal
      split at h
      · cases h
      · rename_i buf hfill
        have hlen := fill_length _ _ _ _ _ _ _ _ hfill
        rw [hbuf] at hlen
        rcases queue_pending_calls_frame _ _ _ h with h' | h'
        · subst h'
          exact ⟨by show ctx.pub_buffer_ind ≤ buf.length; rw [hind, hlen]; exact hle, hlen⟩
        · subst h'
          exact ⟨Nat.zero_le _, hlen⟩

/-- C20. Payload buffer allocation: for every cursor `c` not above the capacity (a 32-bit
size) and every request `n`, `alloc(n)` returns null when `capacity - c < n`, and
otherwise returns the region at offset `c` and sets the cursor to `c + n`; `reset` sets
the cursor to 0.  After `alloc`, `reset`, `queue_func` and `queue_callback` the capacity is
as before, the cursor does not exceed it and `in_use() + available()` is the capacity. -/
theorem payload_buffer_alloc_reset (s : dstc_state) (n : Nat)
    (hc : s.ctx.pub_buffer_ind ≤ s.ctx.pub_buffer.length)
    (hcap : s.ctx.pub_buffer.length < 2 ^ 32) :
    (s.ctx.pub_buffer.length - s.ctx.pub_buffer_ind < n →
        dstc_payload_buffer_alloc s.ctx n = none) ∧
      (n ≤ s.ctx.pub_buffer.length - s.ctx.pub_buffer_ind →
        dstc_payload_buffer_alloc s.ctx n
          = some (s.ctx.pub_buffer_ind,
              { s.ctx with pub_buffer_ind := s.ctx.pub_buffer_ind + n }) ∧
        payload_buffer_inv { s.ctx with pub_buffer_ind := s.ctx.pub_buffer_ind + n }) ∧
      ((dstc_payload_buffer_empty s.ctx).pub_buffer_ind = 0 ∧
        (dstc_payload_buffer_empty s.ctx).pub_buffer = s.ctx.pub_buffer ∧
        payload_buffer_inv (dstc_payload_buffer_empty s.ctx)) ∧
      (∀ name arg k rc s', dstc_queue_func s name arg k = .ok (rc, s') →
        payload_buffer_inv s'.ctx ∧ s'.ctx.pub_buffer.length = s.ctx.pub_buffer.length) ∧
      (∀ R arg k rc s', dstc_queue_callback s R arg k = .ok (rc, s') →
        payload_buffer_inv s'.ctx ∧ s'.ctx.pub_buffer.length = s.ctx.pub_buffer.length) := by
  have hinv := payload_buffer_inv_of_le s.ctx hc hcap
  have hav : dstc_payload_buffer_available s.ctx
      = s.ctx.pub_buffer.length - s.ctx.pub_buffer_ind := by
    have := hinv.2
    unfold dstc_payload_buffer_in_use at this
    omega
  refine ⟨?_, ?_, ?_, ?_, ?_⟩
  · intro h
    simp only [dstc_payload_buffer_alloc, hav, h, if_true]
  · intro h
    have hlt : ¬ (s.ctx.pub_buffer.length - s.ctx.pub_buffer_ind < n) := by omega
    have hmod : (s.ctx.pub_buffer_ind + n) % 2 ^ 32 = s.ctx.pub_buffer_ind + n := by
      apply Nat.mod_eq_of_lt
      omega
    refine ⟨by simp only [dstc_payload_buffer_alloc, hav, hlt, if_false,
      dstc_payload_buffer_in_use, hmod], ?_⟩
    exact payload_buffer_inv_of_le _
      (by show s.ctx.pub_buffer_ind + n ≤ s.ctx.pub_buffer.length; omega) hcap
  · exact ⟨rfl, rfl, payload_buffer_inv_of_le _ (Nat.zero_le _) hcap⟩
  · intro name arg k rc s' h
    obtain ⟨h1, h2⟩ := dstc_queue_buffer s name 0 arg k rc s' hc hcap h
    exact ⟨payload_buffer_inv_of_le _ h1 (by rw [h2]; exact hcap), h2⟩
  · intro R arg k rc s' h
    obtain ⟨h1, h2⟩ := dstc_queue_buffer s none R arg k rc s' hc hcap h
    exact ⟨payload_buffer_inv_of_le _ h1 (by rw [h2]; exact hcap), h2⟩

theorem payload_buffer_alloc_reset_witness :
    dstc_payload_buffer_alloc demo_pending.ctx 5 = none ∧
      dstc_payload_buffer_alloc demo_pending.ctx 4
        = some (60, { demo_pending.ctx with pub_buffer_ind := 64 }) ∧
      (dstc_payload_buffer_empty demo_pending.ctx).pub_buffer_ind = 0 :=
  ⟨(payload_buffer_alloc_reset demo_pending 5 (by decide) (by decide)).1 (by decide),
   ((payload_buffer_alloc_reset demo_pending 4 (by decide) (by decide)).2.1 (by decide)).1,
   (payload_buffer_alloc_reset demo_pending 4 (by decide) (by decide)).2.2.1.1⟩

/-! ## Remote availability map -/

theorem cstr_idem (N : List Nat) : cstr (cstr N) = cstr N :=
  cstr_of_not_mem _ (cstr_not_mem_zero N)

theorem cstr_append_zero_any (N rest : List Nat) : cstr (N ++ 0 :: rest) = cstr N := by
  induction N with
  | nil => simp [cstr]
  | cons a t ih =>
    simp only [cstr] at ih ⊢
    by_cases ha : a = 0
    · simp [List.takeWhile_cons, ha]
    · simp [List.takeWhile_cons, ha, ih]

theorem available_loop_one (tbl : List dstc_remote_node_t) (name : List Nat) (i : Nat)
    (h : ∃ j, j < i ∧ ∃ e, tbl.get? j = some e ∧ cstr name = cstr e.func_name) :
    dstc_remote_function_available_by_name_loop tbl name i = 1 := by
  induction i with
  | zero =>
    obtain ⟨j, hj, -⟩ := h
    omega
  | succ i ih =>
    obtain ⟨j, hj, e, hget, hm⟩ := h
    simp only [dstc_remote_function_available_by_name_loop]
    by_cases hji : j = i
    · subst hji
      simp only [hget, hm, if_true]
    · have hlt : j < i := by omega
      have hrec := ih ⟨j, hlt, e, hget, hm⟩
      cases hg : tbl.get? i with
      | none => simpa using hrec
      | some e' =>
        by_cases hm' : cstr name = cstr e'.func_name
        · simp only [hm', if_true]
        · simp only [hm', if_false]
          exact hrec

theorem available_loop_zero (tbl : List dstc_remote_node_t) (name : List Nat) (i : Nat)
    (h : ∀ e ∈ tbl, cstr name ≠ cstr e.func_name) :
    dstc_remote_function_available_by_name_loop tbl name i = 0 := by
  induction i with
  | zero => rfl
  | succ i ih =>
    simp only [dstc_remote_function_available_by_name_loop]
    cases hg : tbl.get? i with
    | none => simpa using ih
    | some e =>
      simp only [h e (List.get?_mem hg), if_false]
      exact ih

theorem available_by_name_one_iff (s : dstc_state) (name : List Nat) :
    dstc_remote_function_available_by_name s name = 1
      ↔ ∃ e ∈ s.ctx.remote_node, cstr e.func_name = cstr name := by
  unfold dstc_remote_function_available_by_name
  constructor
  · intro h
    by_contra hne
    have hz := available_loop_zero s.ctx.remote_node name s.ctx.remote_node.length
      (fun e he hm => hne ⟨e, he, hm.symm⟩)
    rw [hz] at h
    cases h
  · rintro ⟨e, he, hm⟩
    obtain ⟨j, hj, hget⟩ := List.getElem_of_mem he
    refine available_loop_one _ _ _ ⟨j, hj, e, ?_, hm.symm⟩
    rw [List.get?_eq_getElem?, List.getElem?_eq_getElem hj, hget]

theorem available_by_name_zero_iff (s : dstc_state) (name : List Nat) :
    dstc_remote_function_available_by_name s name = 0
      ↔ ¬ ∃ e ∈ s.ctx.remote_node, cstr e.func_name = cstr name := by
  constructor
  · intro h hex
    have := (available_by_name_one_iff s name).mpr hex
    rw [h] at this
    cases this
  · intro hne
    unfold dstc_remote_function_available_by_name
    exact available_loop_zero _ _ _ (fun e he hm => hne ⟨e, he, hm.symm⟩)

theorem register_loop_true_iff (tbl : List dstc_remote_node_t) (node_id : Nat)
    (name : List Nat) (i : Nat) :
    dstc_register_remote_function_loop tbl node_id name i = true
      ↔ ∃ j, j < i ∧ ∃ e, tbl.get? j = some e ∧ node_id = e.node_id ∧
          cstr name = cstr e.func_name := by
  induction i with
  | zero =>
    simp only [dstc_register_remote_function_loop]
    constructor
    · intro h; cases h
    · rintro ⟨j, hj, -⟩; omega
  | succ i ih =>
    simp only [dstc_register_remote_function_loop]
    cases hg : tbl.get? i with
    | none =>
      simp only
      rw [ih]
      constructor
      · rintro ⟨j, hj, h⟩
        exact ⟨j, by omega, h⟩
      · rintro ⟨j, hj, e, hget, h⟩
        have hji : j ≠ i := by
          intro hji
          subst hji
          rw [hg] at hget
          cases hget
        exact ⟨j, by omega, e, hget, h⟩
    | some e' =>
      simp only
      by_cases hm : node_id = e'.node_id ∧ cstr name = cstr e'.func_name
      · rw [if_pos hm]
        exact ⟨fun _ => ⟨i, Nat.lt_succ_self i, e', hg, hm.1, hm.2⟩, fun _ => rfl⟩
      · rw [if_neg hm, ih]
        constructor
        · rintro ⟨j, hj, h⟩
          exact ⟨j, by omega, h⟩
        · rintro ⟨j, hj, e, hget, h⟩
          have hji : j ≠ i := by
            intro hji
            subst hji
            rw [hg] at hget
            injection hget with hget
            subst hget
            exact hm h
          exact ⟨j, by omega, e, hget, h⟩

theorem register_dup_iff (s : dstc_state) (node_id : Nat) (name : List Nat) :
    dstc_register_remote_function_loop s.ctx.remote_node node_id name
        s.ctx.remote_node.length = true
      ↔ ∃ e ∈ s.ctx.remote_node, e.node_id = node_id ∧ cstr e.func_name = cstr name := by
  rw [register_loop_true_iff]
  constructor
  · rintro ⟨j, -, e, hget, h1, h2⟩
    exact ⟨e, List.get?_mem hget, h1.symm, h2.symm⟩
  · rintro ⟨e, he, h1, h2⟩
    obtain ⟨j, hj, hget⟩ := List.getElem_of_mem he
    refine ⟨j, hj, e, ?_, h1.symm, h2.symm⟩
    rw [List.get?_eq_getElem?, List.getElem?_eq_getElem hj, hget]

theorem register_holds (SYMTAB_SIZE : Nat) (s s' : dstc_state) (P : Nat) (N : List Nat)
    (h : dstc_register_remote_function SYMTAB_SIZE s P N = .ok s') :
    ∃ e ∈ s'.ctx.remote_node, e.node_id = P ∧ cstr e.func_name = cstr N := by
  unfold dstc_register_remote_function at h
  split at h
  · rename_i hdup
    injection h with h
    subst h
    exact (register_dup_iff s P N).mp hdup
  · split at h
    · cases h
    · injection h with h
      subst h
      exact ⟨⟨P, cstr N⟩, by simp, rfl, cstr_idem N⟩

theorem register_returns (SYMTAB_SIZE : Nat) (s : dstc_state) (P : Nat) (N : List Nat)
    (hroom : s.ctx.remote_node.length < SYMTAB_SIZE) :
    ∃ s', dstc_register_remote_function SYMTAB_SIZE s P N = .ok s' := by
  unfold dstc_register_remote_function
  split
  · exact ⟨s, rfl⟩
  · have hne : ¬ s.ctx.remote_node.length = SYMTAB_SIZE := by omega
    simp only [hne, if_false]
    exact ⟨_, rfl⟩

/-- C17. Advertisement makes a function available: for every map state with fewer than
`SYMTAB_SIZE` slots in use, every peer id `P` and every name `N`, `register(P, N)`
returns, and so does the inbound control-message handler on the message `{P, N}`, and
afterwards `available_by_name(N)` returns true. -/
theorem advertisement_makes_available (SYMTAB_SIZE : Nat) (s : dstc_state) (P : Nat)
    (N : List Nat) (hroom : s.ctx.remote_node.length < SYMTAB_SIZE) :
    (∃ s', dstc_register_remote_function SYMTAB_SIZE s P N = .ok s' ∧
        dstc_remote_function_available_by_name s' N = 1) ∧
      (∃ s', dstc_subscriber_control_message_cb SYMTAB_SIZE s (le_bytes 4 P ++ N ++ [0])
          = .ok s' ∧
        dstc_remote_function_available_by_name s' N = 1) := by
  constructor
  · obtain ⟨s', hs'⟩ := register_returns SYMTAB_SIZE s P N hroom
    refine ⟨s', hs', ?_⟩
    obtain ⟨e, he, -, hm⟩ := register_holds SYMTAB_SIZE s s' P N hs'
    exact (available_by_name_one_iff s' N).mpr ⟨e, he, hm⟩
  · unfold dstc_subscriber_control_message_cb
    obtain ⟨s', hs'⟩ := register_returns SYMTAB_SIZE s (le_read (le_bytes 4 P ++ N ++ [0]) 0 4)
      ((le_bytes 4 P ++ N ++ [0]).drop 4) hroom
    refine ⟨s', hs', ?_⟩
    obtain ⟨e, he, -, hm⟩ := register_holds SYMTAB_SIZE s s' _ _ hs'
    refine (available_by_name_one_iff s' N).mpr ⟨e, he, ?_⟩
    rw [hm]
    have hd : (le_bytes 4 P ++ N ++ [0]).drop 4 = N ++ [0] := by
      rw [List.append_assoc]
      exact List.drop_left' (le_bytes_length 4 P)
    rw [hd]
    exact cstr_append_zero_any N []

theorem advertisement_makes_available_witness :
    (∃ s', dstc_register_remote_function 64 demo_remote 9 [98, 97, 122] = .ok s' ∧
        dstc_remote_function_available_by_name s' [98, 97, 122] = 1) ∧
      (∃ s', dstc_subscriber_control_message_cb 64 demo_remote
          (le_bytes 4 9 ++ [98, 97, 122] ++ [0]) = .ok s' ∧
        dstc_remote_function_available_by_name s' [98, 97, 122] = 1) :=
  advertisement_makes_available 64 demo_remote 9 [98, 97, 122] (by decide)

/-- C18. Duplicate advertisements are suppressed: in every map state that already holds
an entry `(P, N)`, `register(P, N)` returns the state unchanged (same entries, same
high-water index); and whenever `register(P, N)` returns, registering `(P, N)` once more
changes nothing. -/
theorem duplicate_advertisement_suppressed (SYMTAB_SIZE : Nat) (s : dstc_state) (P : Nat)
    (N : List Nat)
    (h : ∃ e ∈ s.ctx.remote_node, e.node_id = P ∧ cstr e.func_name = cstr N) :
    dstc_register_remote_function SYMTAB_SIZE s P N = .ok s ∧
      ∀ t t', dstc_register_remote_function SYMTAB_SIZE t P N = .ok t' →
        dstc_register_remote_function SYMTAB_SIZE t' P N = .ok t' := by
  have key : ∀ t : dstc_state,
      (∃ e ∈ t.ctx.remote_node, e.node_id = P ∧ cstr e.func_name = cstr N) →
        dstc_register_remote_function SYMTAB_SIZE t P N = .ok t := by
    intro t ht
    have := (register_dup_iff t P N).mpr ht
    simp only [dstc_register_remote_function, this, if_true]
  exact ⟨key s h, fun t t' ht => key t' (register_holds SYMTAB_SIZE t t' P N ht)⟩

theorem duplicate_advertisement_suppressed_witness :
    dstc_register_remote_function 64 demo_remote 5 [102, 111, 111] = .ok demo_remote :=
  (duplicate_advertisement_suppressed 64 demo_remote 5 [102, 111, 111] (by decide)).1

/-! ## Availability by stub -/

theorem client_loop_append (l l' : List dstc_client_func_t) (stub : Nat) (i : Nat)
    (hi : i ≤ l.length) :
    dstc_remote_function_available_loop (l ++ l') stub i
      = dstc_remote_function_available_loop l stub i := by
  induction i with
  | zero => rfl
  | succ i ih =>
    have hlt : i < l.length := hi
    have hget : (l ++ l').get? i = l.get? i := by
      simp only [List.get?_eq_getElem?]
      exact List.getElem?_append_left hlt
    simp only [dstc_remote_function_available_loop, hget, ih (Nat.le_of_lt hlt)]

theorem client_loop_snoc (l : List dstc_client_func_t) (e : dstc_client_func_t) (stub : Nat) :
    dstc_remote_function_available_loop (l ++ [e]) stub (l.length + 1)
      = if e.client_func = stub then some e
        else dstc_remote_function_available_loop l stub l.length := by
  have hget : (l ++ [e]).get? l.length = some e := by
    simp [List.get?_eq_getElem?]
  simp only [dstc_remote_function_available_loop, hget,
    client_loop_append l [e] stub l.length (Nat.le_refl _)]

theorem client_loop_latest (pre post : List dstc_client_func_t) (e0 : dstc_client_func_t)
    (stub : Nat) (h0 : e0.client_func = stub) (hpost : ∀ e ∈ post, e.client_func ≠ stub) :
    dstc_remote_function_available_loop (pre ++ e0 :: post) stub (pre ++ e0 :: post).length
      = some e0 := by
  induction post using List.reverseRecOn with
  | nil =>
    have := client_loop_snoc pre e0 stub
    simp only [h0, if_true] at this
    simpa using this
  | append_singleton post' e ih =>
    have hne : e.client_func ≠ stub := hpost e (by simp)
    have hrest : ∀ e ∈ post', e.client_func ≠ stub := fun x hx => hpost x (by simp [hx])
    have := client_loop_snoc (pre ++ e0 :: post') e stub
    simp only [hne, if_false] at this
    have hl : (pre ++ e0 :: (post' ++ [e])) = (pre ++ e0 :: post') ++ [e] := by simp
    rw [hl, List.length_append, List.length_singleton, this]
    exact ih hrest

theorem client_loop_none (tbl : List dstc_client_func_t) (stub : Nat)
    (h : ∀ e ∈ tbl, e.client_func ≠ stub) (i : Nat) :
    dstc_remote_function_available_loop tbl stub i = none := by
  induction i with
  | zero => rfl
  | succ i ih =>
    simp only [dstc_remote_function_available_loop]
    cases hg : tbl.get? i with
    | none => simpa using ih
    | some e =>
      simp only [h e (List.get?_mem hg), if_false]
      exact ih

/-- C19. `remote_function_available(stub)` returns false (0) for every stub handle that no
entry of the client registry carries, and for a registered stub it returns exactly
`available_by_name(name)` for the name of the latest registration of the stub.  The
function is a read of the engine state: it returns a value and no state. -/
theorem remote_function_available_by_stub (s : dstc_state) (stub : Nat) :
    ((∀ e ∈ s.client_func, e.client_func ≠ stub) →
        dstc_remote_function_available s stub = 0) ∧
      (∀ pre post name,
        s.client_func = pre ++ { func_name := name, client_func := stub } :: post →
        (∀ e ∈ post, e.client_func ≠ stub) →
        dstc_remote_function_available s stub
          = dstc_remote_function_available_by_name s name) := by
  constructor
  · intro h
    simp only [dstc_remote_function_available, client_loop_none _ _ h]
  · intro pre post name hreg hpost
    have := client_loop_latest pre post ⟨name, stub⟩ stub rfl hpost
    simp only [dstc_remote_function_available, hreg, this]

/-! ## Peer departure -/

theorem unregister_entries (s : dstc_state) (P : Nat) (N : List Nat) (hN : cstr N ≠ []) :
    (∃ e ∈ (dstc_unregister_remote_node s P).ctx.remote_node, cstr e.func_name = cstr N)
      ↔ ∃ e ∈ s.ctx.remote_node, e.node_id ≠ P ∧ cstr e.func_name = cstr N := by
  simp only [dstc_unregister_remote_node, List.mem_map]
  constructor
  · rintro ⟨e', ⟨e, he, hfe⟩, hm⟩
    by_cases hp : P = e.node_id
    · simp only [hp, if_true] at hfe
      subst hfe
      have hz : cstr (0 :: e.func_name.drop 1) = [] := by simp [cstr]
      rw [hz] at hm
      exact absurd hm.symm hN
    · simp only [hp, if_false] at hfe
      subst hfe
      exact ⟨e, he, fun h => hp h.symm, hm⟩
  · rintro ⟨e, he, hp, hm⟩
    refine ⟨e, ⟨e, he, ?_⟩, hm⟩
    have : ¬ P = e.node_id := fun h => hp h.symm
    simp only [this, if_false]

/-- C15, as amended. Peer departure prunes the availability map: for every map state,
peer `P` and non-empty name `N`, after `unregister_peer(P)` the query
`available_by_name(N)` returns true (1) if and only if, before the call, the map held an
entry `(Q, N)` for some peer `Q` different from `P`; otherwise it returns false (0). -/
theorem peer_departure_prunes (s : dstc_state) (P : Nat) (N : List Nat) (hN : cstr N ≠ []) :
    (dstc_remote_function_available_by_name (dstc_unregister_remote_node s P) N = 1
        ↔ ∃ e ∈ s.ctx.remote_node, e.node_id ≠ P ∧ cstr e.func_name = cstr N) ∧
      (dstc_remote_function_available_by_name (dstc_unregister_remote_node s P) N = 0
        ↔ ¬ ∃ e ∈ s.ctx.remote_node, e.node_id ≠ P ∧ cstr e.func_name = cstr N) := by
  constructor
  · rw [available_by_name_one_iff]
    exact unregister_entries s P N hN
  · rw [available_by_name_zero_iff, unregister_entries s P N hN]

theorem peer_departure_prunes_witness :
    dstc_remote_function_available_by_name (dstc_unregister_remote_node demo_remote 5)
        [102, 111, 111] = 0 ∧
      dstc_remote_function_available_by_name (dstc_unregister_remote_node demo_remote 5)
        [98, 97, 114] = 1 :=
  ⟨(peer_departure_prunes demo_remote 5 [102, 111, 111] (by decide)).2.mpr (by decide),
   (peer_departure_prunes demo_remote 5 [98, 97, 114] (by decide)).1.mpr (by decide)⟩

/-- C15, as stated, fails for the empty name: after `unregister_peer(5)` on the map
`[(5, foo), (7, bar)]` the query `available_by_name("")` returns true, the cleared slot
carrying the empty name, although the map held no entry with the empty name before. -/
theorem peer_departure_empty_name :
    ¬ (dstc_remote_function_available_by_name (dstc_unregister_remote_node demo_remote 5) [] = 1
        ↔ ∃ e ∈ demo_remote.ctx.remote_node, e.node_id ≠ 5 ∧ cstr e.func_name = cstr []) := by
  decide

/-- C16. The disconnect handler does not clear the entries of the departed peer: the
transport calls it with the publisher context of the engine itself, whose node id (7) it
hands to `dstc_unregister_remote_node`.  When peer 5 drops from the engine that holds
`[(5, foo), (7, bar)]`, the entry of peer 5 stays, `available_by_name(foo)` stays true, and
the entry of the other peer is the one that is cleared. -/
theorem disconnect_clears_own_node_id :
    (dstc_subscriber_disconnect_cb demo_remote demo_remote.ctx.pub_ctx).ctx.remote_node
        = [{ node_id := 5, func_name := [102, 111, 111] },
           { node_id := 0, func_name := [0, 97, 114] }] ∧
      dstc_remote_function_available_by_name
        (dstc_subscriber_disconnect_cb demo_remote demo_remote.ctx.pub_ctx) [102, 111, 111] = 1 := by
  decide

/-! ## One-shot callbacks -/

theorem activate_slot_split (tbl : List dstc_callback_entry_t) (entry : dstc_callback_entry_t) :
    ∃ pre post,
      (if dstc_activate_callback_slot tbl = tbl.length then tbl ++ [entry]
        else tbl.set (dstc_activate_callback_slot tbl) entry) = pre ++ entry :: post ∧
      (∀ e ∈ pre, e ∈ tbl) ∧ (∀ e ∈ post, e ∈ tbl) := by
  induction tbl with
  | nil => exact ⟨[], [], by simp [dstc_activate_callback_slot], by simp, by simp⟩
  | cons a t ih =>
    by_cases ha : a.callback = 0
    · refine ⟨[], t, ?_, by simp, fun e he => by simp [he]⟩
      simp [dstc_activate_callback_slot, ha]
    · obtain ⟨pre, post, heq, hpre, hpost⟩ := ih
      refine ⟨a :: pre, post, ?_, ?_, fun e he => by simp [hpost e he]⟩
      · simp only [dstc_activate_callback_slot, ha, if_false, List.length_cons,
          Nat.add_right_cancel_iff, List.set_cons_succ, List.cons_append]
        by_cases hl : dstc_activate_callback_slot t = t.length
        · simp only [hl, if_true] at heq ⊢
          rw [heq]
        · simp only [hl, if_false] at heq ⊢
          rw [heq]
      · intro e he
        rcases List.mem_cons.mp he with h | h
        · simp [h]
        · simp [hpre e h]

theorem activate_table (SYMTAB_SIZE : Nat) (s s1 : dstc_state) (R C rv : Nat)
    (h : dstc_activate_callback SYMTAB_SIZE s R C = .ok (rv, s1)) :
    rv = R ∧ s1.dispatched = s.dispatched ∧
      ∃ pre post, s1.ctx.local_callback = pre ++ { callback_ref := R, callback := C } :: post ∧
        (∀ e ∈ pre, e ∈ s.ctx.local_callback) ∧ (∀ e ∈ post, e ∈ s.ctx.local_callback) := by
  unfold dstc_activate_callback at h
  simp only at h
  split at h
  · cases h
  · injection h with h
    injection h with h1 h2
    subst h2
    exact ⟨h1.symm, rfl, activate_slot_split s.ctx.local_callback ⟨R, C⟩⟩

theorem process_callback_hit (s : dstc_state) (data : List Nat) (data_len R C : Nat)
    (pre post : List dstc_callback_entry_t) (hcar : callback_invocation_carrying data data_len R)
    (htbl : s.ctx.local_callback = pre ++ { callback_ref := R, callback := C } :: post)
    (hpre : ∀ e ∈ pre, e.callback_ref ≠ R) (hC : C ≠ 0) :
    ∃ d, d.func = C ∧ d.callback_ref = R ∧
      (dstc_process_function_call s data data_len).2
        = { s with
            ctx := { s.ctx with
              local_callback := pre ++ { callback_ref := 0, callback := 0 } :: post }
            dispatched := s.dispatched ++ [d] } := by
  obtain ⟨h1, h2, h3, h4⟩ := hcar
  have h1' : ¬ data_len < HEADER_SIZE := by omega
  have h2' : ¬ data_len - HEADER_SIZE < le_read data 4 4 := by omega
  have hf : dstc_find_callback_by_ref s R
      = (C, { s with ctx := { s.ctx with
          local_callback := pre ++ { callback_ref := 0, callback := 0 } :: post } }) := by
    simp only [dstc_find_callback_by_ref, htbl, find_callback_first pre post R C hpre]
  unfold dstc_process_function_call
  simp only [h1', if_false, h2', h3, ne_eq, not_true_eq_false, h4, hf, hC, not_false_eq_true]
  exact ⟨_, rfl, rfl, rfl⟩

theorem process_callback_miss (s : dstc_state) (data : List Nat) (data_len R : Nat)
    (hcar : callback_invocation_carrying data data_len R)
    (hnone : ∀ e ∈ s.ctx.local_callback, e.callback_ref = R →
      e = { callback_ref := 0, callback := 0 }) :
    (dstc_process_function_call s data data_len).2 = s := by
  obtain ⟨h1, h2, h3, h4⟩ := hcar
  have h1' : ¬ data_len < HEADER_SIZE := by omega
  have h2' : ¬ data_len - HEADER_SIZE < le_read data 4 4 := by omega
  have hf : dstc_find_callback_by_ref s R = (0, s) := by
    simp only [dstc_find_callback_by_ref, find_callback_none _ _ hnone]
  unfold dstc_process_function_call
  simp only [h1', if_false, h2', h3, ne_eq, not_true_eq_false, h4, hf, if_true]

/-- C13. One-shot callbacks: for every pending-callback table state, every non-zero
reference `R` that no slot of the table carries and every non-null dispatch handle `C`,
after `activate_callback(R, C)` has returned, the first inbound callback invocation
carrying `R` invokes `C` once (the dispatch trace grows by one invocation of `C` with
reference `R`) and nils out its slot, after which no slot carries `R`; a later inbound
callback invocation carrying `R` leaves the state unchanged, so it invokes no dispatch
handle. -/
theorem one_shot_callback (SYMTAB_SIZE : Nat) (s s1 : dstc_state) (R C : Nat)
    (data1 : List Nat) (len1 : Nat) (data2 : List Nat) (len2 : Nat)
    (hR : R ≠ 0) (hC : C ≠ 0) (hfresh : ∀ e ∈ s.ctx.local_callback, e.callback_ref ≠ R)
    (hact : dstc_activate_callback SYMTAB_SIZE s R C = .ok (R, s1))
    (h1 : callback_invocation_carrying data1 len1 R)
    (h2 : callback_invocation_carrying data2 len2 R) :
    (∃ d, d.func = C ∧ d.callback_ref = R ∧
        (dstc_process_function_call s1 data1 len1).2.dispatched = s1.dispatched ++ [d]) ∧
      (∃ pre post,
        s1.ctx.local_callback = pre ++ { callback_ref := R, callback := C } :: post ∧
        (dstc_process_function_call s1 data1 len1).2.ctx.local_callback
          = pre ++ { callback_ref := 0, callback := 0 } :: post) ∧
      (∀ e ∈ (dstc_process_function_call s1 data1 len1).2.ctx.local_callback,
        e.callback_ref ≠ R) ∧
      (dstc_process_function_call (dstc_process_function_call s1 data1 len1).2 data2 len2).2
        = (dstc_process_function_call s1 data1 len1).2 := by
  obtain ⟨-, -, pre, post, htbl, hpre, hpost⟩ := activate_table SYMTAB_SIZE s s1 R C R hact
  have hpre' : ∀ e ∈ pre, e.callback_ref ≠ R := fun e he => hfresh e (hpre e he)
  have hpost' : ∀ e ∈ post, e.callback_ref ≠ R := fun e he => hfresh e (hpost e he)
  obtain ⟨d, hd1, hd2, hs2⟩ := process_callback_hit s1 data1 len1 R C pre post h1 htbl hpre' hC
  have hnoR : ∀ e ∈ (dstc_process_function_call s1 data1 len1).2.ctx.local_callback,
      e.callback_ref ≠ R := by
    rw [hs2]
    intro e he
    rcases List.mem_append.mp he with h | h
    · exact hpre' e h
    · rcases List.mem_cons.mp h with h | h
      · rw [h]; exact fun h0 => hR h0.symm
      · exact hpost' e h
  refine ⟨⟨d, hd1, hd2, by rw [hs2]⟩, ⟨pre, post, htbl, by rw [hs2]⟩, hnoR, ?_⟩
  exact process_callback_miss _ data2 len2 R h2 (fun e he hr => absurd hr (hnoR e he))

theorem one_shot_callback_witness :
    (∃ d, d.func = 88 ∧ d.callback_ref = 5000 ∧
        (dstc_process_function_call
          { demo_state with ctx := { demo_state.ctx with
              local_callback := [{ callback_ref := 4096, callback := 77 },
                                 { callback_ref := 5000, callback := 88 }] } }
          [7, 0, 0, 0, 9, 0, 0, 0, 0, 136, 19, 0, 0, 0, 0, 0, 0] 17).2.dispatched
          = [] ++ [d]) :=
  (one_shot_callback 64 demo_state
    { demo_state with ctx := { demo_state.ctx with
        local_callback := [{ callback_ref := 4096, callback := 77 },
                           { callback_ref := 5000, callback := 88 }] } }
    5000 88 [7, 0, 0, 0, 9, 0, 0, 0, 0, 136, 19, 0, 0, 0, 0, 0, 0] 17
    [7, 0, 0, 0, 9, 0, 0, 0, 0, 136, 19, 0, 0, 0, 0, 0, 0] 17
    (by decide) (by decide) (by decide) (by rfl) (by decide) (by decide)).1

/-! ## Cancelling a callback -/

theorem find_callback_by_func_first (pre post : List dstc_callback_entry_t) (R C : Nat)
    (hpre : ∀ e ∈ pre, e.callback ≠ C) :
    dstc_find_callback_by_func_loop (pre ++ ⟨R, C⟩ :: post) C
      = (C, pre ++ ⟨0, 0⟩ :: post) := by
  induction pre with
  | nil => simp [dstc_find_callback_by_func_loop]
  | cons a t ih =>
    have ha : a.callback ≠ C := hpre a (by simp)
    have ht : ∀ e ∈ t, e.callback ≠ C := fun x hx => hpre x (by simp [hx])
    simp [dstc_find_callback_by_func_loop, ha, ih ht]

/-- C14, as amended. Cancel removes the pending callback: for every pending-callback
table state in which no slot carries the reference `R` or the dispatch handle `C`
(in particular for every non-zero `R` and non-null `C` of that kind), after `activate_callback(R, C)` followed by `cancel_callback(C)` the lookup by
reference `R` finds nothing, and an inbound callback invocation carrying `R` leaves the
state unchanged, so it does not invoke `C`. -/
theorem cancel_removes_callback (SYMTAB_SIZE : Nat) (s s1 : dstc_state) (R C : Nat)
    (data : List Nat) (data_len : Nat)
    (hfreshR : ∀ e ∈ s.ctx.local_callback, e.callback_ref ≠ R)
    (hfreshC : ∀ e ∈ s.ctx.local_callback, e.callback ≠ C)
    (hact : dstc_activate_callback SYMTAB_SIZE s R C = .ok (R, s1))
    (hcar : callback_invocation_carrying data data_len R) :
    dstc_find_callback_by_ref (dstc_cancel_callback s1 C) R = (0, dstc_cancel_callback s1 C) ∧
      (dstc_process_function_call (dstc_cancel_callback s1 C) data data_len).2
        = dstc_cancel_callback s1 C := by
  obtain ⟨-, -, pre, post, htbl, hpre, hpost⟩ := activate_table SYMTAB_SIZE s s1 R C R hact
  have hpreC : ∀ e ∈ pre, e.callback ≠ C := fun e he => hfreshC e (hpre e he)
  have hcan : (dstc_cancel_callback s1 C).ctx.local_callback
      = pre ++ { callback_ref := 0, callback := 0 } :: post := by
    simp only [dstc_cancel_callback, dstc_find_callback_by_func, htbl,
      find_callback_by_func_first pre post R C hpreC]
  have hnone : ∀ e ∈ (dstc_cancel_callback s1 C).ctx.local_callback, e.callback_ref = R →
      e = { callback_ref := 0, callback := 0 } := by
    rw [hcan]
    intro e he hr
    rcases List.mem_append.mp he with h | h
    · exact absurd hr (hfreshR e (hpre e h))
    · rcases List.mem_cons.mp h with h | h
      · exact h
      · exact absurd hr (hfreshR e (hpost e h))
  refine ⟨?_, process_callback_miss _ data data_len R hcar hnone⟩
  simp only [dstc_find_callback_by_ref, find_callback_none _ _ hnone]

theorem cancel_removes_callback_witness :
    dstc_find_callback_by_ref
        (dstc_cancel_callback
          { demo_state with ctx := { demo_state.ctx with
              local_callback := [{ callback_ref := 4096, callback := 77 },
                                 { callback_ref := 5000, callback := 88 }] } } 88) 5000
      = (0, dstc_cancel_callback
          { demo_state with ctx := { demo_state.ctx with
              local_callback := [{ callback_ref := 4096, callback := 77 },
                                 { callback_ref := 5000, callback := 88 }] } } 88) :=
  (cancel_removes_callback 64 demo_state
    { demo_state with ctx := { demo_state.ctx with
        local_callback := [{ callback_ref := 4096, callback := 77 },
                           { callback_ref := 5000, callback := 88 }] } }
    5000 88 [7, 0, 0, 0, 9, 0, 0, 0, 0, 136, 19, 0, 0, 0, 0, 0, 0] 17
    (by decide) (by decide) (by rfl) (by decide)).1

/-- C14, as stated, fails when the dispatch handle is already pending: on the table
`[(4096, 77)]`, `activate_callback(5000, 77)` followed by `cancel_callback(77)` nils out the
older slot, the lookup by reference 5000 still finds the handle 77, and an inbound
callback invocation carrying 5000 invokes it. -/
theorem cancel_keeps_second_activation :
    dstc_activate_callback 64 demo_state 5000 77
        = .ok (5000, { demo_state with ctx := { demo_state.ctx with
            local_callback := [{ callback_ref := 4096, callback := 77 },
                               { callback_ref := 5000, callback := 77 }] } }) ∧
      (dstc_cancel_callback
          { demo_state with ctx := { demo_state.ctx with
            local_callback := [{ callback_ref := 4096, callback := 77 },
                               { callback_ref := 5000, callback := 77 }] } } 77).ctx.local_callback
        = [{ callback_ref := 0, callback := 0 }, { callback_ref := 5000, callback := 77 }] ∧
      (dstc_find_callback_by_ref
          (dstc_cancel_callback
            { demo_state with ctx := { demo_state.ctx with
              local_callback := [{ callback_ref := 4096, callback := 77 },
                                 { callback_ref := 5000, callback := 77 }] } } 77) 5000).1 = 77 ∧
      ((dstc_process_function_call
          (dstc_cancel_callback
            { demo_state with ctx := { demo_state.ctx with
              local_callback := [{ callback_ref := 4096, callback := 77 },
                                 { callback_ref := 5000, callback := 77 }] } } 77)
          [7, 0, 0, 0, 9, 0, 0, 0, 0, 136, 19, 0, 0, 0, 0, 0, 0] 17).2.dispatched.map
            (fun d => d.func)) = [77] := by
  refine ⟨by rfl, by decide, by decide, by decide⟩

/-! ## Buffered mode -/

theorem client_queue_func_ok (c c' : dstc_client_t) (name : Option (List Nat))
    (arg : List Nat) (n rc : Nat) (h : c.queue_func name arg n = .ok (rc, c')) :
    dstc_queue_func c.engine name arg n = .ok (rc, c'.engine) ∧ c'.buffered = c.buffered := by
  unfold dstc_client_t.queue_func at h
  split at h
  · rename_i rc0 s0 heq
    injection h with h
    injection h with h1 h2
    subst h1 h2
    exact ⟨heq, rfl⟩
  · cases h

theorem client_queue_callback_ok (c c' : dstc_client_t) (R : Nat)
    (arg : List Nat) (n rc : Nat) (h : c.queue_callback R arg n = .ok (rc, c')) :
    dstc_queue_callback c.engine R arg n = .ok (rc, c'.engine) ∧ c'.buffered = c.buffered := by
  unfold dstc_client_t.queue_callback at h
  split at h
  · rename_i rc0 s0 heq
    injection h with h
    injection h with h1 h2
    subst h1 h2
    exact ⟨heq, rfl⟩
  · cases h

theorem client_push (c c' : dstc_client_t) (name : Option (List Nat)) (R : Nat)
    (arg : List Nat) (n : Nat) (hs : engine_state c.engine)
    (hns : c.engine.ctx.pub_ctx.traffic_suspended = false) :
    (c.queue_func name arg n = .ok (0, c') →
      ∃ nm, name = some nm ∧
        c'.engine.ctx.pub_ctx.queued = c.engine.ctx.pub_ctx.queued ++
          [c.engine.ctx.pub_buffer.take (dstc_payload_buffer_in_use c.engine.ctx)
            ++ spec_named_record c.engine.ctx.pub_ctx.node_id (cstr nm) (arg.take n)] ∧
        dstc_payload_buffer_in_use c'.engine.ctx = 0) ∧
    (c.queue_callback R arg n = .ok (0, c') →
      c'.engine.ctx.pub_ctx.queued = c.engine.ctx.pub_ctx.queued ++
          [c.engine.ctx.pub_buffer.take (dstc_payload_buffer_in_use c.engine.ctx)
            ++ spec_callback_record c.engine.ctx.pub_ctx.node_id R (arg.take n)] ∧
        dstc_payload_buffer_in_use c'.engine.ctx = 0) := by
  constructor
  · intro h
    obtain ⟨hq0, -⟩ := client_queue_func_ok c c' name arg n 0 h
    obtain ⟨nm, hnm, -, -, -, hq⟩ := dstc_queue_func_ok c.engine hs _ _ _ _ hq0
    refine ⟨nm, hnm, ?_⟩
    exact pushed_state c.engine _ c'.engine hs hns
      (by rw [spec_named_record_length]; simp only [HEADER_SIZE]; omega) hq
  · intro h
    obtain ⟨hq0, -⟩ := client_queue_callback_ok c c' R arg n 0 h
    obtain ⟨-, -, -, hq⟩ := dstc_queue_callback_ok c.engine hs _ _ _ _ hq0
    exact pushed_state c.engine _ c'.engine hs hns
      (by rw [spec_callback_record_length]; simp only [HEADER_SIZE]; omega) hq

/-- C12, as amended. The enqueue operations take no account of the buffered switch: with
buffered mode switched on as well as with buffered mode switched off, in every engine
state in which the transport is not suspended a successful `queue_func` or
`queue_callback` attempts the push and hands the buffered bytes followed by the new record
to the transport as one packet, leaving the payload buffer empty. -/
theorem enqueue_ignores_buffered_switch (c c' : dstc_client_t) (name : Option (List Nat))
    (R : Nat) (arg : List Nat) (n : Nat) (hs : engine_state c.engine)
    (hns : c.engine.ctx.pub_ctx.traffic_suspended = false) :
    (((dstc_buffer_client_calls c).queue_func name arg n = .ok (0, c') ∨
        (dstc_unbuffer_client_calls c).queue_func name arg n = .ok (0, c')) →
      ∃ nm, name = some nm ∧
        c'.engine.ctx.pub_ctx.queued = c.engine.ctx.pub_ctx.queued ++
          [c.engine.ctx.pub_buffer.take (dstc_payload_buffer_in_use c.engine.ctx)
            ++ spec_named_record c.engine.ctx.pub_ctx.node_id (cstr nm) (arg.take n)] ∧
        dstc_payload_buffer_in_use c'.engine.ctx = 0) ∧
    (((dstc_buffer_client_calls c).queue_callback R arg n = .ok (0, c') ∨
        (dstc_unbuffer_client_calls c).queue_callback R arg n = .ok (0, c')) →
      c'.engine.ctx.pub_ctx.queued = c.engine.ctx.pub_ctx.queued ++
          [c.engine.ctx.pub_buffer.take (dstc_payload_buffer_in_use c.engine.ctx)
            ++ spec_callback_record c.engine.ctx.pub_ctx.node_id R (arg.take n)] ∧
        dstc_payload_buffer_in_use c'.engine.ctx = 0) := by
  constructor
  · rintro (h | h)
    · exact (client_push (dstc_buffer_client_calls c) c' name R arg n hs hns).1 h
    · exact (client_push (dstc_unbuffer_client_calls c) c' name R arg n hs hns).1 h
  · rintro (h | h)
    · exact (client_push (dstc_buffer_client_calls c) c' name R arg n hs hns).2 h
    · exact (client_push (dstc_unbuffer_client_calls c) c' name R arg n hs hns).2 h

theorem enqueue_ignores_buffered_switch_witness :
    dstc_payload_buffer_in_use demo_named_result.ctx = 0 ∧
      demo_named_result.ctx.pub_ctx.queued
        = [[7, 0, 0, 0, 6, 0, 0, 0, 102, 111, 111, 0, 1, 2]] :=
  ((enqueue_ignores_buffered_switch { engine := demo_state, buffered := false }
      { engine := demo_named_result, buffered := true } (some [102, 111, 111]) 4096 [1, 2] 2
      (by decide) (by decide)).1 (Or.inl (by rfl))).elim (fun nm h => by
        obtain ⟨h1, h2, h3⟩ := h
        injection h1 with h1
        subst h1
        exact ⟨h3, h2⟩)

/-- C12, as stated, fails on the code: after buffered mode has been switched on, a
successful `queue_func("foo", [1, 2], 2)` on an engine whose transport is not suspended
hands the record to the transport as a packet and leaves the payload buffer empty. -/
theorem buffered_on_still_pushes :
    (dstc_buffer_client_calls { engine := demo_state, buffered := false }).buffered = true ∧
      demo_state.ctx.pub_ctx.traffic_suspended = false ∧
      (dstc_buffer_client_calls { engine := demo_state, buffered := false }).queue_func
          (some [102, 111, 111]) [1, 2] 2
        = .ok (0, { engine := demo_named_result, buffered := true }) ∧
      demo_state.ctx.pub_ctx.queued = [] ∧
      demo_named_result.ctx.pub_ctx.queued
        = [[7, 0, 0, 0, 6, 0, 0, 0, 102, 111, 111, 0, 1, 2]] ∧
      dstc_payload_buffer_in_use demo_named_result.ctx = 0 := by
  refine ⟨by rfl, by rfl, by rfl, by rfl, by decide, by rfl⟩

/-! ## Bundling -/

theorem consumed_eq (s : dstc_state) (data : List Nat) (data_len : Nat)
    (hlen : data_len < 2 ^ 32) (h1 : HEADER_SIZE ≤ data_len)
    (h2 : le_read data 4 4 ≤ data_len - HEADER_SIZE) :
    (dstc_process_function_call s data data_len).1 = HEADER_SIZE + le_read data 4 4 := by
  unfold dstc_process_function_call
  have h1' : ¬ data_len < HEADER_SIZE := by omega
  have h2' : ¬ data_len - HEADER_SIZE < le_read data 4 4 := by omega
  have hmod : (HEADER_SIZE + le_read data 4 4) % 2 ^ 32 = HEADER_SIZE + le_read data 4 4 := by
    apply Nat.mod_eq_of_lt
    omega
  simp only [h1', if_false, h2', hmod]
  split_ifs <;> rfl

theorem read_named_record (nid : Nat) (N A rest : List Nat)
    (hN : N ≠ []) (h0 : 0 ∉ N) (hnid : nid < 2 ^ 32)
    (hlen : HEADER_SIZE + (N.length + 1 + A.length) < 2 ^ 32) :
    le_read (spec_named_record nid N A ++ rest) 4 4 = N.length + 1 + A.length ∧
      dstc_read_invocation (spec_named_record nid N A ++ rest)
        = { callback_ref := 0, node_id := nid, name := N, payload := A
            payload_len := A.length } := by
  have hdata : spec_named_record nid N A ++ rest
      = le_bytes 4 nid ++ (le_bytes 4 (N.length + 1 + A.length) ++ (N ++ 0 :: (A ++ rest))) := by
    simp [spec_named_record, List.append_assoc]
  have hnode : le_read (spec_named_record nid N A ++ rest) 0 4 = nid := by
    rw [hdata, le_read_le_bytes]
    exact Nat.mod_eq_of_lt (by norm_num at hnid ⊢; exact hnid)
  have hpl : le_read (spec_named_record nid N A ++ rest) 4 4 = N.length + 1 + A.length := by
    rw [hdata, le_read_at _ _ 4 4 (le_bytes_length 4 nid), le_read_le_bytes]
    apply Nat.mod_eq_of_lt
    simp only [HEADER_SIZE] at hlen
    norm_num at hlen ⊢
    omega
  have hdrop : (spec_named_record nid N A ++ rest).drop HEADER_SIZE = N ++ 0 :: (A ++ rest) := by
    rw [hdata, ← List.append_assoc]
    exact List.drop_left' (by simp [le_bytes_length, HEADER_SIZE])
  have hcs : cstr (N ++ 0 :: (A ++ rest)) = N := cstr_append_zero N _ h0
  have hsl : strlen (N ++ 0 :: (A ++ rest)) = N.length := by simp only [strlen, hcs]
  have hpeek : peek (N ++ 0 :: (A ++ rest)) 0 ≠ 0 := by
    cases N with
    | nil => exact absurd rfl hN
    | cons a t =>
      simp only [peek, List.cons_append, List.getD_cons_zero]
      intro ha
      exact h0 (by simp [ha])
  have hdrop2 : (spec_named_record nid N A ++ rest).drop (HEADER_SIZE + N.length + 1)
      = A ++ rest := by
    have e : spec_named_record nid N A ++ rest
        = (le_bytes 4 nid ++ le_bytes 4 (N.length + 1 + A.length) ++ (N ++ [0])) ++ (A ++ rest) := by
      simp [spec_named_record, List.append_assoc]
    rw [e]
    exact List.drop_left' (by simp [le_bytes_length, HEADER_SIZE]; omega)
  have hlenA : (N.length + 1 + A.length + 2 ^ 64 - N.length % 2 ^ 64 + 2 ^ 64 - 1) % 2 ^ 64 % 2 ^ 32
      = A.length := by
    simp only [HEADER_SIZE] at hlen
    norm_num at hlen ⊢
    omega
  refine ⟨hpl, ?_⟩
  unfold dstc_read_invocation
  simp only [hnode, hpl, hdrop, hpeek, ne_eq, not_false_eq_true, if_true, hsl, hcs, hdrop2,
    hlenA, List.take_left']

theorem read_callback_record (nid R : Nat) (A rest : List Nat)
    (hR : R < 2 ^ 64) (hnid : nid < 2 ^ 32)
    (hlen : HEADER_SIZE + (1 + 8 + A.length) < 2 ^ 32) :
    le_read (spec_callback_record nid R A ++ rest) 4 4 = 1 + 8 + A.length ∧
      dstc_read_invocation (spec_callback_record nid R A ++ rest)
        = { callback_ref := R, node_id := nid, name := [], payload := A
            payload_len := A.length } := by
  have hdata : spec_callback_record nid R A ++ rest
      = le_bytes 4 nid ++ (le_bytes 4 (1 + 8 + A.length) ++ (0 :: (le_bytes 8 R ++ (A ++ rest)))) := by
    simp [spec_callback_record, List.append_assoc]
  have hnode : le_read (spec_callback_record nid R A ++ rest) 0 4 = nid := by
    rw [hdata, le_read_le_bytes]
    exact Nat.mod_eq_of_lt (by norm_num at hnid ⊢; exact hnid)
  have hpl : le_read (spec_callback_record nid R A ++ rest) 4 4 = 1 + 8 + A.length := by
    rw [hdata, le_read_at _ _ 4 4 (le_bytes_length 4 nid), le_read_le_bytes]
    apply Nat.mod_eq_of_lt
    simp only [HEADER_SIZE] at hlen
    norm_num at hlen ⊢
    omega
  have hdrop : (spec_callback_record nid R A ++ rest).drop HEADER_SIZE
      = 0 :: (le_bytes 8 R ++ (A ++ rest)) := by
    rw [hdata, ← List.append_assoc]
    exact List.drop_left' (by simp [le_bytes_length, HEADER_SIZE])
  have hcs : cstr (0 :: (le_bytes 8 R ++ (A ++ rest))) = [] := by simp [cstr]
  have hpeek : peek (0 :: (le_bytes 8 R ++ (A ++ rest))) 0 = 0 := by simp [peek]
  have href : le_read (0 :: (le_bytes 8 R ++ (A ++ rest))) 1 8 = R := by
    have := le_read_at [0] (le_bytes 8 R ++ (A ++ rest)) 1 8 rfl
    rw [List.singleton_append] at this
    rw [this, le_read_le_bytes]
    exact Nat.mod_eq_of_lt (by norm_num at hR ⊢; exact hR)
  have hdrop2 : (spec_callback_record nid R A ++ rest).drop (HEADER_SIZE + 1 + 8) = A ++ rest := by
    have e : spec_callback_record nid R A ++ rest
        = (le_bytes 4 nid ++ le_bytes 4 (1 + 8 + A.length) ++ ([0] ++ le_bytes 8 R))
          ++ (A ++ rest) := by
      simp [spec_callback_record, List.append_assoc]
    rw [e]
    exact List.drop_left' (by simp [le_bytes_length, HEADER_SIZE])
  have hlenA : (1 + 8 + A.length + 2 ^ 64 - 1 + 2 ^ 64 - 8) % 2 ^ 64 % 2 ^ 32 = A.length := by
    simp only [HEADER_SIZE] at hlen
    norm_num at hlen ⊢
    omega
  refine ⟨hpl, ?_⟩
  unfold dstc_read_invocation
  simp only [hnode, hpl, hdrop, hpeek, ne_eq, not_true_eq_false, if_false, href, hcs, hdrop2,
    hlenA, List.take_left']

theorem record_facts (nid : Nat) (c : queue_call) (hnid : nid < 2 ^ 32)
    (hacc : c.accepted) (hval : c.valid) :
    HEADER_SIZE ≤ (c.record nid).length ∧ (c.record nid).length < 2 ^ 16 ∧
      ∀ rest, HEADER_SIZE + le_read (c.record nid ++ rest) 4 4 = (c.record nid).length ∧
        dstc_read_invocation (c.record nid ++ rest) = c.invocation nid := by
  cases c with
  | func name arg n =>
    obtain ⟨hne, hn, hsz⟩ := hacc
    have hlen : (arg.take n).length = n := by simp only [List.length_take]; omega
    have hsl : (cstr name).length = strlen name := rfl
    have hrl : (spec_named_record nid (cstr name) (arg.take n)).length
        = HEADER_SIZE + (strlen name + 1) + n := by
      rw [spec_named_record_length, hlen, hsl]
    simp only [queue_call.record, queue_call.invocation]
    refine ⟨by rw [hrl]; omega, by rw [hrl]; exact hsz, ?_⟩
    intro rest
    have hbound : HEADER_SIZE + ((cstr name).length + 1 + (arg.take n).length) < 2 ^ 32 := by
      rw [hlen, hsl]
      norm_num at hsz ⊢
      omega
    obtain ⟨h1, h2⟩ := read_named_record nid (cstr name) (arg.take n) rest hne
      (cstr_not_mem_zero name) hnid hbound
    rw [h1, h2, hrl, hlen, hsl]
    exact ⟨by omega, rfl⟩
  | callback R arg n =>
    obtain ⟨-, hn, hsz⟩ := hacc
    have hlen : (arg.take n).length = n := by simp only [List.length_take]; omega
    have hrl : (spec_callback_record nid R (arg.take n)).length = HEADER_SIZE + (1 + 8) + n := by
      rw [spec_callback_record_length, hlen]
    simp only [queue_call.record, queue_call.invocation]
    refine ⟨by rw [hrl]; omega, by rw [hrl]; exact hsz, ?_⟩
    intro rest
    have hbound : HEADER_SIZE + (1 + 8 + (arg.take n).length) < 2 ^ 32 := by
      rw [hlen]
      norm_num at hsz ⊢
      omega
    obtain ⟨h1, h2⟩ := read_callback_record nid R (arg.take n) rest hval hnid hbound
    rw [h1, h2, hrl, hlen]
    exact ⟨by omega, rfl⟩

theorem loop_over_records (nid : Nat) (hnid : nid < 2 ^ 32) (payload : List Nat)
    (hpl : payload.length < 2 ^ 32) (calls : List queue_call) :
    ∀ (pre : List Nat) (st : dstc_state) (fuel : Nat),
      (∀ c ∈ calls, c.accepted ∧ c.valid) →
      payload = pre ++ (calls.map (queue_call.record nid)).flatten →
      calls.length ≤ fuel →
      ∃ steps st',
        dstc_process_incoming_loop fuel st payload payload.length pre.length
          = some (payload.length, steps, st') ∧
        steps.map (fun o => dstc_read_invocation (payload.drop o))
          = calls.map (queue_call.invocation nid) := by
  induction calls with
  | nil =>
    intro pre st fuel _ hpay _
    have hlen : payload.length = pre.length := by rw [hpay]; simp
    have hnot : ¬ pre.length < payload.length := by omega
    refine ⟨[], st, ?_, rfl⟩
    cases fuel with
    | zero => simp only [dstc_process_incoming_loop, hlen, Nat.lt_irrefl, if_false]
    | succ f => simp only [dstc_process_incoming_loop, hlen, Nat.lt_irrefl, if_false]
  | cons c cs ih =>
    intro pre st fuel hall hpay hfuel
    obtain ⟨hacc, hval⟩ := hall c (by simp)
    obtain ⟨h8, -, hrec⟩ := record_facts nid c hnid hacc hval
    have hpay2 : payload = (pre ++ c.record nid) ++ (cs.map (queue_call.record nid)).flatten := by
      rw [hpay]; simp [List.append_assoc]
    have hplen : payload.length
        = pre.length + (c.record nid).length
          + ((cs.map (queue_call.record nid)).flatten).length := by
      rw [hpay2]; simp only [List.length_append]
    have hlt : pre.length < payload.length := by
      simp only [HEADER_SIZE] at h8; omega
    have hdrop : payload.drop pre.length
        = c.record nid ++ (cs.map (queue_call.record nid)).flatten := by
      rw [hpay2, List.append_assoc]
      exact List.drop_left _ _
    obtain ⟨hL, hread⟩ := hrec ((cs.map (queue_call.record nid)).flatten)
    cases fuel with
    | zero => simp at hfuel
    | succ f =>
      have hcons : (dstc_process_function_call st (payload.drop pre.length)
          (payload.length - pre.length)).1 = (c.record nid).length := by
        rw [hdrop, ← hL]
        apply consumed_eq
        · omega
        · omega
        · omega
      have hind : (pre.length + (c.record nid).length) % 2 ^ 32 = (pre ++ c.record nid).length := by
        rw [List.length_append]
        apply Nat.mod_eq_of_lt
        omega
      obtain ⟨steps, st', hloop, hmap⟩ := ih (pre ++ c.record nid)
        (dstc_process_function_call st (payload.drop pre.length)
          (payload.length - pre.length)).2 f
        (fun x hx => hall x (by simp [hx])) hpay2 (by simpa using hfuel)
      refine ⟨pre.length :: steps, st', ?_, ?_⟩
      · simp only [dstc_process_incoming_loop, hlt, if_true, hcons, hind, hloop]
      · simp only [List.map_cons, hmap, hdrop, hread]

theorem with_record_length (buf rec : List Nat) (c : Nat) (h : c + rec.length ≤ buf.length) :
    (buf.take c ++ rec ++ buf.drop (c + rec.length)).length = buf.length := by
  simp only [List.length_append, List.length_take, List.length_drop]
  omega

theorem queue_step_suspended (s s' : dstc_state) (c : queue_call) (hs : engine_state s)
    (hsus : s.ctx.pub_ctx.traffic_suspended = true) (h : c.perform s = .ok (0, s')) :
    c.accepted ∧ s' = with_record s (c.record s.ctx.pub_ctx.node_id) ∧
      s.ctx.pub_buffer_ind + (c.record s.ctx.pub_ctx.node_id).length ≤ s.ctx.pub_buffer.length := by
  have hcap := hs.2.2.1
  cases c with
  | func name arg n =>
    simp only [queue_call.perform] at h
    obtain ⟨nm, hnm, hne, hn, hfit, hq⟩ := dstc_queue_func_ok s hs _ _ _ _ h
    injection hnm with hnm
    subst hnm
    have hlen : (arg.take n).length = n := by simp only [List.length_take]; omega
    have hrl : (spec_named_record s.ctx.pub_ctx.node_id (cstr name) (arg.take n)).length
        = HEADER_SIZE + (strlen name + 1) + n := by
      rw [spec_named_record_length, hlen]; rfl
    refine ⟨⟨hne, hn, by omega⟩, ?_, by simp only [queue_call.record]; rw [hrl]; exact hfit⟩
    exact (queue_pending_calls_ok _ _ _ hq).2.1 (Or.inl hsus)
  | callback R arg n =>
    simp only [queue_call.perform] at h
    obtain ⟨hR, hn, hfit, hq⟩ := dstc_queue_callback_ok s hs _ _ _ _ h
    have hlen : (arg.take n).length = n := by simp only [List.length_take]; omega
    have hrl : (spec_callback_record s.ctx.pub_ctx.node_id R (arg.take n)).length
        = HEADER_SIZE + (1 + 8) + n := by
      rw [spec_callback_record_length, hlen]
    refine ⟨⟨hR, hn, by omega⟩, ?_, by simp only [queue_call.record]; rw [hrl]; exact hfit⟩
    exact (queue_pending_calls_ok _ _ _ hq).2.1 (Or.inl hsus)

theorem queue_all_suspended (calls : List queue_call) :
    ∀ (s sk : dstc_state), engine_state s → s.ctx.pub_ctx.traffic_suspended = true →
      dstc_queue_all s calls = some sk →
      (∀ c ∈ calls, c.accepted) ∧ sk.ctx.pub_buffer_ind ≤ sk.ctx.pub_buffer.length ∧
        sk.ctx.pub_buffer.length = s.ctx.pub_buffer.length ∧
        sk.ctx.pub_buffer.take sk.ctx.pub_buffer_ind
          = s.ctx.pub_buffer.take s.ctx.pub_buffer_ind
            ++ (calls.map (queue_call.record s.ctx.pub_ctx.node_id)).flatten := by
  induction calls with
  | nil =>
    intro s sk hs _ h
    simp only [dstc_queue_all] at h
    injection h with h
    subst h
    exact ⟨by simp, hs.2.1, rfl, by simp⟩
  | cons c cs ih =>
    intro s sk hs hsus h
    simp only [dstc_queue_all] at h
    split at h
    · rename_i rc s' hperf
      split at h
      · rename_i hrc
        subst hrc
        obtain ⟨hacc, hs', hfit⟩ := queue_step_suspended s s' c hs hsus hperf
        have hlen' : s'.ctx.pub_buffer.length = s.ctx.pub_buffer.length := by
          rw [hs']
          exact with_record_length _ _ _ hfit
        have hes' : engine_state s' := by
          refine ⟨by rw [hs']; exact hs.1, ?_, by rw [hlen']; exact hs.2.2.1,
            by rw [hs']; exact hs.2.2.2⟩
          rw [hlen']
          rw [hs']
          exact hfit
        have hsus' : s'.ctx.pub_ctx.traffic_suspended = true := by rw [hs']; exact hsus
        have hnid : s'.ctx.pub_ctx.node_id = s.ctx.pub_ctx.node_id := by rw [hs']; rfl
        obtain ⟨h1, h2, h3, h4⟩ := ih s' sk hes' hsus' h
        refine ⟨?_, h2, h3.trans hlen', ?_⟩
        · intro x hx
          rcases List.mem_cons.mp hx with hx | hx
          · rw [hx]; exact hacc
          · exact h1 x hx
        · rw [h4, hnid]
          have ht : s'.ctx.pub_buffer.take s'.ctx.pub_buffer_ind
              = s.ctx.pub_buffer.take s.ctx.pub_buffer_ind
                ++ c.record s.ctx.pub_ctx.node_id := by
            rw [hs']
            exact take_with_record _ _ _ _ hs.2.1
          rw [ht]
          simp [List.append_assoc]
      · cases h
    · cases h

/-- C11. Bundling preserves order: for every sequence of valid `queue_func` /
`queue_callback` calls that all return ok on an engine whose transport is suspended and
whose payload buffer is empty at the start, the inbound loop of `dstc_process_incoming`
run (by any receiving engine, with fuel for at least one iteration per call) over the
buffered bytes `[0, in_use())` returns, performs exactly as many decode steps as there
were calls, reads at the i-th step the invocation of the i-th call (same identifier, same
argument bytes, same argument length, node id of the sender), and stops with the offset
at `in_use()`. -/
theorem bundling_preserves_order (s0 sk r : dstc_state) (calls : List queue_call) (fuel : Nat)
    (hs : engine_state s0) (hempty : dstc_payload_buffer_in_use s0.ctx = 0)
    (hsus : s0.ctx.pub_ctx.traffic_suspended = true)
    (hvalid : ∀ c ∈ calls, c.valid) (hrun : dstc_queue_all s0 calls = some sk)
    (hfuel : calls.length ≤ fuel) :
    ∃ steps r',
      dstc_process_incoming_loop fuel r
          (sk.ctx.pub_buffer.take (dstc_payload_buffer_in_use sk.ctx))
          (dstc_payload_buffer_in_use sk.ctx) 0
        = some (dstc_payload_buffer_in_use sk.ctx, steps, r') ∧
      steps.length = calls.length ∧
      steps.map (fun ind => dstc_read_invocation
          ((sk.ctx.pub_buffer.take (dstc_payload_buffer_in_use sk.ctx)).drop ind))
        = calls.map (queue_call.invocation s0.ctx.pub_ctx.node_id) := by
  obtain ⟨hacc, hle, hlen, htake⟩ := queue_all_suspended calls s0 sk hs hsus hrun
  simp only [dstc_payload_buffer_in_use] at hempty ⊢
  rw [hempty, List.take_zero, List.nil_append] at htake
  have hplen : (sk.ctx.pub_buffer.take sk.ctx.pub_buffer_ind).length = sk.ctx.pub_buffer_ind := by
    simp only [List.length_take]; omega
  have hcap := hs.2.2.1
  have hpl : (sk.ctx.pub_buffer.take sk.ctx.pub_buffer_ind).length < 2 ^ 32 := by
    rw [hplen]
    norm_num at hcap ⊢
    omega
  obtain ⟨steps, r', hloop, hmap⟩ := loop_over_records s0.ctx.pub_ctx.node_id hs.2.2.2
    (sk.ctx.pub_buffer.take sk.ctx.pub_buffer_ind) hpl calls [] r fuel
    (fun c hc => ⟨hacc c hc, hvalid c hc⟩) (by rw [List.nil_append]; exact htake) hfuel
  rw [hplen] at hloop
  refine ⟨steps, r', hloop, ?_, hmap⟩
  have := congrArg List.length hmap
  simpa using this

theorem bundling_preserves_order_witness :
    ∃ steps r',
      dstc_process_incoming_loop 2 demo_state
          (demo_bundle.ctx.pub_buffer.take (dstc_payload_buffer_in_use demo_bundle.ctx))
          (dstc_payload_buffer_in_use demo_bundle.ctx) 0
        = some (dstc_payload_buffer_in_use demo_bundle.ctx, steps, r') ∧
      steps.length = demo_calls.length ∧
      steps.map (fun ind => dstc_read_invocation
          ((demo_bundle.ctx.pub_buffer.take (dstc_payload_buffer_in_use demo_bundle.ctx)).drop
            ind))
        = demo_calls.map (queue_call.invocation demo_suspended.ctx.pub_ctx.node_id) :=
  bundling_preserves_order demo_suspended demo_bundle demo_state demo_calls 2
    (by decide) (by decide) (by decide)
    (by
      intro c hc
      simp only [demo_calls, List.mem_cons, List.mem_singleton, List.not_mem_nil,
        or_false] at hc
      rcases hc with rfl | rfl
      · exact trivial
      · show (4096 : Nat) < 2 ^ 64
        decide)
    (by rfl) (by decide)

/-- The invocation read by `dstc_read_invocation` is the one `dstc_process_function_call`
hands to the dispatch handle it finds in a well-framed record. -/
theorem process_call_reads (s : dstc_state) (data : List Nat) (data_len : Nat)
    (h1 : HEADER_SIZE ≤ data_len) (h2 : le_read data 4 4 ≤ data_len - HEADER_SIZE) :
    (dstc_process_function_call s data data_len).2.dispatched = s.dispatched ∨
      ∃ f off, (dstc_process_function_call s data data_len).2.dispatched
        = s.dispatched ++
          [{ func := f, callback_ref := (dstc_read_invocation data).callback_ref
             node_id := (dstc_read_invocation data).node_id
             name := (dstc_read_invocation data).name, payload_off := off
             payload := (dstc_read_invocation data).payload
             payload_len := (dstc_read_invocation data).payload_len }] := by
  have h1' : ¬ data_len < HEADER_SIZE := by omega
  have h2' : ¬ data_len - HEADER_SIZE < le_read data 4 4 := by omega
  unfold dstc_process_function_call dstc_read_invocation
  simp only [h1', if_false, h2']
  by_cases hp : peek (data.drop HEADER_SIZE) 0 = 0
  · simp only [hp, ne_eq, not_true_eq_false, if_false]
    by_cases hf : (dstc_find_callback_by_ref s (le_read (data.drop HEADER_SIZE) 1 8)).1 = 0
    · left
      simp only [hf, if_true]
      rfl
    · right
      simp only [hf, if_false]
      exact ⟨_, _, rfl⟩
  · simp only [hp, ne_eq, not_false_eq_true, if_true]
    by_cases hf : dstc_find_server_function s (data.drop HEADER_SIZE) = 0
    · left
      simp only [hf, if_true]
    · right
      simp only [hf, if_false]
      exact ⟨_, _, rfl⟩

/-! ## Registration of local functions and setup -/

/-- C21 (evaluation at the failing input): a registration into a registry that holds
`SYMTAB_SIZE - 1` entries, one fewer than the table has slots, is fatal, for server
functions and for client functions alike; the last slot of either table is never
used. -/
theorem register_fatal_one_short (s : dstc_state) (name : List Nat) (f : Nat) :
    dstc_register_server_function (s.server_func.length + 1) s name f = .error (.exit 255) ∧
      dstc_register_client_function (s.client_func.length + 1) s name f
        = .error (.exit 255) ∧
      dstc_register_server_function 64 demo_registry name f = .error (.exit 255) ∧
      dstc_register_client_function 64 demo_registry name f = .error (.exit 255) ∧
      demo_registry.server_func.length = 63 ∧ demo_registry.client_func.length = 63 := by
  refine ⟨?_, ?_, ?_, ?_, by decide, by decide⟩
  · simp [dstc_register_server_function]
  · simp [dstc_register_client_function]
  · have h : demo_registry.server_func.length + 1 = 64 := by decide
    simp [dstc_register_server_function, h]
  · have h : demo_registry.client_func.length + 1 = 64 := by decide
    simp [dstc_register_client_function, h]

/-- Below `SYMTAB_SIZE - 1` entries a registration appends the pair at the next
index. -/
theorem register_server_appends (SYMTAB_SIZE : Nat) (s : dstc_state) (name : List Nat)
    (f : Nat) (h : s.server_func.length + 1 < SYMTAB_SIZE) :
    dstc_register_server_function SYMTAB_SIZE s name f
      = .ok { s with server_func := s.server_func ++
                [{ func_name := cstr name, server_func := f }] } := by
  have h1 : ¬ s.server_func.length + 1 = SYMTAB_SIZE := by omega
  simp [dstc_register_server_function, h1]

/-- C22: each of `dstc_setup`, `dstc_setup_epoll` and `dstc_setup2` returns `EBUSY` on
an engine that is already initialized and leaves the whole state, the engine context
included, as it was. -/
theorem second_setup_busy (s : dstc_state) (h : s.initialized = true) :
    dstc_setup s = (EBUSY, s) ∧
      (∀ epoll_fd_arg, dstc_setup_epoll s epoll_fd_arg = (EBUSY, s)) ∧
      (∀ epoll_fd_arg node_id, dstc_setup2 s epoll_fd_arg node_id = (EBUSY, s)) := by
  refine ⟨?_, ?_, ?_⟩
  · simp [dstc_setup, h]
  · intro fd
    simp [dstc_setup_epoll, h]
  · intro fd nid
    simp [dstc_setup2, h]

theorem second_setup_busy_witness :
    dstc_setup demo_state = (EBUSY, demo_state) ∧
      (∀ epoll_fd_arg, dstc_setup_epoll demo_state epoll_fd_arg = (EBUSY, demo_state)) ∧
      (∀ epoll_fd_arg node_id,
        dstc_setup2 demo_state epoll_fd_arg node_id = (EBUSY, demo_state)) :=
  second_setup_busy demo_state (by decide)

/-- A successful `dstc_setup_internal` sets the announce interval to 200000 exactly
when a client function or a callback client is counted. -/
theorem setup_internal_announce (s s' : dstc_state) (node_id : Nat) (fd : Int)
    (h : dstc_setup_internal s node_id fd = (0, s')) :
    (s'.ctx.pub_ctx.announce_interval = some 200000 ↔
        (s.client_func.length ≠ 0 ∨ s.client_callback_count ≠ 0)) ∧
      (s.client_func.length = 0 ∧ s.client_callback_count = 0 →
        s'.ctx.pub_ctx.announce_interval = none) := by
  unfold dstc_setup_internal at h
  by_cases hfd : fd = -1
  · simp [hfd, EINVAL] at h
  · simp only [hfd, if_false, Prod.mk.injEq, true_and] at h
    subst h
    by_cases hc : s.client_func.length ≠ 0 ∨ s.client_callback_count ≠ 0
    · simp only [hc, if_true, true_iff]
      refine ⟨trivial, ?_⟩
      intro h0
      rcases hc with hc | hc
      · exact absurd h0.1 hc
      · exact absurd h0.2 hc
    · simp only [hc, if_false, iff_false]
      refine ⟨?_, fun _ => ?_⟩ <;> simp [rmc_pub_init_context]

/-- The three setup entry points, when they succeed, set the announce interval as
`dstc_setup_internal` does. -/
theorem setup_announce (s s' : dstc_state) (fd : Int) (nid : Nat)
    (h : dstc_setup s = (0, s') ∨ dstc_setup_epoll s fd = (0, s') ∨
      dstc_setup2 s fd nid = (0, s')) :
    (s'.ctx.pub_ctx.announce_interval = some 200000 ↔
        (s.client_func.length ≠ 0 ∨ s.client_callback_count ≠ 0)) ∧
      (s.client_func.length = 0 ∧ s.client_callback_count = 0 →
        s'.ctx.pub_ctx.announce_interval = none) := by
  by_cases hi : s.initialized = true
  · rcases h with h | h | h
    · simp [dstc_setup, hi, EBUSY] at h
    · simp [dstc_setup_epoll, hi, EBUSY] at h
    · simp [dstc_setup2, hi, EBUSY] at h
  · have hi' : s.initialized = false := by simpa using hi
    rcases h with h | h | h
    · simp only [dstc_setup, dstc_setup_epoll, hi', Bool.false_eq_true, if_false] at h
      exact setup_internal_announce { s with initialized := true } _ _ _ h
    · simp only [dstc_setup_epoll, hi', Bool.false_eq_true, if_false] at h
      exact setup_internal_announce { s with initialized := true } _ _ _ h
    · simp only [dstc_setup2, hi', Bool.false_eq_true, if_false] at h
      exact setup_internal_announce { s with initialized := true } _ _ _ h

/-- Registering client functions appends one entry per function and leaves the
callback-client counter alone. -/
theorem register_clients_effect (SYMTAB_SIZE : Nat) (cs : List (List Nat × Nat)) :
    ∀ s s1 : dstc_state, dstc_register_client_functions SYMTAB_SIZE s cs = .ok s1 →
      s1.client_func.length = s.client_func.length + cs.length ∧
        s1.client_callback_count = s.client_callback_count := by
  induction cs with
  | nil =>
    intro s s1 h
    simp only [dstc_register_client_functions, Except.ok.injEq] at h
    subst h
    simp
  | cons c rest ih =>
    intro s s1 h
    simp only [dstc_register_client_functions] at h
    by_cases hb : s.client_func.length + 1 = SYMTAB_SIZE
    · simp [dstc_register_client_function, hb] at h
    · simp only [dstc_register_client_function, hb, if_false] at h
      obtain ⟨h1, h2⟩ := ih _ _ h
      simp only [List.length_append, List.length_singleton] at h1
      simp only [List.length_cons]
      exact ⟨by omega, h2⟩

/-- Registering `k` callback clients adds `k` to the counter, as long as the 32-bit
counter does not wrap, and leaves the client functions alone. -/
theorem register_callbacks_effect (k : Nat) :
    ∀ s : dstc_state, s.client_callback_count + k < 2 ^ 32 →
      (dstc_register_callback_clients k s).client_callback_count
          = s.client_callback_count + k ∧
        (dstc_register_callback_clients k s).client_func = s.client_func := by
  induction k with
  | zero =>
    intro s _
    simp [dstc_register_callback_clients]
  | succ k ih =>
    intro s h
    have hm : (s.client_callback_count + 1) % 2 ^ 32 = s.client_callback_count + 1 :=
      Nat.mod_eq_of_lt (by omega)
    have h2 := ih (dstc_register_callback_client s)
      (by simp only [dstc_register_callback_client, hm]; omega)
    simp only [dstc_register_callback_clients]
    simp only [dstc_register_callback_client, hm] at h2 ⊢
    exact ⟨by omega, h2.2⟩

/-- C23: a program starts with no client function and no callback client.  After it
has registered the client functions `cs` and `k` callback clients, a successful setup
(through any of the three entry points) sets the announce interval of the publisher to
200000 microseconds exactly when `cs` is not empty or `k` is not zero; with no client
function and no callback client no announce interval is set. -/
theorem announce_interval_iff (SYMTAB_SIZE : Nat) (s0 s1 s' : dstc_state)
    (cs : List (List Nat × Nat)) (k : Nat) (fd : Int) (nid : Nat)
    (h0 : s0.client_func = [] ∧ s0.client_callback_count = 0) (hk : k < 2 ^ 32)
    (hreg : dstc_register_client_functions SYMTAB_SIZE s0 cs = .ok s1)
    (hsetup : dstc_setup (dstc_register_callback_clients k s1) = (0, s') ∨
      dstc_setup_epoll (dstc_register_callback_clients k s1) fd = (0, s') ∨
      dstc_setup2 (dstc_register_callback_clients k s1) fd nid = (0, s')) :
    (s'.ctx.pub_ctx.announce_interval = some 200000 ↔ (cs ≠ [] ∨ k ≠ 0)) ∧
      (cs = [] ∧ k = 0 → s'.ctx.pub_ctx.announce_interval = none) := by
  obtain ⟨hA, hB⟩ := setup_announce _ _ fd nid hsetup
  obtain ⟨hl, hc⟩ := register_clients_effect SYMTAB_SIZE cs s0 s1 hreg
  have hc0 : s1.client_callback_count = 0 := by rw [hc, h0.2]
  obtain ⟨hk1, hk2⟩ := register_callbacks_effect k s1 (by rw [hc0]; omega)
  rw [hk1, hk2, hc0, hl, h0.1] at hA hB
  simp only [List.length_nil, Nat.zero_add, ne_eq, List.length_eq_zero] at hA hB
  exact ⟨hA, hB⟩

theorem announce_interval_iff_witness :
    ((dstc_setup (dstc_register_callback_clients 1
        { demo_fresh with client_func :=
            [{ func_name := [102, 111, 111], client_func := 900 }] })).2.ctx.pub_ctx.announce_interval
          = some 200000 ↔
        ([(([102, 111, 111] : List Nat), 900)] ≠ [] ∨ 1 ≠ 0)) ∧
      ([(([102, 111, 111] : List Nat), 900)] = [] ∧ 1 = 0 →
        (dstc_setup (dstc_register_callback_clients 1
          { demo_fresh with client_func :=
              [{ func_name := [102, 111, 111], client_func := 900 }] })).2.ctx.pub_ctx.announce_interval
          = none) :=
  announce_interval_iff 64 demo_fresh
    { demo_fresh with client_func := [{ func_name := [102, 111, 111], client_func := 900 }] }
    _ [([102, 111, 111], 900)] 1 3 0 (by decide) (by decide) (by rfl) (Or.inl (by rfl))

/-! ## Subscription complete -/

/-- A name of at most 254 bytes gives the control message of the specification followed
by one zero byte. -/
theorem control_message_eq (P : Nat) (nm : List Nat) (h : strlen nm + 2 ≤ 256) :
    dstc_control_message P nm = .ok (sent_control_message P (cstr nm)) := by
  unfold strlen at h
  have h1 : ¬ 256 < (cstr nm).length + 1 := by omega
  have hl : (le_bytes 4 P ++ (cstr nm ++ List.replicate (256 - (cstr nm).length) 0)).length
      = 260 := by
    simp only [List.length_append, le_bytes_length, List.length_replicate]
    omega
  have h2 : ¬ (le_bytes 4 P ++ (cstr nm ++ List.replicate (256 - (cstr nm).length) 0)).length
      < 4 + 1 + (cstr nm).length + 1 := by
    rw [hl]
    omega
  unfold dstc_control_message
  simp only [h1, if_false, h2]
  congr 1
  have e1 : 4 + 1 + (cstr nm).length + 1 = (le_bytes 4 P).length + ((cstr nm).length + 2) := by
    rw [le_bytes_length]
    omega
  rw [e1, List.take_append, List.take_append, List.take_replicate]
  have e2 : min 2 (256 - (cstr nm).length) = 2 := by omega
  rw [e2]
  simp [sent_control_message, List.replicate]

/-- The loop of `dstc_subscription_complete` over the slots below `n` writes one
message per slot, highest index first. -/
theorem subscription_loop (tbl : List dstc_server_func_t) (P : Nat)
    (hnames : ∀ e ∈ tbl, strlen e.func_name + 2 ≤ 256) :
    ∀ n, n ≤ tbl.length → ∀ sub : rmc_sub_context_t,
      dstc_subscription_complete_loop tbl P n sub
        = .ok (rmc_sub_context_t.mk (sub.control_messages ++
            (tbl.take n).reverse.map
              (fun e => (P, sent_control_message P (cstr e.func_name))))) := by
  intro n
  induction n with
  | zero =>
    intro _ sub
    simp [dstc_subscription_complete_loop]
  | succ n ih =>
    intro hn sub
    have hlt : n < tbl.length := by omega
    have hg : tbl.get? n = some (tbl.get ⟨n, hlt⟩) := List.get?_eq_get hlt
    have hmem : tbl.get ⟨n, hlt⟩ ∈ tbl := List.get_mem tbl n hlt
    have ht : tbl.take (n + 1) = tbl.take n ++ [tbl.get ⟨n, hlt⟩] := by
      rw [List.take_succ, List.getElem?_eq_getElem hlt]
      rfl
    simp only [dstc_subscription_complete_loop, hg,
      control_message_eq P _ (hnames _ hmem)]
    rw [ih (by omega), ht]
    simp only [rmc_sub_write_control_message_by_node_id, List.reverse_append,
      List.reverse_singleton, List.map_append, List.map_cons, List.map_nil,
      List.append_assoc, List.singleton_append]

/-- Two sent control messages for the same peer are equal exactly when their names
are. -/
theorem sent_control_message_inj (P : Nat) (a b : List Nat) :
    sent_control_message P a = sent_control_message P b ↔ a = b := by
  constructor
  · intro h
    simp only [sent_control_message, List.append_assoc] at h
    have h1 := List.append_cancel_left h
    have h2 : a ++ [0, 0] = b ++ [0, 0] := by simpa using h1
    exact List.append_cancel_right h2
  · intro h
    rw [h]

/-- C24: when the subscription to the peer `P` completes while the registry holds `n`
server functions (each name at most 254 bytes, so that it fits the control message
structure), the handler writes exactly `n` control messages, all addressed to `P`, one
per registry entry from the highest index down, each made of the 4-byte node id `P`, the
name of the entry, its NUL terminator and one more zero byte; every name is sent as
many times as it is registered, and nothing is sent for an empty registry. -/
theorem subscription_complete_advertises (s : dstc_state) (sub : rmc_sub_context_t) (P : Nat)
    (hnames : ∀ e ∈ s.server_func, strlen e.func_name + 2 ≤ 256) :
    ∃ sent, dstc_subscription_complete s sub P
        = .ok { sub with control_messages := sub.control_messages ++ sent } ∧
      sent.length = s.server_func.length ∧
      (∀ m ∈ sent, m.1 = P) ∧
      sent.map Prod.snd
        = s.server_func.reverse.map (fun e => sent_control_message P (cstr e.func_name)) ∧
      (∀ name, sent.countP (fun m => decide (m.2 = sent_control_message P name))
        = s.server_func.countP (fun e => decide (cstr e.func_name = name))) ∧
      (s.server_func = [] → sent = []) := by
  refine ⟨s.server_func.reverse.map
    (fun e => (P, sent_control_message P (cstr e.func_name))), ?_, ?_, ?_, ?_, ?_, ?_⟩
  · unfold dstc_subscription_complete
    rw [subscription_loop s.server_func P hnames _ (Nat.le_refl _), List.take_length]
  · simp
  · intro m hm
    simp only [List.mem_map] at hm
    obtain ⟨e, _, he⟩ := hm
    rw [← he]
  · simp [List.map_map, Function.comp_def]
  · intro name
    rw [List.countP_map, (List.reverse_perm s.server_func).countP_eq]
    congr 1
    funext e
    simp only [Function.comp_apply, sent_control_message_inj]
  · intro h
    simp [h]

theorem subscription_complete_advertises_witness :
    ∃ sent, dstc_subscription_complete demo_servers { control_messages := [] } 9
        = .ok { ({ control_messages := [] } : rmc_sub_context_t) with
                control_messages := [] ++ sent } ∧
      sent.length = demo_servers.server_func.length ∧
      (∀ m ∈ sent, m.1 = 9) ∧
      sent.map Prod.snd
        = demo_servers.server_func.reverse.map
            (fun e => sent_control_message 9 (cstr e.func_name)) ∧
      (∀ name, sent.countP (fun m => decide (m.2 = sent_control_message 9 name))
        = demo_servers.server_func.countP (fun e => decide (cstr e.func_name = name))) ∧
      (demo_servers.server_func = [] → sent = []) :=
  subscription_complete_advertises demo_servers { control_messages := [] } 9 (by decide)

/-! ## Slot choice of `dstc_activate_callback` -/

/-- The slot search stops at the lowest index whose dispatch handle is null. -/
theorem activate_slot_lowest :
    ∀ (tbl : List dstc_callback_entry_t) (i : Nat),
      (∃ e, tbl.get? i = some e ∧ e.callback = 0) →
      (∀ j e, j < i → tbl.get? j = some e → e.callback ≠ 0) →
      dstc_activate_callback_slot tbl = i := by
  intro tbl
  induction tbl with
  | nil =>
    intro i h _
    obtain ⟨e, he, _⟩ := h
    simp at he
  | cons x rest ih =>
    intro i h hlow
    cases i with
    | zero =>
      obtain ⟨e, he, h0⟩ := h
      simp only [List.get?_cons_zero, Option.some.injEq] at he
      subst he
      simp [dstc_activate_callback_slot, h0]
    | succ k =>
      have hx : x.callback ≠ 0 := hlow 0 x (by omega) (by simp)
      have hk := ih k (by simpa using h)
        (fun j e hj he => hlow (j + 1) e (by omega) (by simpa using he))
      simp [dstc_activate_callback_slot, hx, hk]

/-- Without a null dispatch handle the slot search ends at the high-water index. -/
theorem activate_slot_full :
    ∀ tbl : List dstc_callback_entry_t, (∀ e ∈ tbl, e.callback ≠ 0) →
      dstc_activate_callback_slot tbl = tbl.length := by
  intro tbl
  induction tbl with
  | nil =>
    intro _
    rfl
  | cons x rest ih =>
    intro h
    have hx : x.callback ≠ 0 := h x (by simp)
    have hr := ih (fun e he => h e (by simp [he]))
    simp [dstc_activate_callback_slot, hx, hr]

/-- C28 (counterexample): with 64 slots, all of them armed, `dstc_activate_callback`
does not store the pair at the high-water index and does not return the reference; the
call is fatal. -/
theorem activate_full_table_fatal :
    demo_full_table.ctx.local_callback.length = 64 ∧
      (∀ e ∈ demo_full_table.ctx.local_callback, e.callback ≠ 0) ∧
      dstc_activate_callback 64 demo_full_table 5000 88 = .error (.exit 255) := by
  refine ⟨by decide, by decide, ?_⟩
  have h : dstc_activate_callback_slot demo_full_table.ctx.local_callback = 64 := by decide
  simp [dstc_activate_callback, h]

/-- C28 (amended): for a pending-callback table of at most `SYMTAB_SIZE` slots,
`dstc_activate_callback` with reference `R` and dispatch handle `C` returns `R` and
stores the pair in the lowest slot below the high-water index whose dispatch handle is
null, all other slots and the high-water index staying as they are; when no slot is
empty and the high-water index is below `SYMTAB_SIZE`, the pair is appended at the
high-water index, which grows by one; when no slot is empty and the high-water index is
`SYMTAB_SIZE`, the call is fatal. -/
theorem activate_callback_slot_reuse (SYMTAB_SIZE : Nat) (s : dstc_state) (R C : Nat)
    (hlen : s.ctx.local_callback.length ≤ SYMTAB_SIZE) :
    (∀ i, (∃ e, s.ctx.local_callback.get? i = some e ∧ e.callback = 0) →
        (∀ j e, j < i → s.ctx.local_callback.get? j = some e → e.callback ≠ 0) →
        dstc_activate_callback SYMTAB_SIZE s R C
          = .ok (R,
              { s with
                ctx :=
                  { s.ctx with
                    local_callback :=
                      s.ctx.local_callback.set i { callback_ref := R, callback := C } } })) ∧
      ((∀ e ∈ s.ctx.local_callback, e.callback ≠ 0) →
        s.ctx.local_callback.length < SYMTAB_SIZE →
        dstc_activate_callback SYMTAB_SIZE s R C
          = .ok (R,
              { s with
                ctx :=
                  { s.ctx with
                    local_callback :=
                      s.ctx.local_callback ++ [{ callback_ref := R, callback := C }] } })) ∧
      ((∀ e ∈ s.ctx.local_callback, e.callback ≠ 0) →
        s.ctx.local_callback.length = SYMTAB_SIZE →
        dstc_activate_callback SYMTAB_SIZE s R C = .error (.exit 255)) := by
  refine ⟨?_, ?_, ?_⟩
  · intro i hi hlow
    have hs := activate_slot_lowest _ i hi hlow
    obtain ⟨e, he, _⟩ := hi
    have hlt : i < s.ctx.local_callback.length := by
      by_contra hge
      rw [List.get?_eq_none.mpr (by omega)] at he
      simp at he
    have h1 : ¬ i = SYMTAB_SIZE := by omega
    have h2 : ¬ i = s.ctx.local_callback.length := by omega
    simp only [dstc_activate_callback, hs, h1, h2, if_false]
  · intro hall hlt
    have hs := activate_slot_full _ hall
    have h1 : ¬ s.ctx.local_callback.length = SYMTAB_SIZE := by omega
    simp only [dstc_activate_callback, hs, h1, if_false, if_true]
  · intro hall heq
    have hs := activate_slot_full _ hall
    simp only [dstc_activate_callback, hs, heq, if_true]

theorem activate_callback_slot_reuse_witness :
    dstc_activate_callback 64 demo_freed_slot 5000 88
      = .ok (5000,
          { demo_freed_slot with
            ctx :=
              { demo_freed_slot.ctx with
                local_callback :=
                  demo_freed_slot.ctx.local_callback.set 1
                    { callback_ref := 5000, callback := 88 } } }) :=
  (activate_callback_slot_reuse 64 demo_freed_slot 5000 88 (by decide)).1 1
    ⟨{ callback_ref := 0, callback := 0 }, by rfl, by rfl⟩
    (fun j e hj he => by
      have h0 : j = 0 := by omega
      subst h0
      have he2 : e = { callback_ref := 4096, callback := 77 } := by
        have h1 : demo_freed_slot.ctx.local_callback.get? 0
            = some { callback_ref := 4096, callback := 77 } := by rfl
        rw [h1] at he
        exact (Option.some.inj he).symm
      rw [he2]
      decide)

/-! ## Progress of the inbound loop -/

/-- On a non-empty remainder `dstc_process_function_call` consumes at least one byte
and at most the remainder. -/
theorem process_call_bounds (s : dstc_state) (data : List Nat) (data_len : Nat)
    (h0 : 0 < data_len) (hlen : data_len < 2 ^ 32) :
    1 ≤ (dstc_process_function_call s data data_len).1 ∧
      (dstc_process_function_call s data data_len).1 ≤ data_len := by
  by_cases h1 : data_len < HEADER_SIZE
  · have : (dstc_process_function_call s data data_len).1 = data_len := by
      unfold dstc_process_function_call
      simp only [h1, if_true]
    omega
  · by_cases h2 : data_len - HEADER_SIZE < le_read data 4 4
    · have : (dstc_process_function_call s data data_len).1 = data_len := by
        unfold dstc_process_function_call
        simp only [h1, if_false, h2, if_true]
      omega
    · have := consumed_eq s data data_len hlen (by omega) (by omega)
      simp only [HEADER_SIZE] at this h1 h2
      omega

/-- The loop of `dstc_process_incoming` over a packet ends with the offset at the
payload length once the fuel covers the bytes left; its offsets increase strictly. -/
theorem incoming_loop_progress (payload : List Nat) (payload_len : Nat)
    (hp : payload_len < 2 ^ 32) :
    ∀ (fuel : Nat) (s : dstc_state) (ind : Nat), ind ≤ payload_len →
      payload_len - ind ≤ fuel →
      ∃ steps s', dstc_process_incoming_loop fuel s payload payload_len ind
          = some (payload_len, steps, s') ∧
        steps.length ≤ payload_len - ind ∧
        (∀ o ∈ steps, ind ≤ o ∧ o < payload_len) ∧
        steps.Pairwise (fun a b => a < b) := by
  intro fuel
  induction fuel with
  | zero =>
    intro s ind h1 h2
    have he : ind = payload_len := by omega
    refine ⟨[], s, ?_, by simp, by simp, by simp⟩
    simp [dstc_process_incoming_loop, he]
  | succ fuel ih =>
    intro s ind h1 h2
    by_cases hlt : ind < payload_len
    · obtain ⟨hb1, hb2⟩ := process_call_bounds s (payload.drop ind) (payload_len - ind)
        (by omega) (by omega)
      have hm : (ind + (dstc_process_function_call s (payload.drop ind)
          (payload_len - ind)).1) % 2 ^ 32
          = ind + (dstc_process_function_call s (payload.drop ind) (payload_len - ind)).1 :=
        Nat.mod_eq_of_lt (by omega)
      obtain ⟨steps, s', hl, hn, hr, hs⟩ :=
        ih (dstc_process_function_call s (payload.drop ind) (payload_len - ind)).2
          (ind + (dstc_process_function_call s (payload.drop ind) (payload_len - ind)).1)
          (by omega) (by omega)
      refine ⟨ind :: steps, s', ?_, ?_, ?_, ?_⟩
      · simp only [dstc_process_incoming_loop, hlt, if_true, hm, hl]
      · simp only [List.length_cons]
        omega
      · intro o ho
        simp only [List.mem_cons] at ho
        rcases ho with ho | ho
        · omega
        · have := hr o ho
          omega
      · rw [List.pairwise_cons]
        refine ⟨fun o ho => ?_, hs⟩
        have := hr o ho
        omega
    · have he : ind = payload_len := by omega
      refine ⟨[], s, ?_, by simp, by simp, by simp⟩
      simp [dstc_process_incoming_loop, he]

/-- C29: for a packet payload of any content and any 32-bit length, each call of
`dstc_process_function_call` on a non-empty remainder returns at least 1 and at most the
length of the remainder, in every engine state; the loop over the packet therefore ends
(any fuel of at least the payload length is enough) with the offset equal to the payload
length, after at most payload-length calls, at offsets that increase strictly and stay
below the payload length. -/
theorem inbound_loop_never_spins (s : dstc_state) (payload : List Nat) (payload_len : Nat)
    (hp : payload_len < 2 ^ 32) :
    (∀ (st : dstc_state) (ind : Nat), ind < payload_len →
        1 ≤ (dstc_process_function_call st (payload.drop ind) (payload_len - ind)).1 ∧
          ind + (dstc_process_function_call st (payload.drop ind) (payload_len - ind)).1
            ≤ payload_len) ∧
      ∀ fuel, payload_len ≤ fuel →
        ∃ steps s', dstc_process_incoming_loop fuel s payload payload_len 0
            = some (payload_len, steps, s') ∧
          steps.length ≤ payload_len ∧
          (∀ o ∈ steps, o < payload_len) ∧
          steps.Pairwise (fun a b => a < b) := by
  refine ⟨?_, ?_⟩
  · intro st ind hlt
    obtain ⟨hb1, hb2⟩ := process_call_bounds st (payload.drop ind) (payload_len - ind)
      (by omega) (by omega)
    exact ⟨hb1, by omega⟩
  · intro fuel hf
    obtain ⟨steps, s', hl, hn, hr, hs⟩ :=
      incoming_loop_progress payload payload_len hp fuel s 0 (by omega) (by omega)
    exact ⟨steps, s', hl, by omega, fun o ho => (hr o ho).2, hs⟩

theorem inbound_loop_never_spins_witness :
    (∀ (st : dstc_state) (ind : Nat), ind < 11 →
        1 ≤ (dstc_process_function_call st
            (([7, 0, 0, 0, 200, 0, 0, 0, 102, 111, 111] : List Nat).drop ind) (11 - ind)).1 ∧
          ind + (dstc_process_function_call st
            (([7, 0, 0, 0, 200, 0, 0, 0, 102, 111, 111] : List Nat).drop ind) (11 - ind)).1
            ≤ 11) ∧
      ∀ fuel, 11 ≤ fuel →
        ∃ steps s', dstc_process_incoming_loop fuel demo_state
            [7, 0, 0, 0, 200, 0, 0, 0, 102, 111, 111] 11 0 = some (11, steps, s') ∧
          steps.length ≤ 11 ∧
          (∀ o ∈ steps, o < 11) ∧
          steps.Pairwise (fun a b => a < b) :=
  inbound_loop_never_spins demo_state [7, 0, 0, 0, 200, 0, 0, 0, 102, 111, 111] 11 (by decide)

/-! ## Timers -/

/-- Inside the range of `int` the conversion keeps the value. -/
theorem to_int_of_range (v : Int) (h0 : -2 ^ 31 ≤ v) (h1 : v < 2 ^ 31) : to_int v = v := by
  unfold to_int
  norm_num at h0 h1 ⊢
  omega

/-- As long as the millisecond count fits an `int`, `dstc_get_timeout_msec` returns the
value the specification gives. -/
theorem timeout_msec_in_range (v : timer_view) (h : spec_timeout_ms v < 2 ^ 31) :
    dstc_get_timeout_msec v = spec_timeout_ms v := by
  unfold spec_timeout_ms at h ⊢
  unfold dstc_get_timeout_msec dstc_get_timeout_timestamp
  by_cases hp : v.pub_event_tout_ts = -1 <;> by_cases hs : v.sub_event_tout_ts = -1
  · simp [hp, hs]
  · simp only [hp, hs, true_and, false_and, and_false, not_true_eq_false, not_false_eq_true,
      ne_eq, if_true, if_false] at h ⊢
    by_cases hn : v.sub_event_tout_ts < v.now
    · have hn2 : v.sub_event_tout_ts - v.now < 0 := by omega
      simp [hn, hn2]
    · have hn2 : ¬ v.sub_event_tout_ts - v.now < 0 := by omega
      simp only [hn, hn2, if_false] at h ⊢
      rw [Int.tdiv_eq_ediv (by omega) (by norm_num)]
      exact to_int_of_range _ (by norm_num; omega) h
  · simp only [hp, hs, true_and, false_and, and_false, and_true, not_true_eq_false,
      not_false_eq_true, ne_eq, if_true, if_false] at h ⊢
    by_cases hn : v.pub_event_tout_ts < v.now
    · have hn2 : v.pub_event_tout_ts - v.now < 0 := by omega
      simp [hn, hn2]
    · have hn2 : ¬ v.pub_event_tout_ts - v.now < 0 := by omega
      simp only [hn, hn2, if_false] at h ⊢
      rw [Int.tdiv_eq_ediv (by omega) (by norm_num)]
      exact to_int_of_range _ (by norm_num; omega) h
  · simp only [hp, hs, true_and, false_and, and_false, and_true, not_true_eq_false,
      not_false_eq_true, ne_eq, if_true, if_false] at h ⊢
    by_cases hlt : v.pub_event_tout_ts < v.sub_event_tout_ts
    · have hmin : min v.pub_event_tout_ts v.sub_event_tout_ts = v.pub_event_tout_ts := by omega
      simp only [hlt, if_true, hmin] at h ⊢
      by_cases hn : v.pub_event_tout_ts < v.now
      · have hn2 : v.pub_event_tout_ts - v.now < 0 := by omega
        simp [hn, hn2, hp]
      · have hn2 : ¬ v.pub_event_tout_ts - v.now < 0 := by omega
        simp only [hn, hn2, if_false, hp] at h ⊢
        rw [Int.tdiv_eq_ediv (by omega) (by norm_num)]
        exact to_int_of_range _ (by norm_num; omega) h
    · have hmin : min v.pub_event_tout_ts v.sub_event_tout_ts = v.sub_event_tout_ts := by omega
      simp only [hlt, if_false, hmin] at h ⊢
      by_cases hn : v.sub_event_tout_ts < v.now
      · have hn2 : v.sub_event_tout_ts - v.now < 0 := by omega
        simp [hn, hn2, hs]
      · have hn2 : ¬ v.sub_event_tout_ts - v.now < 0 := by omega
        simp only [hn, hn2, if_false, hs] at h ⊢
        rw [Int.tdiv_eq_ediv (by omega) (by norm_num)]
        exact to_int_of_range _ (by norm_num; omega) h

/-- C25 (evaluation at the failing inputs): with the publisher's next timer
4294967294000 microseconds ahead of the clock and no subscriber timer,
`dstc_get_timeout_msec` returns -1 although a timer is pending, where the specification
gives 4294967295; with the timer 2147483647000 microseconds ahead it returns
-2147483648, a negative value other than -1. -/
theorem timeout_msec_narrowed :
    dstc_get_timeout_msec
        { pub_event_tout_ts := 4294967294000, sub_event_tout_ts := -1, now := 0 } = -1 ∧
      spec_timeout_ms
        { pub_event_tout_ts := 4294967294000, sub_event_tout_ts := -1, now := 0 }
          = 4294967295 ∧
      dstc_get_timeout_msec
        { pub_event_tout_ts := 2147483647000, sub_event_tout_ts := -1, now := 0 }
          = -2147483648 ∧
      spec_timeout_ms
        { pub_event_tout_ts := 2147483647000, sub_event_tout_ts := -1, now := 0 }
          = 2147483648 := by
  decide

/-! ## One pass of the event loop -/

/-- C27: when `epoll_wait` reports the ready events `events` (it did not fail),
`dstc_process_single_event` returns, and its return value is `ETIME` exactly when no
event was ready and 0 when at least one was; when none was ready and
`dstc_get_timeout_msec` gives 0 in that branch, the timeout processing of the
transport is called (`rmc_pub_timeout_process` is among the calls of the pass, after
the `epoll_wait`). -/
theorem single_event_result (L : user_data_layout) (s : dstc_state) (timeout : Int)
    (a : pass_answers) (events : List ready_event) (h : a.ready = some events) :
    ∃ rv s' calls, dstc_process_single_event L s timeout a = .ok (rv, s', calls) ∧
      (rv = ETIME ↔ events.length = 0) ∧
      (0 < events.length → rv = 0) ∧
      (events.length = 0 → dstc_get_timeout_msec a.idle_view = 0 →
        ∃ rest, calls = rmc_call.epoll_wait timeout :: rmc_call.pub_timeout_process :: rest) := by
  unfold dstc_process_single_event
  simp only [h]
  refine ⟨_, _, _, rfl, ?_, ?_, ?_⟩
  · by_cases h0 : events.length = 0
    · simp [h0]
    · simp [h0, ETIME]
  · intro hpos
    have h0 : ¬ events.length = 0 := by omega
    simp [h0]
  · intro h0 ht
    have he : events = [] := List.length_eq_zero.mp h0
    subst he
    simp only [List.length_nil, if_true, ht, List.reverse_nil, List.map_nil,
      List.flatten_nil, List.append_nil, List.singleton_append, List.cons_append]
    unfold dstc_process_timeout
    by_cases h1 : a.idle_rc.1 = EAGAIN
    · simp [h1]
    · by_cases h2 : a.idle_rc.2 = EAGAIN
      · simp [h1, h2]
      · simp [h1, h2]

theorem single_event_result_witness :
    ∃ rv s' calls, dstc_process_single_event demo_layout demo_state 0 demo_idle_pass
        = .ok (rv, s', calls) ∧
      (rv = ETIME ↔ ([] : List ready_event).length = 0) ∧
      (0 < ([] : List ready_event).length → rv = 0) ∧
      (([] : List ready_event).length = 0 →
        dstc_get_timeout_msec demo_idle_pass.idle_view = 0 →
        ∃ rest, calls = rmc_call.epoll_wait 0 :: rmc_call.pub_timeout_process :: rest) :=
  single_event_result demo_layout demo_state 0 demo_idle_pass [] (by rfl)

/-! ## The loop of `dstc_process_events` -/

/-- With the caller's timeout flagged, the selected wait is the caller's remaining
time, and no transport timer expires earlier. -/
theorem select_timeout_arg (a e : Int) (h : (dstc_select_timeout a e).2 = true) :
    a ≠ -1 ∧ (e = -1 ∨ a ≤ e) ∧ (dstc_select_timeout a e).1 = a := by
  by_cases ha : a = -1 <;> by_cases he : e = -1 <;> by_cases hlt : e < a <;>
    (simp [dstc_select_timeout, ha, he, hlt] at h ⊢; try omega)

/-- Without the flag, the selected wait is the value of `dstc_get_timeout_msec`. -/
theorem select_timeout_event (a e : Int) (h : (dstc_select_timeout a e).2 = false) :
    (dstc_select_timeout a e).1 = e := by
  by_cases ha : a = -1 <;> by_cases he : e = -1 <;> by_cases hlt : e < a <;>
    simp [dstc_select_timeout, ha, he, hlt] at h ⊢

/-- The selected wait is the smaller of the caller's remaining time and the value of
`dstc_get_timeout_msec`, `-1` counting as infinite on either side. -/
theorem select_timeout_min (a e : Int) :
    (dstc_select_timeout a e).1
      = if a = -1 then e else if e = -1 then a else min a e := by
  by_cases ha : a = -1 <;> by_cases he : e = -1 <;> by_cases hlt : e < a <;>
    simp [dstc_select_timeout, ha, he, hlt] <;> omega

/-- A pass of `dstc_process_single_event` returns `ETIME` exactly when `epoll_wait`
reported no ready event. -/
theorem single_event_etime (L : user_data_layout) (s : dstc_state) (timeout : Int)
    (a : pass_answers) (r : Nat × dstc_state × List rmc_call)
    (h : dstc_process_single_event L s timeout a = .ok r) :
    (r.1 = ETIME → a.ready = some []) ∧ (r.1 = ETIME ↔ (a.ready.getD []).length = 0) := by
  unfold dstc_process_single_event at h
  cases hr : a.ready with
  | none => simp [hr] at h
  | some events =>
    simp only [hr, Except.ok.injEq] at h
    subst h
    cases events with
    | nil => simp
    | cons x rest => simp [ETIME]

/-- When the loop of `dstc_process_events` returns `ETIME`, the pass it returns from
found nothing ready while waiting for the caller's remaining time, and every earlier
pass that returned `ETIME` waited for a transport timer. -/
theorem events_loop_etime (L : user_data_layout) (timeout_arg_ts : Int) :
    ∀ (script : List loop_answers) (s : dstc_state) (acc : List pass_record)
      (s' : dstc_state) (passes : List pass_record),
      dstc_process_events_loop L timeout_arg_ts s acc script = some (.ok (ETIME, s', passes)) →
      ∃ earlier p a, passes = acc ++ (earlier ++ [p]) ∧ a ∈ script ∧
        a.pass.ready = some [] ∧ p.nfds = 0 ∧ p.retval = ETIME ∧ p.is_arg_timeout = true ∧
        timeout_arg_ts ≠ -1 ∧ a.now < timeout_arg_ts ∧ p.now = a.now ∧
        p.timeout_arg_rel = Int.tdiv (timeout_arg_ts - a.now) 1000 + 1 ∧
        p.event_tout_rel = dstc_get_timeout_msec a.view ∧
        p.timeout = p.timeout_arg_rel ∧ p.wait = to_int p.timeout_arg_rel ∧
        (p.event_tout_rel = -1 ∨ p.timeout_arg_rel ≤ p.event_tout_rel) ∧
        ∀ q ∈ earlier, q.retval = ETIME →
          q.is_arg_timeout = false ∧ q.timeout = q.event_tout_rel := by
  intro script
  induction script with
  | nil =>
    intro s acc s' passes h
    simp [dstc_process_events_loop] at h
  | cons a script ih =>
    intro s acc s' passes h
    simp only [dstc_process_events_loop] at h
    by_cases hc : a.now < timeout_arg_ts ∨ timeout_arg_ts = -1
    · simp only [hc, if_true] at h
      cases hse : dstc_process_single_event L s
          (to_int (dstc_select_timeout
            (if timeout_arg_ts = -1 then -1 else Int.tdiv (timeout_arg_ts - a.now) 1000 + 1)
            (dstc_get_timeout_msec a.view)).1) a.pass with
      | error f => simp [hse] at h
      | ok r =>
        simp only [hse] at h
        obtain ⟨het1, het2⟩ := single_event_etime L s _ a.pass r hse
        by_cases hr : r.1 = ETIME
        · by_cases hsel : (dstc_select_timeout
              (if timeout_arg_ts = -1 then -1 else Int.tdiv (timeout_arg_ts - a.now) 1000 + 1)
              (dstc_get_timeout_msec a.view)).2 = true
          · simp only [hr, hsel, if_true, Option.some.injEq, Except.ok.injEq, Prod.mk.injEq,
              true_and] at h
            obtain ⟨ha1, ha2, ha3⟩ := select_timeout_arg _ _ hsel
            have hts : timeout_arg_ts ≠ -1 := by
              intro hts
              simp [hts] at ha1
            have hnow : a.now < timeout_arg_ts := by
              rcases hc with hc | hc
              · exact hc
              · exact absurd hc hts
            simp only [hts, if_false] at ha1 ha2 ha3 hsel
            refine ⟨[], dstc_loop_pass timeout_arg_ts a ETIME, a, h.2.symm, by simp, het1 hr,
              ?_, ?_, ?_, hts, hnow, ?_, ?_, ?_, ?_, ?_, ?_, ?_⟩
            · exact het2.mp hr
            · rfl
            · simp only [dstc_loop_pass, hts, if_false]
              exact hsel
            · rfl
            · simp only [dstc_loop_pass, hts, if_false]
            · rfl
            · simp only [dstc_loop_pass, hts, if_false]
              exact ha3
            · simp only [dstc_loop_pass, hts, if_false, ha3]
            · simp only [dstc_loop_pass, hts, if_false]
              exact ha2
            · intro q hq
              simp at hq
          · have hsel2 : (dstc_select_timeout
                (if timeout_arg_ts = -1 then -1 else Int.tdiv (timeout_arg_ts - a.now) 1000 + 1)
                (dstc_get_timeout_msec a.view)).2 = false := by
              simpa using hsel
            simp only [hr, hsel2, if_true, Bool.false_eq_true, if_false] at h
            obtain ⟨earlier, p, b, hp, hb, hrest⟩ := ih _ _ _ _ h
            obtain ⟨h1, h2, h3, h4, h5, h6, h7, h8, h9, h10, h11, h12, hq⟩ := hrest
            refine ⟨dstc_loop_pass timeout_arg_ts a ETIME :: earlier, p, b, ?_, by simp [hb],
              h1, h2, h3, h4, h5, h6, h7, h8, h9, h10, h11, h12, ?_⟩
            · rw [hp]
              simp
            · intro q hq2
              simp only [List.mem_cons] at hq2
              rcases hq2 with hq2 | hq2
              · intro _
                rw [hq2]
                exact ⟨hsel2, select_timeout_event _ _ hsel2⟩
              · exact hq q hq2
        · simp only [hr, if_false] at h
          obtain ⟨earlier, p, b, hp, hb, hrest⟩ := ih _ _ _ _ h
          obtain ⟨h1, h2, h3, h4, h5, h6, h7, h8, h9, h10, h11, h12, hq⟩ := hrest
          refine ⟨dstc_loop_pass timeout_arg_ts a r.1 :: earlier, p, b, ?_, by simp [hb],
            h1, h2, h3, h4, h5, h6, h7, h8, h9, h10, h11, h12, ?_⟩
          · rw [hp]
            simp
          · intro q hq2
            simp only [List.mem_cons] at hq2
            rcases hq2 with hq2 | hq2
            · intro hq3
              rw [hq2] at hq3
              exact absurd hq3 hr
            · exact hq q hq2
    · simp only [hc, if_false, Option.some.injEq, Except.ok.injEq, Prod.mk.injEq] at h
      simp [ETIME] at h

/-- After the setup step at its start, `dstc_process_single_event` sees an initialized
engine; running the step twice is running it once. -/
theorem setup_step_idem (s : dstc_state) :
    (if !(if !s.initialized then (dstc_setup s).2 else s).initialized then
        (dstc_setup (if !s.initialized then (dstc_setup s).2 else s)).2
      else (if !s.initialized then (dstc_setup s).2 else s))
      = (if !s.initialized then (dstc_setup s).2 else s) := by
  by_cases hi : s.initialized = true
  · simp [hi]
  · have hi' : s.initialized = false := by simpa using hi
    have h2 : (dstc_setup s).2.initialized = true := by
      simp only [dstc_setup, dstc_setup_epoll, hi', Bool.false_eq_true, if_false,
        dstc_setup_internal]
      by_cases hfd : s.env.epoll_create_fd = -1
      · simp [hfd]
      · simp [hfd]
    simp [hi', h2]

/-- C26: when `dstc_process_events` is called with a timeout other than 0 and returns
`ETIME`, the last pass it made found no descriptor ready (that pass returned `ETIME`)
and had the caller's timeout flagged: the wait it selected was the caller's remaining
time `(deadline - now) / 1000 + 1`, which was not larger than the value of
`dstc_get_timeout_msec` unless that value was -1; every earlier pass that returned
`ETIME` waited for the value of `dstc_get_timeout_msec` and did not end the call.  With
the timeout 0 the call returns what one `dstc_process_single_event(0)` returns. -/
theorem process_events_timed_out (L : user_data_layout) (s : dstc_state)
    (timeout_arg start_now : Int) (script : List loop_answers) :
    (timeout_arg ≠ 0 → ∀ s' passes,
        dstc_process_events L s timeout_arg start_now script = some (.ok (ETIME, s', passes)) →
        ∃ earlier p a, passes = earlier ++ [p] ∧ a ∈ script ∧
          a.pass.ready = some [] ∧ p.nfds = 0 ∧ p.retval = ETIME ∧ p.is_arg_timeout = true ∧
          timeout_arg ≠ -1 ∧ a.now < start_now + timeout_arg ∧ p.now = a.now ∧
          p.timeout_arg_rel = Int.tdiv (start_now + timeout_arg - a.now) 1000 + 1 ∧
          p.event_tout_rel = dstc_get_timeout_msec a.view ∧
          p.timeout = p.timeout_arg_rel ∧ p.wait = to_int p.timeout_arg_rel ∧
          (p.event_tout_rel = -1 ∨ p.timeout_arg_rel ≤ p.event_tout_rel) ∧
          ∀ q ∈ earlier, q.retval = ETIME →
            q.is_arg_timeout = false ∧ q.timeout = q.event_tout_rel) ∧
      (∀ a rest, dstc_process_events L s 0 start_now (a :: rest)
        = some ((dstc_process_single_event L s 0 a.pass).map
            (fun r => (r.1, r.2.1, [])))) := by
  refine ⟨?_, ?_⟩
  · intro hne s' passes h
    simp only [dstc_process_events, hne, if_false] at h
    obtain ⟨earlier, p, a, hp, ha, h1, h2, h3, h4, h5, h6, h7, h8, h9, h10, h11, h12, hq⟩ :=
      events_loop_etime L _ script _ [] s' passes h
    have hm1 : timeout_arg ≠ -1 := by
      intro hm
      simp [hm] at h5
    simp only [hm1, if_false] at h5 h6 h8
    exact ⟨earlier, p, a, by simpa using hp, ha, h1, h2, h3, h4, hm1, h6, h7, h8, h9, h10,
      h11, h12, hq⟩
  · intro a rest
    have hidem := setup_step_idem s
    simp only [dstc_process_events, if_true]
    unfold dstc_process_single_event
    simp only [hidem]
    cases a.pass.ready with
    | none => rfl
    | some events => rfl

theorem process_events_timed_out_witness :
    ∃ earlier p a,
      ([{ now := 0, timeout_arg_rel := 6, event_tout_rel := -1, timeout := 6
          is_arg_timeout := true, wait := 6, nfds := 0, retval := ETIME }] : List pass_record)
        = earlier ++ [p] ∧
      a ∈ [({ now := 0, view := demo_no_timer, pass := demo_quiet_pass } : loop_answers)] ∧
      a.pass.ready = some [] ∧ p.nfds = 0 ∧ p.retval = ETIME ∧ p.is_arg_timeout = true ∧
      (5000 : Int) ≠ -1 ∧ a.now < 0 + 5000 ∧ p.now = a.now ∧
      p.timeout_arg_rel = Int.tdiv (0 + 5000 - a.now) 1000 + 1 ∧
      p.event_tout_rel = dstc_get_timeout_msec a.view ∧
      p.timeout = p.timeout_arg_rel ∧ p.wait = to_int p.timeout_arg_rel ∧
      (p.event_tout_rel = -1 ∨ p.timeout_arg_rel ≤ p.event_tout_rel) ∧
      ∀ q ∈ earlier, q.retval = ETIME →
        q.is_arg_timeout = false ∧ q.timeout = q.event_tout_rel :=
  (process_events_timed_out demo_layout demo_state 5000 0
    [{ now := 0, view := demo_no_timer, pass := demo_quiet_pass }]).1 (by decide)
    demo_state _ (by rfl)

/-- C30 (evaluation at the failing input): with a timeout of 3000000000000
microseconds, the clock at 0 and no transport timer pending, the caller's remaining
time is 3000000001 milliseconds and is the selected wait, but the value handed to
`dstc_process_single_event` is -1294967295. -/
theorem wait_narrowed :
    dstc_process_events demo_layout demo_state 3000000000000 0
        [{ now := 0, view := demo_no_timer, pass := demo_quiet_pass }]
      = some (.ok (ETIME, demo_state,
          [{ now := 0, timeout_arg_rel := 3000000001, event_tout_rel := -1
             timeout := 3000000001, is_arg_timeout := true, wait := -1294967295
             nfds := 0, retval := ETIME }])) ∧
      dstc_process_single_event demo_layout demo_state (-1294967295) demo_quiet_pass
        = .ok (ETIME, demo_state, [rmc_call.epoll_wait (-1294967295)]) := by
  constructor <;> rfl

/-! ## Failed setup and failed enqueue -/

/-- C36 (evaluation at the failing input): `dstc_setup_epoll` with the handle -1 on an
engine that is not initialized returns `EINVAL` and leaves the engine flagged as
initialized, so that a later `dstc_setup_epoll`, `dstc_setup` or `dstc_setup2` with any
handle returns `EBUSY`; the same holds for `dstc_setup2` when `epoll_create` fails. -/
theorem failed_setup_stays_initialized (s : dstc_state) (fd : Int) (nid : Nat) :
    (dstc_setup_epoll { s with initialized := false } (-1)).1 = EINVAL ∧
      (dstc_setup_epoll { s with initialized := false } (-1)).2.initialized = true ∧
      dstc_setup_epoll (dstc_setup_epoll { s with initialized := false } (-1)).2 fd
        = (EBUSY, (dstc_setup_epoll { s with initialized := false } (-1)).2) ∧
      dstc_setup (dstc_setup_epoll { s with initialized := false } (-1)).2
        = (EBUSY, (dstc_setup_epoll { s with initialized := false } (-1)).2) ∧
      dstc_setup2 (dstc_setup_epoll { s with initialized := false } (-1)).2 fd nid
        = (EBUSY, (dstc_setup_epoll { s with initialized := false } (-1)).2) ∧
      dstc_setup_epoll demo_fresh (-1) = (EINVAL, { demo_fresh with initialized := true }) ∧
      dstc_setup_epoll { demo_fresh with initialized := true } 3
        = (EBUSY, { demo_fresh with initialized := true }) ∧
      dstc_setup2 { demo_fresh with env := { demo_fresh.env with epoll_create_fd := -1 } }
          (-1) 7
        = (EINVAL, { demo_fresh with
            initialized := true
            env := { demo_fresh.env with epoll_create_fd := -1 } }) := by
  have h1 : dstc_setup_epoll { s with initialized := false } (-1)
      = (EINVAL, { s with initialized := true }) := by
    simp [dstc_setup_epoll, dstc_setup_internal]
  rw [h1]
  refine ⟨rfl, rfl, ?_, ?_, ?_, by rfl, by rfl, by rfl⟩
  · simp [dstc_setup_epoll]
  · simp [dstc_setup]
  · simp [dstc_setup2]

/-- The state after a call of `dstc_queue` that returned a code other than 0 is the
state before the call, after the setup step when the engine was not initialized. -/
theorem dstc_queue_failed (s s' : dstc_state) (name : Option (List Nat)) (ref : Nat)
    (arg : List Nat) (n rc : Nat) (hrc : rc ≠ 0)
    (h : dstc_queue s name ref arg n = .ok (rc, s')) :
    s' = s ∨ (s.initialized = false ∧ s' = (dstc_setup s).2) := by
  unfold dstc_queue at h
  by_cases hinv : (name = none ∨ name.map cstr = some []) ∧ ref = 0
  · simp only [hinv, and_self, if_true, Except.ok.injEq, Prod.mk.injEq] at h
    exact Or.inl h.2.symm
  · simp only [hinv, if_false] at h
    split at h
    · injection h with h
      injection h with h1 h2
      by_cases hi : s.initialized = true
      · left
        simp only [hi, Bool.not_true, Bool.false_eq_true, if_false] at h2
        exact h2.symm
      · right
        have hi' : s.initialized = false := by simpa using hi
        simp only [hi', Bool.not_false, if_true] at h2
        exact ⟨hi', h2.symm⟩
    · split at h
      · cases h
      · exact absurd (queue_pending_calls_ok _ _ _ h).1 hrc

/-- C33: when `dstc_queue_func` or `dstc_queue_callback` returns a code other than 0
(`EBUSY` or `EINVAL`), the payload buffer holds the same bytes and the same cursor as
before the call and the list of packets handed to the transport is the same; on an
initialized engine the whole state is unchanged.  An engine that is not initialized
has an empty payload buffer and has handed nothing to the transport. -/
theorem failed_enqueue_atomic (s s' : dstc_state) (name : Option (List Nat)) (addr : Nat)
    (arg : List Nat) (n rc : Nat)
    (hfresh : s.initialized = false → s.ctx.pub_buffer_ind = 0 ∧ s.ctx.pub_ctx.queued = [])
    (hrc : rc ≠ 0)
    (h : dstc_queue_func s name arg n = .ok (rc, s') ∨
      dstc_queue_callback s addr arg n = .ok (rc, s')) :
    (rc = EBUSY ∨ rc = EINVAL) ∧
      s'.ctx.pub_buffer = s.ctx.pub_buffer ∧
      s'.ctx.pub_buffer_ind = s.ctx.pub_buffer_ind ∧
      s'.ctx.pub_ctx.queued = s.ctx.pub_ctx.queued ∧
      (s.initialized = true → s' = s) := by
  have hq : ∃ nm ref, dstc_queue s nm ref arg n = .ok (rc, s') := by
    rcases h with h | h
    · exact ⟨name, 0, h⟩
    · exact ⟨none, addr, h⟩
  obtain ⟨nm, ref, hq⟩ := hq
  have hcode : rc = EBUSY ∨ rc = EINVAL := by
    rcases dstc_queue_result s nm ref arg n rc s' hq with h0 | h1 | h2
    · exact absurd h0 hrc
    · exact Or.inl h1
    · exact Or.inr h2.1
  refine ⟨hcode, ?_⟩
  rcases dstc_queue_failed s s' nm ref arg n rc hrc hq with he | ⟨hi, he⟩
  · subst he
    exact ⟨rfl, rfl, rfl, fun _ => rfl⟩
  · obtain ⟨hc0, hq0⟩ := hfresh hi
    subst he
    refine ⟨?_, ?_, ?_, ?_⟩
    · exact (dstc_setup_buffer s).1
    · rcases (dstc_setup_buffer s).2 with h0 | h0
      · rw [h0, hc0]
      · exact h0
    · simp only [dstc_setup, dstc_setup_epoll, hi, Bool.false_eq_true, if_false,
        dstc_setup_internal]
      by_cases hfd : s.env.epoll_create_fd = -1
      · simp [hfd]
      · simp only [hfd, if_false]
        rw [hq0]
        by_cases hcl : s.client_func.length ≠ 0 ∨ s.client_callback_count ≠ 0
        · simp only [hcl, if_true, rmc_pub_init_context]
        · simp only [hcl, if_false, rmc_pub_init_context]
    · intro hi2
      rw [hi] at hi2
      exact absurd hi2 (by decide)

theorem failed_enqueue_atomic_witness :
    dstc_queue_func demo_pending (some [102, 111, 111]) [1, 2, 3] 3
        = .ok (EBUSY, demo_pending) ∧
      (EBUSY = EBUSY ∨ EBUSY = EINVAL) ∧
      demo_pending.ctx.pub_buffer = demo_pending.ctx.pub_buffer ∧
      demo_pending.ctx.pub_buffer_ind = demo_pending.ctx.pub_buffer_ind ∧
      demo_pending.ctx.pub_ctx.queued = demo_pending.ctx.pub_ctx.queued ∧
      (demo_pending.initialized = true → demo_pending = demo_pending) :=
  ⟨by rfl,
    failed_enqueue_atomic demo_pending demo_pending (some [102, 111, 111]) 0 [1, 2, 3] 3 EBUSY
      (by decide) (by decide) (Or.inl (by rfl))⟩

/-! ## Decoding of a record whose payload is too short -/

/-- C32 (evaluation at the failing inputs): three inputs pass both length checks of
`dstc_process_function_call` and make it read past the record.  A callback record with
`payload_len = 1` takes its reference from the eight bytes after the record (the same
record followed by zero bytes gives no invocation) and hands the dispatch handle an
argument region at offset 17 of length 4294967288; a named record with `payload_len = 3`
and no terminator inside the payload takes the terminator from the byte after the record
and hands over an argument length of 4294967295; a record with `payload_len = 0` takes
the whole name from the bytes after the record and hands over an argument length of
4294967292. -/
theorem decoding_leaves_record :
    (HEADER_SIZE ≤ 17 ∧ le_read demo_short_callback 4 4 = 1 ∧
      dstc_process_function_call demo_state demo_short_callback 17
        = (9, { demo_state with
            ctx := { demo_state.ctx with local_callback := [{ callback_ref := 0, callback := 0 }] }
            dispatched := [{ func := 77, callback_ref := 4096, node_id := 7, name := []
                             payload_off := 17, payload := [], payload_len := 4294967288 }] }) ∧
      demo_short_callback_zeros.take 9 = demo_short_callback.take 9 ∧
      dstc_process_function_call demo_state demo_short_callback_zeros 17 = (9, demo_state)) ∧
    (HEADER_SIZE ≤ 12 ∧ le_read demo_unterminated_name 4 4 = 3 ∧
      dstc_process_function_call demo_state demo_unterminated_name 12
        = (11, { demo_state with
            dispatched := [{ func := 55, callback_ref := 0, node_id := 7
                             name := [102, 111, 111], payload_off := 12, payload := []
                             payload_len := 4294967295 }] })) ∧
    (HEADER_SIZE ≤ 12 ∧ le_read demo_empty_payload 4 4 = 0 ∧
      dstc_process_function_call demo_state demo_empty_payload 12
        = (8, { demo_state with
            dispatched := [{ func := 55, callback_ref := 0, node_id := 7
                             name := [102, 111, 111], payload_off := 12, payload := []
                             payload_len := 4294967292 }] })) := by
  refine ⟨⟨by decide, by decide, ?_, by decide, ?_⟩, ⟨by decide, by decide, ?_⟩,
    ⟨by decide, by decide, ?_⟩⟩ <;> rfl

/-! ## The poll token -/

/-- Two numbers with no common bit have no bit set in both. -/
theorem land_zero_bits (a b : Nat) (h : a &&& b = 0) (k : Nat) :
    ¬ (a.testBit k = true ∧ b.testBit k = true) := by
  intro ⟨ha, hb⟩
  have := congrArg (fun x => x.testBit k) h
  simp [Nat.testBit_and, ha, hb] at this

/-- The bits of a number inside a mask are bits of the mask. -/
theorem land_self_bits (i m : Nat) (h : i &&& m = i) (k : Nat) (hk : i.testBit k = true) :
    m.testBit k = true := by
  have := congrArg (fun x => x.testBit k) h
  simp [Nat.testBit_and, hk] at this
  exact this

/-- The bits of a 32-bit number are below position 32. -/
theorem lt_bits (m : Nat) (h : m < 2 ^ 32) (k : Nat) (hk : m.testBit k = true) : k < 32 := by
  by_contra hge
  have h2 : m < 2 ^ k := lt_of_lt_of_le h (Nat.pow_le_pow_right (by norm_num) (by omega))
  rw [Nat.testBit_eq_false_of_lt h2] at hk
  exact absurd hk (by decide)

/-- Masking a token with the index mask and the complement of the event flag gives the
index back. -/
theorem token_index_bits (M E q i : Nat) (hM : M < 2 ^ 32) (hi : i &&& M = i)
    (hq : M &&& q = 0) (hE : M &&& E = 0) :
    (i ||| q ||| E) &&& M &&& ((2 ^ 32 - 1) ^^^ (E % 2 ^ 32)) = i := by
  apply Nat.eq_of_testBit_eq
  intro k
  have h1 := land_zero_bits _ _ hq k
  have h2 := land_zero_bits _ _ hE k
  have h3 := land_self_bits _ _ hi k
  have h4 := lt_bits _ hM k
  have h5 : (2 ^ 32 - 1 : Nat).testBit k = decide (k < 32) := Nat.testBit_two_pow_sub_one 32 k
  simp only [Nat.testBit_and, Nat.testBit_or, Nat.testBit_xor, h5, Nat.testBit_mod_two_pow]
  cases hik : i.testBit k <;> cases hmk : M.testBit k <;>
    cases hek : E.testBit k <;> cases hpk : q.testBit k <;> simp_all

/-- Masking a token with the publisher flag gives the flag part of the token back. -/
theorem token_flag_bits (M E q P i : Nat) (hi : i &&& M = i) (hP : M &&& P = 0)
    (hPE : P &&& E = 0) (hq : q = P ∨ q = 0) :
    (i ||| q ||| E) &&& P = q := by
  apply Nat.eq_of_testBit_eq
  intro k
  have h1 := land_zero_bits _ _ hP k
  have h2 := land_zero_bits _ _ hPE k
  have h3 := land_self_bits _ _ hi k
  simp only [Nat.testBit_and, Nat.testBit_or]
  rcases hq with hq | hq
  · subst hq
    cases hik : i.testBit k <;> cases hmk : M.testBit k <;>
      cases hek : E.testBit k <;> cases hpk : q.testBit k <;> simp_all
  · subst hq
    cases hik : i.testBit k <;> cases hmk : M.testBit k <;>
      cases hek : E.testBit k <;> cases hpk : P.testBit k <;> simp_all

/-- Decoding the token built for an index and a side gives the index and the side
back. -/
theorem token_decode (L : user_data_layout) (i p : Nat)
    (hM : L.USER_DATA_INDEX_MASK < 2 ^ 32)
    (hi : i &&& L.USER_DATA_INDEX_MASK = i)
    (hP : L.USER_DATA_INDEX_MASK &&& L.USER_DATA_PUB_FLAG = 0)
    (hE : L.USER_DATA_INDEX_MASK &&& L.DSTC_EVENT_FLAG = 0)
    (hPE : L.USER_DATA_PUB_FLAG &&& L.DSTC_EVENT_FLAG = 0)
    (hP0 : L.USER_DATA_PUB_FLAG ≠ 0) :
    FROM_EPOLL_EVENT_USER_DATA L (TO_EPOLL_EVENT_USER_DATA L i p) = i ∧
      IS_PUB L (TO_EPOLL_EVENT_USER_DATA L i p) = (if p ≠ 0 then 1 else 0) := by
  unfold FROM_EPOLL_EVENT_USER_DATA IS_PUB TO_EPOLL_EVENT_USER_DATA
  by_cases hp : p = 0
  · have hq : L.USER_DATA_INDEX_MASK &&& 0 = 0 := by simp
    refine ⟨?_, ?_⟩
    · simp only [hp, ne_eq, not_true_eq_false, if_false]
      exact token_index_bits _ _ 0 i hM hi hq hE
    · simp only [hp, ne_eq, not_true_eq_false, if_false,
        token_flag_bits _ _ 0 _ i hi hP hPE (Or.inr rfl)]
  · refine ⟨?_, ?_⟩
    · simp only [hp, ne_eq, not_false_eq_true, if_true]
      exact token_index_bits _ _ _ i hM hi hP hE
    · simp only [hp, ne_eq, not_false_eq_true, if_true,
        token_flag_bits _ _ _ _ i hi hP hPE (Or.inl rfl), hP0]

/-- C31: for a token layout whose index mask is a 32-bit value and shares no bit with
the publisher flag or the event flag, the two flags being distinct 32-bit values and
the publisher flag not zero, and for every index `i` inside the mask and every side:
the token built by `TO_EPOLL_EVENT_USER_DATA` fits the 32-bit field,
`FROM_EPOLL_EVENT_USER_DATA` gives `i` back, and `IS_PUB` is 1 exactly for the publisher
side (a non-zero `is_pub`) and 0 for the subscriber side; `dstc_process_epoll_result`
on a readable event carrying the token calls the read entry point of that side with
`i`. -/
theorem poll_token_round_trip (L : user_data_layout) (i is_pub : Nat)
    (hM : L.USER_DATA_INDEX_MASK < 2 ^ 32)
    (hPlt : L.USER_DATA_PUB_FLAG < 2 ^ 32) (hElt : L.DSTC_EVENT_FLAG < 2 ^ 32)
    (hi : i &&& L.USER_DATA_INDEX_MASK = i)
    (hP : L.USER_DATA_INDEX_MASK &&& L.USER_DATA_PUB_FLAG = 0)
    (hE : L.USER_DATA_INDEX_MASK &&& L.DSTC_EVENT_FLAG = 0)
    (hPE : L.USER_DATA_PUB_FLAG &&& L.DSTC_EVENT_FLAG = 0)
    (hP0 : L.USER_DATA_PUB_FLAG ≠ 0) :
    TO_EPOLL_EVENT_USER_DATA L i is_pub < 2 ^ 32 ∧
      FROM_EPOLL_EVENT_USER_DATA L (TO_EPOLL_EVENT_USER_DATA L i is_pub) = i ∧
      (IS_PUB L (TO_EPOLL_EVENT_USER_DATA L i is_pub) = 1 ↔ is_pub ≠ 0) ∧
      (IS_PUB L (TO_EPOLL_EVENT_USER_DATA L i is_pub) = 0 ↔ is_pub = 0) ∧
      dstc_process_epoll_result L
          { events := EPOLLIN, data_u32 := TO_EPOLL_EVENT_USER_DATA L i is_pub, write_rc := 0 }
        = (if is_pub ≠ 0 then [rmc_call.pub_read i] else [rmc_call.sub_read i]) := by
  obtain ⟨hfrom, hpub⟩ := token_decode L i is_pub hM hi hP hE hPE hP0
  have hilt : i < 2 ^ 32 := by
    have : i &&& L.USER_DATA_INDEX_MASK ≤ L.USER_DATA_INDEX_MASK := Nat.and_le_right
    rw [hi] at this
    omega
  refine ⟨?_, hfrom, ?_, ?_, ?_⟩
  · unfold TO_EPOLL_EVENT_USER_DATA
    apply Nat.or_lt_two_pow (Nat.or_lt_two_pow hilt ?_) hElt
    by_cases hp : is_pub = 0
    · simp [hp]
    · simp only [ne_eq, hp, not_false_eq_true, if_true]
      exact hPlt
  · rw [hpub]
    by_cases hp : is_pub = 0 <;> simp [hp]
  · rw [hpub]
    by_cases hp : is_pub = 0 <;> simp [hp]
  · unfold dstc_process_epoll_result
    simp only [hfrom, hpub]
    by_cases hp : is_pub = 0
    · simp [hp, EPOLLIN, EPOLLOUT]
    · simp [hp, EPOLLIN, EPOLLOUT]

theorem poll_token_round_trip_witness :
    TO_EPOLL_EVENT_USER_DATA demo_layout 2 1 < 2 ^ 32 ∧
      FROM_EPOLL_EVENT_USER_DATA demo_layout (TO_EPOLL_EVENT_USER_DATA demo_layout 2 1) = 2 ∧
      (IS_PUB demo_layout (TO_EPOLL_EVENT_USER_DATA demo_layout 2 1) = 1 ↔ 1 ≠ 0) ∧
      (IS_PUB demo_layout (TO_EPOLL_EVENT_USER_DATA demo_layout 2 1) = 0 ↔ 1 = 0) ∧
      dstc_process_epoll_result demo_layout
          { events := EPOLLIN, data_u32 := TO_EPOLL_EVENT_USER_DATA demo_layout 2 1
            write_rc := 0 }
        = (if 1 ≠ 0 then [rmc_call.pub_read 2] else [rmc_call.sub_read 2]) :=
  poll_token_round_trip demo_layout 2 1 (by decide) (by decide) (by decide) (by decide)
    (by decide) (by decide) (by decide) (by decide)

/-! ## Sequences of calls on the remote availability map -/

/-- After a registration that returns, the map holds the pairs it held before and the
registered pair. -/
theorem register_pairs (SYMTAB_SIZE : Nat) (s s1 : dstc_state) (Q0 : Nat) (n0 : List Nat)
    (h : dstc_register_remote_function SYMTAB_SIZE s Q0 n0 = .ok s1) (Q : Nat) (nm : List Nat) :
    (∃ e ∈ s1.ctx.remote_node, e.node_id = Q ∧ cstr e.func_name = nm)
      ↔ ((∃ e ∈ s.ctx.remote_node, e.node_id = Q ∧ cstr e.func_name = nm) ∨
          (Q = Q0 ∧ nm = cstr n0)) := by
  unfold dstc_register_remote_function at h
  by_cases hd : dstc_register_remote_function_loop s.ctx.remote_node Q0 n0
      s.ctx.remote_node.length = true
  · simp only [hd, if_true, Except.ok.injEq] at h
    subst h
    constructor
    · intro hx
      exact Or.inl hx
    · rintro (hx | ⟨hq, hn⟩)
      · exact hx
      · obtain ⟨e, he, h1, h2⟩ := (register_dup_iff s Q0 n0).mp hd
        exact ⟨e, he, by rw [h1, hq], by rw [h2, hn]⟩
  · simp only [hd, Bool.false_eq_true, if_false] at h
    by_cases hl : s.ctx.remote_node.length = SYMTAB_SIZE
    · simp [hl] at h
    · simp only [hl, if_false, Except.ok.injEq] at h
      subst h
      simp only [List.mem_append, List.mem_singleton]
      constructor
      · rintro ⟨e, he | he, h1, h2⟩
        · exact Or.inl ⟨e, he, h1, h2⟩
        · subst he
          simp only [cstr_idem] at h2
          exact Or.inr ⟨h1.symm, h2.symm⟩
      · rintro (⟨e, he, h1, h2⟩ | ⟨hq, hn⟩)
        · exact ⟨e, Or.inl he, h1, h2⟩
        · exact ⟨_, Or.inr rfl, hq.symm, by simp only [cstr_idem]; exact hn.symm⟩

/-- After `dstc_unregister_remote_node` for the peer `Q0` the map holds, under
non-empty names, the pairs of the other peers. -/
theorem unregister_pairs (s : dstc_state) (Q0 Q : Nat) (nm : List Nat) (hnm : nm ≠ []) :
    (∃ e ∈ (dstc_unregister_remote_node s Q0).ctx.remote_node,
        e.node_id = Q ∧ cstr e.func_name = nm)
      ↔ ((∃ e ∈ s.ctx.remote_node, e.node_id = Q ∧ cstr e.func_name = nm) ∧ Q ≠ Q0) := by
  simp only [dstc_unregister_remote_node, List.mem_map]
  constructor
  · rintro ⟨e', ⟨e, he, hf⟩, h1, h2⟩
    by_cases hq : Q0 = e.node_id
    · simp only [hq, if_true] at hf
      subst hf
      have hz : cstr (0 :: e.func_name.drop 1) = [] := by simp [cstr]
      rw [hz] at h2
      exact absurd h2.symm hnm
    · simp only [hq, if_false] at hf
      subst hf
      refine ⟨⟨e, he, h1, h2⟩, ?_⟩
      intro hx
      exact hq (by rw [h1, hx])
  · rintro ⟨⟨e, he, h1, h2⟩, hne⟩
    refine ⟨e, ⟨e, he, ?_⟩, h1, h2⟩
    have hq : ¬ Q0 = e.node_id := by
      intro hx
      exact hne (by rw [← h1, hx])
    simp only [hq, if_false]

/-- A registration in a sequence that starts with one more call is that call or a
registration in the rest. -/
theorem live_cons (Q : Nat) (nm : List Nat) (op : remote_op) (rest : List remote_op) :
    (∃ pre post name, op :: rest = pre ++ remote_op.register Q name :: post ∧
        cstr name = nm ∧ remote_op.unregister Q ∉ post)
      ↔ ((∃ name, op = remote_op.register Q name ∧ cstr name = nm ∧
            remote_op.unregister Q ∉ rest) ∨
          ∃ pre post name, rest = pre ++ remote_op.register Q name :: post ∧
            cstr name = nm ∧ remote_op.unregister Q ∉ post) := by
  constructor
  · rintro ⟨pre, post, name, h, hn, hu⟩
    cases pre with
    | nil =>
      simp only [List.nil_append, List.cons.injEq] at h
      left
      exact ⟨name, h.1, hn, by rw [h.2]; exact hu⟩
    | cons x pre' =>
      simp only [List.cons_append, List.cons.injEq] at h
      right
      exact ⟨pre', post, name, h.2, hn, hu⟩
  · rintro (⟨name, h, hn, hu⟩ | ⟨pre, post, name, h, hn, hu⟩)
    · exact ⟨[], rest, name, by rw [h]; rfl, hn, hu⟩
    · exact ⟨op :: pre, post, name, by rw [h]; rfl, hn, hu⟩

/-- The pairs held by the map after a sequence of calls: those registered in the
sequence with no later unregistration of their peer, and those held before whose peer
is not unregistered in the sequence. -/
theorem run_pairs (SYMTAB_SIZE : Nat) :
    ∀ (ops : List remote_op) (s s' : dstc_state),
      dstc_remote_run SYMTAB_SIZE s ops = .ok s' →
      ∀ (Q : Nat) (nm : List Nat), nm ≠ [] →
        ((∃ e ∈ s'.ctx.remote_node, e.node_id = Q ∧ cstr e.func_name = nm)
          ↔ ((∃ pre post name, ops = pre ++ remote_op.register Q name :: post ∧
                cstr name = nm ∧ remote_op.unregister Q ∉ post) ∨
              ((∃ e ∈ s.ctx.remote_node, e.node_id = Q ∧ cstr e.func_name = nm) ∧
                remote_op.unregister Q ∉ ops))) := by
  intro ops
  induction ops with
  | nil =>
    intro s s' h Q nm _
    simp only [dstc_remote_run, Except.ok.injEq] at h
    subst h
    simp
  | cons op rest ih =>
    intro s s' h Q nm hnm
    simp only [dstc_remote_run] at h
    cases hop : op.perform SYMTAB_SIZE s with
    | error f => simp [hop] at h
    | ok s1 =>
      simp only [hop] at h
      rw [ih s1 s' h Q nm hnm, live_cons]
      cases op with
      | register Q0 n0 =>
        simp only [remote_op.perform] at hop
        rw [register_pairs SYMTAB_SIZE s s1 Q0 n0 hop Q nm]
        simp only [List.mem_cons, remote_op.register.injEq, reduceCtorEq, false_or]
        constructor
        · rintro (hl | ⟨hx | ⟨hq, hn⟩, hu⟩)
          · exact Or.inl (Or.inr hl)
          · exact Or.inr ⟨hx, hu⟩
          · exact Or.inl (Or.inl ⟨n0, ⟨hq.symm, rfl⟩, hn.symm, hu⟩)
        · rintro ((⟨name, ⟨hq, hn0⟩, hn, hu⟩ | hl) | ⟨hx, hu⟩)
          · exact Or.inr ⟨Or.inr ⟨hq.symm, by rw [← hn, hn0]⟩, hu⟩
          · exact Or.inl hl
          · exact Or.inr ⟨Or.inl hx, hu⟩
      | unregister Q0 =>
        simp only [remote_op.perform, Except.ok.injEq] at hop
        subst hop
        rw [unregister_pairs s Q0 Q nm hnm]
        simp only [List.mem_cons, remote_op.unregister.injEq, reduceCtorEq, false_and,
          exists_false, false_or, not_or]
        constructor
        · rintro (hl | ⟨⟨hx, hne⟩, hu⟩)
          · exact Or.inl hl
          · exact Or.inr ⟨hx, hne, hu⟩
        · rintro (hl | ⟨hx, hne, hu⟩)
          · exact Or.inl hl
          · exact Or.inr ⟨⟨hx, hne⟩, hu⟩

/-- C34: starting from an empty availability map, after every sequence of
`dstc_register_remote_function` and `dstc_unregister_remote_node` calls that returns
(no registration hits the table bound) and for every non-empty name `N`,
`dstc_remote_function_available_by_name(N)` returns 1 exactly when the sequence contains
a registration of `N` by some peer `Q` with no unregistration of `Q` after it, and
returns 0 otherwise. -/
theorem availability_exact (SYMTAB_SIZE : Nat) (s0 s : dstc_state) (ops : List remote_op)
    (N : List Nat) (h0 : s0.ctx.remote_node = []) (hN : cstr N ≠ [])
    (hrun : dstc_remote_run SYMTAB_SIZE s0 ops = .ok s) :
    (dstc_remote_function_available_by_name s N = 1
        ↔ ∃ Q pre post name, ops = pre ++ remote_op.register Q name :: post ∧
            cstr name = cstr N ∧ remote_op.unregister Q ∉ post) ∧
      (dstc_remote_function_available_by_name s N = 0
        ↔ ¬ ∃ Q pre post name, ops = pre ++ remote_op.register Q name :: post ∧
            cstr name = cstr N ∧ remote_op.unregister Q ∉ post) := by
  have key : (∃ e ∈ s.ctx.remote_node, cstr e.func_name = cstr N)
      ↔ ∃ Q pre post name, ops = pre ++ remote_op.register Q name :: post ∧
          cstr name = cstr N ∧ remote_op.unregister Q ∉ post := by
    constructor
    · rintro ⟨e, he, hn⟩
      have := (run_pairs SYMTAB_SIZE ops s0 s hrun e.node_id (cstr N) hN).mp ⟨e, he, rfl, hn⟩
      rcases this with hl | ⟨⟨e0, he0, _⟩, _⟩
      · exact ⟨e.node_id, hl⟩
      · rw [h0] at he0
        simp at he0
    · rintro ⟨Q, hl⟩
      obtain ⟨e, he, _, hn⟩ :=
        (run_pairs SYMTAB_SIZE ops s0 s hrun Q (cstr N) hN).mpr (Or.inl hl)
      exact ⟨e, he, hn⟩
  rw [available_by_name_one_iff, available_by_name_zero_iff, key]
  exact ⟨Iff.rfl, Iff.rfl⟩

theorem availability_exact_witness :
    (dstc_remote_function_available_by_name
        (dstc_unregister_remote_node
          { demo_state with ctx := { demo_state.ctx with
              remote_node := [{ node_id := 5, func_name := [102, 111, 111] },
                              { node_id := 7, func_name := [102, 111, 111] }] } } 5)
        [102, 111, 111] = 1
        ↔ ∃ Q pre post name,
            [remote_op.register 5 [102, 111, 111], remote_op.register 7 [102, 111, 111],
              remote_op.unregister 5] = pre ++ remote_op.register Q name :: post ∧
            cstr name = cstr [102, 111, 111] ∧ remote_op.unregister Q ∉ post) ∧
      (dstc_remote_function_available_by_name
        (dstc_unregister_remote_node
          { demo_state with ctx := { demo_state.ctx with
              remote_node := [{ node_id := 5, func_name := [102, 111, 111] },
                              { node_id := 7, func_name := [102, 111, 111] }] } } 5)
        [102, 111, 111] = 0
        ↔ ¬ ∃ Q pre post name,
            [remote_op.register 5 [102, 111, 111], remote_op.register 7 [102, 111, 111],
              remote_op.unregister 5] = pre ++ remote_op.register Q name :: post ∧
            cstr name = cstr [102, 111, 111] ∧ remote_op.unregister Q ∉ post) :=
  availability_exact 64 demo_state _
    [remote_op.register 5 [102, 111, 111], remote_op.register 7 [102, 111, 111],
      remote_op.unregister 5] [102, 111, 111] (by rfl) (by decide) (by rfl)

/-- The function `dstc_unregister_remote_node` keeps the number of slots. -/
theorem unregister_length (s : dstc_state) (Q : Nat) :
    (dstc_unregister_remote_node s Q).ctx.remote_node.length = s.ctx.remote_node.length := by
  simp [dstc_unregister_remote_node]

/-- A registration that returns leaves the slots as they are or appends one slot. -/
theorem register_appends (SYMTAB_SIZE : Nat) (s s1 : dstc_state) (Q : Nat) (N : List Nat)
    (h : dstc_register_remote_function SYMTAB_SIZE s Q N = .ok s1) :
    s1.ctx.remote_node = s.ctx.remote_node ∨
      (s.ctx.remote_node.length ≠ SYMTAB_SIZE ∧
        s1.ctx.remote_node = s.ctx.remote_node ++ [{ node_id := Q, func_name := cstr N }]) := by
  unfold dstc_register_remote_function at h
  by_cases hd : dstc_register_remote_function_loop s.ctx.remote_node Q N
      s.ctx.remote_node.length = true
  · simp only [hd, if_true, Except.ok.injEq] at h
    subst h
    exact Or.inl rfl
  · simp only [hd, Bool.false_eq_true, if_false] at h
    by_cases hl : s.ctx.remote_node.length = SYMTAB_SIZE
    · simp [hl] at h
    · simp only [hl, if_false, Except.ok.injEq] at h
      subst h
      exact Or.inr ⟨hl, rfl⟩

/-- Along a sequence of calls the number of slots does not shrink and stays within
`SYMTAB_SIZE`. -/
theorem run_length (SYMTAB_SIZE : Nat) :
    ∀ (ops : List remote_op) (s s' : dstc_state),
      dstc_remote_run SYMTAB_SIZE s ops = .ok s' →
      s.ctx.remote_node.length ≤ s'.ctx.remote_node.length ∧
        (s.ctx.remote_node.length ≤ SYMTAB_SIZE →
          s'.ctx.remote_node.length ≤ SYMTAB_SIZE) := by
  intro ops
  induction ops with
  | nil =>
    intro s s' h
    simp only [dstc_remote_run, Except.ok.injEq] at h
    subst h
    exact ⟨Nat.le_refl _, fun hx => hx⟩
  | cons op rest ih =>
    intro s s' h
    simp only [dstc_remote_run] at h
    cases hop : op.perform SYMTAB_SIZE s with
    | error f => simp [hop] at h
    | ok s1 =>
      simp only [hop] at h
      obtain ⟨h1, h2⟩ := ih s1 s' h
      cases op with
      | register Q N =>
        simp only [remote_op.perform] at hop
        rcases register_appends SYMTAB_SIZE s s1 Q N hop with he | ⟨hne, he⟩
        · rw [he] at h1 h2
          exact ⟨h1, h2⟩
        · rw [he, List.length_append, List.length_singleton] at h1 h2
          exact ⟨by omega, fun hx => h2 (by omega)⟩
      | unregister Q =>
        simp only [remote_op.perform, Except.ok.injEq] at hop
        subst hop
        rw [unregister_length] at h1 h2
        exact ⟨h1, h2⟩

/-- With all slots in use, a registration of a pair that no slot holds is fatal. -/
theorem register_full_fatal (SYMTAB_SIZE : Nat) (s : dstc_state) (Q : Nat) (N : List Nat)
    (hfull : s.ctx.remote_node.length = SYMTAB_SIZE)
    (hnew : ¬ ∃ e ∈ s.ctx.remote_node, e.node_id = Q ∧ cstr e.func_name = cstr N) :
    dstc_register_remote_function SYMTAB_SIZE s Q N = .error (.exit 255) := by
  have hd : ¬ dstc_register_remote_function_loop s.ctx.remote_node Q N
      s.ctx.remote_node.length = true := by
    intro hx
    exact hnew ((register_dup_iff s Q N).mp hx)
  unfold dstc_register_remote_function
  rw [if_neg hd, if_pos hfull]

/-- C35: `dstc_unregister_remote_node` keeps the high-water index of the availability
map; a `dstc_register_remote_function` that returns leaves every existing slot as it is
and either changes nothing or appends one slot at the high-water index, which was below
`SYMTAB_SIZE`; along every sequence of the two calls the high-water index does not
decrease and, starting within `SYMTAB_SIZE`, stays within it; and once the high-water
index is `SYMTAB_SIZE`, after any further sequence of calls (unregistrations of every
peer included) the registration of a pair that no slot holds is fatal, in particular
that of any non-empty name once all slots are cleared. -/
theorem remote_slots_never_reclaimed (SYMTAB_SIZE : Nat) (s : dstc_state) :
    (∀ Q, (dstc_unregister_remote_node s Q).ctx.remote_node.length
        = s.ctx.remote_node.length) ∧
      (∀ Q N s1, dstc_register_remote_function SYMTAB_SIZE s Q N = .ok s1 →
        s1.ctx.remote_node = s.ctx.remote_node ∨
          s.ctx.remote_node.length ≠ SYMTAB_SIZE ∧
            s1.ctx.remote_node
              = s.ctx.remote_node ++ [{ node_id := Q, func_name := cstr N }]) ∧
      (∀ ops s', dstc_remote_run SYMTAB_SIZE s ops = .ok s' →
        s.ctx.remote_node.length ≤ s'.ctx.remote_node.length ∧
          (s.ctx.remote_node.length ≤ SYMTAB_SIZE →
            s'.ctx.remote_node.length ≤ SYMTAB_SIZE)) ∧
      (s.ctx.remote_node.length = SYMTAB_SIZE →
        ∀ ops s', dstc_remote_run SYMTAB_SIZE s ops = .ok s' →
          s'.ctx.remote_node.length = SYMTAB_SIZE ∧
          (∀ Q N, (¬ ∃ e ∈ s'.ctx.remote_node, e.node_id = Q ∧ cstr e.func_name = cstr N) →
            dstc_register_remote_function SYMTAB_SIZE s' Q N = .error (.exit 255)) ∧
          ((∀ e ∈ s'.ctx.remote_node, cstr e.func_name = []) →
            ∀ Q N, cstr N ≠ [] →
              dstc_register_remote_function SYMTAB_SIZE s' Q N = .error (.exit 255))) := by
  refine ⟨unregister_length s, ?_, fun ops => run_length SYMTAB_SIZE ops s, ?_⟩
  · intro Q N s1 h
    rcases register_appends SYMTAB_SIZE s s1 Q N h with he | ⟨hne, he⟩
    · exact Or.inl he
    · exact Or.inr ⟨hne, he⟩
  · intro hfull ops s' hrun
    obtain ⟨h1, h2⟩ := run_length SYMTAB_SIZE ops s s' hrun
    have hlen : s'.ctx.remote_node.length = SYMTAB_SIZE := by
      have := h2 (by omega)
      omega
    refine ⟨hlen, fun Q N hnew => register_full_fatal SYMTAB_SIZE s' Q N hlen hnew, ?_⟩
    intro hclr Q N hN
    apply register_full_fatal SYMTAB_SIZE s' Q N hlen
    rintro ⟨e, he, _, hn⟩
    rw [hclr e he] at hn
    exact hN hn.symm

theorem remote_slots_never_reclaimed_witness :
    (dstc_unregister_remote_node (dstc_unregister_remote_node demo_remote 5) 7).ctx.remote_node.length
        = 2 ∧
      (∀ Q N, (¬ ∃ e ∈ (dstc_unregister_remote_node
            (dstc_unregister_remote_node demo_remote 5) 7).ctx.remote_node,
          e.node_id = Q ∧ cstr e.func_name = cstr N) →
        dstc_register_remote_function 2
          (dstc_unregister_remote_node (dstc_unregister_remote_node demo_remote 5) 7) Q N
            = .error (.exit 255)) ∧
      ((∀ e ∈ (dstc_unregister_remote_node
            (dstc_unregister_remote_node demo_remote 5) 7).ctx.remote_node,
          cstr e.func_name = []) →
        ∀ Q N, cstr N ≠ [] →
          dstc_register_remote_function 2
            (dstc_unregister_remote_node (dstc_unregister_remote_node demo_remote 5) 7) Q N
              = .error (.exit 255)) :=
  (remote_slots_never_reclaimed 2 demo_remote).2.2.2 (by decide)
    [remote_op.unregister 5, remote_op.unregister 7] _ (by rfl)

end Dstc
